import Mathlib

/-!
Breakout physics core: body kinematics, SAT collision detector, force generators

A shallow embedding of `library/body.c`, `library/collision.c` and
`library/forces.c`.

Number model.  A value of the type `double` below is a rational number or one
of the IEEE special values `+inf`, `-inf`, `NaN`; the binary64 values are those
that `double.round` leaves unchanged.  There are two families of operations:

* `fadd`, `fsub`, `fmul`, `fdiv` are the C operators `+ - * /` of IEEE 754
  binary64: the exact result rounded to the nearest binary64 value, ties to
  even, with overflow to an infinity and gradual underflow (the sign of zero
  is not modelled).  They are the operators of `body.c` and `forces.c`, and
  the addition of `polygon_translate`.
* `+ - * /` are the same operations without the rounding step.  The functions
  of `vector.c`, which is absent and modelled from the spec, are written with
  them, and so are `polygon_rotate` and the collision detector of
  `collision.c`: the theorems about the detector are about exact vector
  arithmetic.

The functions of `math.h` that the code reaches (`sqrt`, `cos`, `sin`) are
taken as a parameter `libm`.

Memory model.  A `body_t *` is an address (`Nat`) into a `heap` of bodies, so
two pointers may alias.  Functions of `body.c`, which touch one body, are
written on `body_t` values.
-/

/-! ## Doubles -/

/-- A C double: a finite value (a rational) or an IEEE special value. -/
inductive double where
  | fin (q : ℚ)
  | pinf
  | ninf
  | nan
  deriving DecidableEq

namespace double

/-- The value is zero. -/
def isZero : double → Bool
  | fin q => decide (q = 0)
  | _ => false

/-- The value is negative (finite negative or minus infinity). -/
def isNeg : double → Bool
  | fin q => decide (q < 0)
  | ninf => true
  | _ => false

/-- The value is finite. -/
def isFin : double → Bool
  | fin _ => true
  | _ => false

/-- IEEE negation. -/
def neg : double → double
  | fin q => fin (-q)
  | pinf => ninf
  | ninf => pinf
  | nan => nan

/-- Addition without rounding: exact on finite values, IEEE on the special
values. -/
def add : double → double → double
  | fin a, fin b => fin (a + b)
  | fin _, pinf => pinf
  | fin _, ninf => ninf
  | pinf, fin _ => pinf
  | pinf, pinf => pinf
  | ninf, fin _ => ninf
  | ninf, ninf => ninf
  | _, _ => nan

/-- Multiplication without rounding: exact on finite values, IEEE on the
special values. -/
def mul : double → double → double
  | fin a, fin b => fin (a * b)
  | nan, _ => nan
  | _, nan => nan
  | x, y =>
    if x.isZero || y.isZero then nan
    else if x.isNeg == y.isNeg then pinf else ninf

/-- Division without rounding: exact on finite values with a non-zero divisor,
IEEE on the special values and on a zero divisor. -/
def div : double → double → double
  | fin a, fin b =>
    if b = 0 then (if a = 0 then nan else if 0 < a then pinf else ninf)
    else fin (a / b)
  | nan, _ => nan
  | _, nan => nan
  | fin _, _ => fin 0
  | pinf, fin b => if b < 0 then ninf else pinf
  | ninf, fin b => if b < 0 then pinf else ninf
  | _, _ => nan

/-- IEEE `<`: false as soon as one side is NaN. -/
def lt : double → double → Bool
  | fin a, fin b => decide (a < b)
  | fin _, pinf => true
  | ninf, fin _ => true
  | ninf, pinf => true
  | _, _ => false

/-- IEEE `<=`: false as soon as one side is NaN. -/
def le : double → double → Bool
  | fin a, fin b => decide (a ≤ b)
  | fin _, pinf => true
  | ninf, fin _ => true
  | ninf, pinf => true
  | pinf, pinf => true
  | ninf, ninf => true
  | _, _ => false

/-- IEEE `==`: false as soon as one side is NaN. -/
def eq : double → double → Bool
  | fin a, fin b => decide (a = b)
  | pinf, pinf => true
  | ninf, ninf => true
  | _, _ => false

instance : Neg double := ⟨neg⟩
instance : Add double := ⟨add⟩
instance : Sub double := ⟨fun a b => add a (neg b)⟩
instance : Mul double := ⟨mul⟩
instance : Div double := ⟨div⟩
instance : LT double := ⟨fun a b => lt a b = true⟩
instance : LE double := ⟨fun a b => le a b = true⟩
instance (a b : double) : Decidable (a < b) := inferInstanceAs (Decidable (lt a b = true))
instance (a b : double) : Decidable (a ≤ b) := inferInstanceAs (Decidable (le a b = true))
instance (n : Nat) : OfNat double n := ⟨fin n⟩
instance : OfScientific double := ⟨fun m s e => fin (OfScientific.ofScientific m s e)⟩

end double

/-- The macro `INFINITY` of `math.h`. -/
def INFINITY : double := double.pinf

/-! ## Rounding to binary64 -/

/-- Two to the power `e`. -/
def pow2 (e : Int) : ℚ :=
  if 0 ≤ e then ((2 ^ e.toNat : Nat) : ℚ) else 1 / ((2 ^ (-e).toNat : Nat) : ℚ)

/-- The integer nearest to `x`; of two nearest integers, the even one. -/
def round_even (x : ℚ) : Int :=
  let f := ⌊x⌋
  let r := x - f
  if r < 1 / 2 then f else if 1 / 2 < r then f + 1 else if f % 2 = 0 then f else f + 1

/-- The number of halvings that bring `n` below 2, at most `fuel` of them. -/
def halvings : Nat → Nat → Nat
  | 0, _ => 0
  | fuel + 1, n => if n < 2 then 0 else halvings fuel (n / 2) + 1

/-- The integer part of the binary logarithm of a positive natural number. -/
def ilog2 (n : Nat) : Nat := halvings n n

/-- The binary exponent of a positive rational `q`: the integer `e` with
`2^e ≤ q < 2^(e+1)`.  The difference of the logarithms of numerator and
denominator is `e` or `e + 1`. -/
def binary_exponent (q : ℚ) : Int :=
  let e0 : Int := (ilog2 q.num.toNat : Int) - (ilog2 q.den : Int)
  if pow2 e0 ≤ q then e0 else e0 - 1

/-- Rounding of a positive rational to binary64, to nearest and ties to even.
The significand has 53 bits, so the spacing of the values at exponent `e` is
`2^(e-52)`; below the least normal exponent -1022 the spacing stays `2^-1074`
(subnormal values, down to 0); a result of `2^1024` or more is `+inf`. -/
def round_pos (q : ℚ) : double :=
  let e := max (binary_exponent q) (-1022)
  let u := pow2 (e - 52)
  let r := (round_even (q / u) : ℚ) * u
  if pow2 1024 ≤ r then double.pinf else double.fin r

/-- Rounding to binary64; the special values are left as they are. -/
def double.round : double → double
  | double.fin q =>
    if q = 0 then double.fin 0
    else if 0 < q then round_pos q
    else double.neg (round_pos (-q))
  | x => x

/-- The value is a binary64 value: rounding leaves it unchanged. -/
def double.representable (x : double) : Prop := double.round x = x

instance (x : double) : Decidable x.representable :=
  inferInstanceAs (Decidable (double.round x = x))

/-- The double that a decimal literal of value `q` denotes. -/
def double.lit (q : ℚ) : double := double.round (double.fin q)

/-- The C operator `+` on doubles. -/
def fadd (a b : double) : double := double.round (a + b)

/-- The C operator `-` on doubles. -/
def fsub (a b : double) : double := double.round (a - b)

/-- The C operator `*` on doubles. -/
def fmul (a b : double) : double := double.round (a * b)

/-- The C operator `/` on doubles. -/
def fdiv (a b : double) : double := double.round (a / b)

/-- The functions of the C maths library used by the program, on finite
arguments.  They are a parameter of the model; theorems state what they need
of them. -/
structure libm where
  sqrt : ℚ → ℚ
  cos : ℚ → ℚ
  sin : ℚ → ℚ

/-- `sqrt` of math.h on doubles: NaN on negative arguments, `+inf` at `+inf`. -/
def libm.dsqrt (M : libm) : double → double
  | double.fin q => if q < 0 then double.nan else double.fin (M.sqrt q)
  | double.pinf => double.pinf
  | _ => double.nan

/-- `cos` of math.h on doubles: NaN outside the finite values. -/
def libm.dcos (M : libm) : double → double
  | double.fin q => double.fin (M.cos q)
  | _ => double.nan

/-- `sin` of math.h on doubles: NaN outside the finite values. -/
def libm.dsin (M : libm) : double → double
  | double.fin q => double.fin (M.sin q)
  | _ => double.nan

/-! ## Vectors and polygons (`vector.h`, `polygon.h`) -/

/-- The struct `vector_t` of vector.h: a pair of doubles. -/
structure vector_t where
  x : double
  y : double
  deriving DecidableEq

/-- Modelled from the spec: `vector.c` is missing; the zero vector. -/
def VEC_ZERO : vector_t := ⟨0, 0⟩

/-- Modelled from the spec: `vector.c` is missing; builds a vector from its
components. -/
def vec_init (x y : double) : vector_t := ⟨x, y⟩

/-- Modelled from the spec: `vector.c` is missing; component-wise sum. -/
def vec_add (v1 v2 : vector_t) : vector_t := ⟨v1.x + v2.x, v1.y + v2.y⟩

/-- Modelled from the spec: `vector.c` is missing; component-wise difference. -/
def vec_subtract (v1 v2 : vector_t) : vector_t := ⟨v1.x - v2.x, v1.y - v2.y⟩

/-- Modelled from the spec: `vector.c` is missing; additive inverse. -/
def vec_negate (v : vector_t) : vector_t := ⟨-v.x, -v.y⟩

/-- Modelled from the spec: `vector.c` is missing; scaling by a scalar. -/
def vec_multiply (scalar : double) (v : vector_t) : vector_t :=
  ⟨scalar * v.x, scalar * v.y⟩

/-- Modelled from the spec: `vector.c` is missing; dot product. -/
def vec_dot (v1 v2 : vector_t) : double := v1.x * v2.x + v1.y * v2.y

/-- Modelled from the spec: `vector.c` is missing; Euclidean length. -/
def vec_magnitude (M : libm) (v : vector_t) : double :=
  M.dsqrt (v.x * v.x + v.y * v.y)

/-- Modelled from the spec: `vector.c` is missing; the vector scaled to length
one. -/
def vec_unit (M : libm) (v : vector_t) : vector_t :=
  vec_multiply (1 / vec_magnitude M v) v

/-- Modelled from the spec: `vector.c` is missing; counter-clockwise rotation
about the origin by `angle` radians. -/
def vec_rotate (M : libm) (v : vector_t) (angle : double) : vector_t :=
  ⟨v.x * M.dcos angle - v.y * M.dsin angle, v.x * M.dsin angle + v.y * M.dcos angle⟩

/-- Modelled from the spec: `vector.c` is missing; orthogonal projection of `v`
onto the line spanned by `line`. -/
def vec_projection (v line : vector_t) : vector_t :=
  vec_multiply (vec_dot v line / vec_dot line line) line

/-- Modelled from the spec: `polygon.c` is missing; translates every vertex,
adding the translation to its coordinates with the C addition. -/
def polygon_translate (polygon : List vector_t) (translation : vector_t) : List vector_t :=
  polygon.map (fun p => ⟨fadd p.x translation.x, fadd p.y translation.y⟩)

/-- Modelled from the spec: `list.c` is missing; the element at `index`, an
access out of range being a failure. -/
def list_get {α : Type} (list : List α) (index : Nat) : Option α := list[index]?

/-! ## Bodies (`body.c`) -/

/-- The struct `rgb_color_t`: a display attribute, not used by the physics. -/
structure rgb_color_t where
  r : double
  g : double
  b : double
  deriving DecidableEq

/-- The struct `body` of body.c.  `info` stands for the `void *` payload and
`info_freer` for whether a release function was given. -/
structure body_t where
  points : List vector_t
  velocity : vector_t
  acceleration : vector_t
  centroid : vector_t
  force : vector_t
  impulse : vector_t
  mass : double
  color : rgb_color_t
  angle : double
  info : Nat
  info_freer : Bool
  removed : Bool
  collided_with : Bool
  deriving DecidableEq

def ACC_MULT : double := 0.5

def body_get_shape (body : body_t) : List vector_t := body.points

def body_get_centroid (body : body_t) : vector_t := body.centroid

def body_get_velocity (body : body_t) : vector_t := body.velocity

def body_get_mass (body : body_t) : double := body.mass

def body_set_centroid (body : body_t) (x : vector_t) : body_t :=
  let translationVector := vec_negate (body_get_centroid body)
  let body := { body with points := polygon_translate body.points translationVector }
  let body := { body with centroid := ⟨x.x, x.y⟩ }
  { body with points := polygon_translate body.points x }

def body_set_velocity (body : body_t) (v : vector_t) : body_t :=
  { body with velocity := v }

def body_add_force (body : body_t) (force : vector_t) : body_t :=
  { body with force := vec_add body.force force }

def body_add_impulse (body : body_t) (impulse : vector_t) : body_t :=
  { body with impulse := vec_add body.impulse impulse }

def body_is_removed (body : body_t) : Bool := body.removed

def body_remove (body : body_t) : body_t := { body with removed := true }

def body_collided (body : body_t) (is_collided : Bool) : body_t :=
  { body with collided_with := is_collided }

def body_is_collided (body : body_t) : Bool := body.collided_with

def body_tick (body : body_t) (dt : double) : body_t :=
  if !body_is_removed body then
    let oldVelocity := body_get_velocity body
    let impulse_x := fadd body.impulse.x (fmul dt body.force.x)
    let impulse_y := fadd body.impulse.y (fmul dt body.force.y)
    let newVelocity : vector_t :=
      ⟨fadd oldVelocity.x (fmul (fdiv 1.0 body.mass) impulse_x),
       fadd oldVelocity.y (fmul (fdiv 1.0 body.mass) impulse_y)⟩
    let body := body_set_velocity body newVelocity
    let translateX := fmul (fmul (fadd body.velocity.x oldVelocity.x) dt) ACC_MULT
    let translateY := fmul (fmul (fadd body.velocity.y oldVelocity.y) dt) ACC_MULT
    let translationVector : vector_t := ⟨translateX, translateY⟩
    let body := body_set_centroid body (vec_add (body_get_centroid body) translationVector)
    let body := { body with force := VEC_ZERO }
    { body with impulse := VEC_ZERO }
  else body

/-! ## Collision detector (`collision.c`) -/

/-- Conversion of a C `int` to `double`. -/
def double.ofInt (i : Int) : double := double.fin i

def NINETY_DEGREES : double := 1.5070796327

def NEGATE : double := -1

def TYPE_MIN : Int := 1

def TYPE_MAX : Int := 2

def LARGE_NUMBER : Int := 99999

/-- The struct `collision_info_t` of collision.h. -/
structure collision_info_t where
  collided : Bool
  axis : vector_t
  deriving DecidableEq

def get_if_collided (collision_info : collision_info_t) : Bool := collision_info.collided

def get_collision_axis (collision_info : collision_info_t) : vector_t := collision_info.axis

/-- One round of the loop of `find_extrema`. -/
def find_extrema_step (type : Int) (extrema temp : double) : double :=
  let extrema := if type = 1 ∧ temp < extrema then temp else extrema
  if type = 2 ∧ temp > extrema then temp else extrema

/-- The function `find_extrema`; `list_get(numbers, 0)` on an empty list is an
out-of-range access, modelled as a failure. -/
def find_extrema (numbers : List double) (type : Int) : Option double :=
  match numbers with
  | [] => none
  | first :: rest => some (rest.foldl (find_extrema_step type) first)

/-- The signed magnitude that `add_mag` computes for one point. -/
def add_mag_point (M : libm) (line point : vector_t) : double :=
  let projection := vec_projection point line
  let mag := vec_magnitude M projection
  if vec_dot point line < 0 then mag * NEGATE else mag

def add_mag (M : libm) (line : vector_t) (shape : List vector_t) (magnitude : List double) :
    List double :=
  magnitude ++ shape.map (add_mag_point M line)

def perpendicular_lines (M : libm) (perp_vectors : List vector_t) (shape : List vector_t) :
    List vector_t :=
  let size := shape.length
  perp_vectors ++ (List.range size).map (fun i =>
    let point1 := shape.getD i VEC_ZERO
    let point2 := shape.getD ((i + 1) % size) VEC_ZERO
    let difference := vec_subtract point1 point2
    vec_rotate M difference NINETY_DEGREES)

def overlap (M : libm) (line : vector_t) (shape1 shape2 : List vector_t) : Option double :=
  let mag1 := add_mag M line shape1 []
  let mag2 := add_mag M line shape2 []
  match find_extrema mag1 TYPE_MAX, find_extrema mag2 TYPE_MAX,
      find_extrema mag1 TYPE_MIN, find_extrema mag2 TYPE_MIN with
  | some max1, some max2, some min1, some min2 =>
    if min1 ≤ min2 then some (max1 - min2) else some (max2 - min1)
  | _, _, _, _ => none

/-- The loop of `find_collision` over the candidate axes still to visit.
The result is `none` when an access fails, `some none` when an axis separates
the shapes (the early return), and `some (some overlap_vec)` at the loop exit. -/
def find_collision_loop (M : libm) (shape1 shape2 : List vector_t) :
    List vector_t → vector_t → double → Option (Option vector_t)
  | [], overlap_vec, _ => some (some overlap_vec)
  | line :: rest, overlap_vec, least_overlap =>
    match overlap M line shape1 shape2 with
    | none => none
    | some temp_overlap =>
      if temp_overlap < 0 then some none
      else if temp_overlap < least_overlap then
        find_collision_loop M shape1 shape2 rest line temp_overlap
      else find_collision_loop M shape1 shape2 rest overlap_vec least_overlap

/-- The memory holding the bodies: a `body_t *` is an address. -/
abbrev heap := Nat → body_t

/-- Stores a body at an address. -/
def heap.set (h : heap) (p : Nat) (b : body_t) : heap :=
  fun q => if q = p then b else h q

/-- Runs a function that mutates one body on the body at address `p`. -/
def heap.modify (h : heap) (p : Nat) (f : body_t → body_t) : heap :=
  h.set p (f (h p))

def find_collision (M : libm) (h : heap) (body1 body2 : Nat) :
    Option (collision_info_t × heap) :=
  let shape1 := body_get_shape (h body1)
  let shape2 := body_get_shape (h body2)
  let information : collision_info_t := { collided := false, axis := ⟨-1, -1⟩ }
  let perp_vectors := perpendicular_lines M [] shape1
  let perp_vectors := perpendicular_lines M perp_vectors shape2
  let overlap_vec := vec_init 0 0
  let least_overlap := double.ofInt LARGE_NUMBER
  match find_collision_loop M shape1 shape2 perp_vectors overlap_vec least_overlap with
  | none => none
  | some none =>
    let h := h.modify body1 (fun body => body_collided body false)
    let h := h.modify body2 (fun body => body_collided body false)
    some (information, h)
  | some (some overlap_vec) =>
    let overlap_axis := vec_unit M overlap_vec
    some ({ information with collided := true, axis := overlap_axis }, h)

/-! ## Force generators (`forces.c`) -/

def ELASTICITY_TERM : double := 1.0

def FALSE_CONSTANT : double := -1.0

/-- The collision handlers of forces.c; a value of the function pointer type
`collision_handler_t` is one of them. -/
inductive collision_handler_t where
  | calc_destructive_force
  | calc_physics_collision
  deriving DecidableEq

/-- The struct `auxillary` of forces.c.  `bodies` holds addresses of bodies;
`aux` is the `void *` payload, which the program sets to a further
`auxillary_t` or to `NULL`. -/
inductive auxillary_t where
  | mk (constant : double) (bodies : List Nat) (collision : Option collision_handler_t)
      (aux : Option auxillary_t)

def aux_init (constant : double) : auxillary_t :=
  auxillary_t.mk constant [] none none

def aux_get_constant : auxillary_t → double
  | auxillary_t.mk constant _ _ _ => constant

/-- The handler `calc_physics_collision`.  The payload `aux` is read only
inside the guard; reading a `NULL` payload is a failure. -/
def calc_physics_collision (h : heap) (body1 body2 : Nat) (axis : vector_t)
    (aux : Option auxillary_t) : Option heap :=
  if !body_is_collided (h body1) && !body_is_collided (h body2) then
    match aux with
    | none => none
    | some aux =>
      let elasticity := aux_get_constant aux
      let body1_mass := body_get_mass (h body1)
      let body2_mass := body_get_mass (h body2)
      let reduced_mass :=
        if double.eq body1_mass INFINITY then body2_mass
        else if double.eq body2_mass INFINITY then body1_mass
        else fdiv (fmul body1_mass body2_mass) (fadd body1_mass body2_mass)
      let elasticity_term := fadd ELASTICITY_TERM elasticity
      let body1_velocity := vec_dot (body_get_velocity (h body1)) axis
      let body2_velocity := vec_dot (body_get_velocity (h body2)) axis
      let velocity_term := fsub body2_velocity body1_velocity
      let impulse_magnitude := fmul (fmul reduced_mass elasticity_term) velocity_term
      let impulse := vec_multiply impulse_magnitude axis
      let h := h.modify body1 (fun body => body_add_impulse body impulse)
      let h := h.modify body2 (fun body => body_add_impulse body (vec_multiply (-1) impulse))
      let h := h.modify body1 (fun body => body_collided body true)
      let h := h.modify body2 (fun body => body_collided body true)
      some h
  else some h

def aux_set_collision : auxillary_t → Option collision_handler_t → auxillary_t
  | auxillary_t.mk constant bodies _ aux, collide => auxillary_t.mk constant bodies collide aux

def aux_get_collision : auxillary_t → Option collision_handler_t
  | auxillary_t.mk _ _ collision _ => collision

def aux_set_aux : auxillary_t → Option auxillary_t → auxillary_t
  | auxillary_t.mk constant bodies collision _, new_aux =>
    auxillary_t.mk constant bodies collision new_aux

def aux_get_aux : auxillary_t → Option auxillary_t
  | auxillary_t.mk _ _ _ aux => aux

def aux_add_body : auxillary_t → Nat → auxillary_t
  | auxillary_t.mk constant bodies collision aux, body =>
    auxillary_t.mk constant (bodies ++ [body]) collision aux

/-- The function `aux_get_body`; the assertion `index < list_size` failing is
a failure. -/
def aux_get_body : auxillary_t → Nat → Option Nat
  | auxillary_t.mk _ bodies _ _, index => list_get bodies index

/-- The force creators of forces.c; a value of the function pointer type
`force_creator_t` is one of them. -/
inductive force_creator_t where
  | calc_gravity_force
  | calc_spring_force
  | calc_drag_force
  | calc_collison
  deriving DecidableEq

/-- One registration of a force creator with a scene. -/
structure force_registration where
  forcer : force_creator_t
  aux : auxillary_t
  bodies : List Nat

/-- Modelled from the spec: `scene.c` is missing; of a scene only the force
creators registered with it, in registration order. -/
structure scene_t where
  force_creators : List force_registration

/-- Modelled from the spec: `scene.c` is missing; registers a force creator
with the bodies it is bound to. -/
def scene_add_bodies_force_creator (scene : scene_t) (forcer : force_creator_t)
    (aux : auxillary_t) (bodies : List Nat) : scene_t :=
  { scene with force_creators := scene.force_creators ++ [⟨forcer, aux, bodies⟩] }

def create_newtonian_gravity (scene : scene_t) (G : double) (body1 body2 : Nat) : scene_t :=
  let aux := aux_init G
  let aux := aux_add_body aux body1
  let aux := aux_add_body aux body2
  let bodies := [body1, body2]
  scene_add_bodies_force_creator scene force_creator_t.calc_gravity_force aux bodies

def calc_gravity_force (M : libm) (h : heap) (aux : auxillary_t) : Option heap :=
  let G := aux_get_constant aux
  match aux_get_body aux 0, aux_get_body aux 1 with
  | some body1, some body2 =>
    let centroid_body_1 := body_get_centroid (h body1)
    let centroid_body_2 := body_get_centroid (h body2)
    let difference_centroids := vec_subtract centroid_body_2 centroid_body_1
    let distance_bodies := vec_magnitude M difference_centroids
    let mass_body_1 := body_get_mass (h body1)
    let mass_body_2 := body_get_mass (h body2)
    let magnitude_of_force := fdiv (fmul G (fmul mass_body_1 mass_body_2))
      (fmul (fmul distance_bodies distance_bodies) distance_bodies)
    let force := vec_multiply magnitude_of_force difference_centroids
    match list_get (body_get_shape (h body1)) 0, list_get (body_get_shape (h body2)) 0 with
    | some body_tip1, some body_tip2 =>
      let radius1 := vec_subtract centroid_body_1 body_tip1
      let radius2 := vec_subtract centroid_body_2 body_tip2
      let touching := fadd (vec_magnitude M radius1) (vec_magnitude M radius2)
      let force_body_1 := vec_init force.x force.y
      let force_body_2 := vec_negate force_body_1
      if distance_bodies ≥ touching then
        let h := h.modify body1 (fun body => body_add_force body force_body_1)
        let h := h.modify body2 (fun body => body_add_force body force_body_2)
        some h
      else some h
    | _, _ => none
  | _, _ => none

def create_spring (scene : scene_t) (k : double) (body1 body2 : Nat) : scene_t :=
  let aux := aux_init k
  let aux := aux_add_body aux body1
  let aux := aux_add_body aux body2
  let bodies := [body1, body2]
  scene_add_bodies_force_creator scene force_creator_t.calc_spring_force aux bodies

def calc_spring_force (h : heap) (aux : auxillary_t) : Option heap :=
  let k := aux_get_constant aux
  match aux_get_body aux 0, aux_get_body aux 1 with
  | some body1, some body2 =>
    let centroid1 := body_get_centroid (h body1)
    let centroid2 := body_get_centroid (h body2)
    let difference := vec_subtract centroid1 centroid2
    let force_on_2 := vec_multiply k difference
    let force_on_1 := vec_negate force_on_2
    let h := h.modify body1 (fun body => body_add_force body force_on_1)
    let h := h.modify body2 (fun body => body_add_force body force_on_2)
    some h
  | _, _ => none

def create_drag (scene : scene_t) (gamma : double) (body : Nat) : scene_t :=
  let aux := aux_init gamma
  let aux := aux_add_body aux body
  let bodies := [body]
  scene_add_bodies_force_creator scene force_creator_t.calc_drag_force aux bodies

def calc_drag_force (h : heap) (aux : auxillary_t) : Option heap :=
  let gamma := aux_get_constant aux
  match aux_get_body aux 0 with
  | some body =>
    let velo := body_get_velocity (h body)
    let drag := vec_multiply (fmul (-1.0) gamma) velo
    some (h.modify body (fun b => body_add_force b drag))
  | none => none

def create_collision (scene : scene_t) (body1 body2 : Nat) (handler : collision_handler_t)
    (aux : Option auxillary_t) : scene_t :=
  let new_aux := aux_init FALSE_CONSTANT
  let new_aux := aux_add_body new_aux body1
  let new_aux := aux_add_body new_aux body2
  let bodies := [body1, body2]
  let new_aux := aux_set_collision new_aux (some handler)
  let new_aux := aux_set_aux new_aux aux
  scene_add_bodies_force_creator scene force_creator_t.calc_collison new_aux bodies

def calc_destructive_force (h : heap) (body1 body2 : Nat) (_axis : vector_t)
    (_aux : Option auxillary_t) : heap :=
  let h := h.modify body1 body_remove
  h.modify body2 body_remove

/-- A call through a `collision_handler_t` function pointer. -/
def call_collision_handler : collision_handler_t → heap → Nat → Nat → vector_t →
    Option auxillary_t → Option heap
  | collision_handler_t.calc_destructive_force, h, body1, body2, axis, aux =>
    some (calc_destructive_force h body1 body2 axis aux)
  | collision_handler_t.calc_physics_collision, h, body1, body2, axis, aux =>
    calc_physics_collision h body1 body2 axis aux

/-- The force creator `calc_collison`; calling a `NULL` handler is a failure. -/
def calc_collison (M : libm) (h : heap) (aux : auxillary_t) : Option heap :=
  match aux_get_body aux 0, aux_get_body aux 1 with
  | some body1, some body2 =>
    match find_collision M h body1 body2 with
    | none => none
    | some (info, h) =>
      let other_aux := aux_get_aux aux
      if get_if_collided info then
        let axis := get_collision_axis info
        match aux_get_collision aux with
        | none => none
        | some handler => call_collision_handler handler h body1 body2 axis other_aux
      else some h
  | _, _ => none

def create_destructive_collision (scene : scene_t) (body1 _body2 : Nat) : scene_t :=
  create_collision scene body1 body1 collision_handler_t.calc_destructive_force none

def create_physics_collision (scene : scene_t) (elasticity : double) (body1 body2 : Nat) :
    scene_t :=
  let new_aux := aux_init elasticity
  let new_aux := aux_add_body new_aux body1
  let new_aux := aux_add_body new_aux body2
  create_collision scene body1 body2 collision_handler_t.calc_physics_collision (some new_aux)

/-- A call through a `force_creator_t` function pointer. -/
def call_force_creator : force_creator_t → libm → heap → auxillary_t → Option heap
  | force_creator_t.calc_gravity_force, M, h, aux => calc_gravity_force M h aux
  | force_creator_t.calc_spring_force, _, h, aux => calc_spring_force h aux
  | force_creator_t.calc_drag_force, _, h, aux => calc_drag_force h aux
  | force_creator_t.calc_collison, M, h, aux => calc_collison M h aux

/-- Modelled from the spec: `scene.c` is missing; one pass of the scene over
its force creators, each invoked once in registration order. -/
def scene_run_force_creators (M : libm) (scene : scene_t) (h : heap) : Option heap :=
  scene.force_creators.foldl
    (fun (acc : Option heap) (reg : force_registration) =>
      match acc with
      | none => none
      | some h => call_force_creator reg.forcer M h reg.aux)
    (some h)

/-! ## Finite values

The detector on shapes with finite coordinates computes with rationals only.
The definitions below are that computation written on rationals; the theorems
relate them to the functions above. -/

/-- A vector with finite coordinates. -/
def vq (p : ℚ × ℚ) : vector_t := ⟨double.fin p.1, double.fin p.2⟩

/-- Dot product of rational vectors. -/
def qdot (p q : ℚ × ℚ) : ℚ := p.1 * q.1 + p.2 * q.2

/-- Rotation of a rational vector by the angle with cosine `c` and sine `s`. -/
def qrot (c s : ℚ) (d : ℚ × ℚ) : ℚ × ℚ := (d.1 * c - d.2 * s, d.1 * s + d.2 * c)

/-- The value of `sin` at `NINETY_DEGREES`. -/
def libm.s90 (M : libm) : ℚ := M.sin 1.5070796327

/-- The value of `cos` at `NINETY_DEGREES`. -/
def libm.c90 (M : libm) : ℚ := M.cos 1.5070796327

/-- The value `add_mag` computes for a finite point and a finite line. -/
def signed_mag (M : libm) (L p : ℚ × ℚ) : ℚ :=
  let k := qdot p L / qdot L L
  let mag := M.sqrt (k * L.1 * (k * L.1) + k * L.2 * (k * L.2))
  if qdot p L < 0 then mag * (-1) else mag

/-- Largest element of a list of rationals (0 on the empty list). -/
def lmax : List ℚ → ℚ
  | [] => 0
  | x :: r => r.foldl max x

/-- Smallest element of a list of rationals (0 on the empty list). -/
def lmin : List ℚ → ℚ
  | [] => 0
  | x :: r => r.foldl min x

/-- The value `overlap` computes on finite shapes. -/
def qoverlap (M : libm) (L : ℚ × ℚ) (P1 P2 : List (ℚ × ℚ)) : ℚ :=
  let mag1 := P1.map (signed_mag M L)
  let mag2 := P2.map (signed_mag M L)
  if lmin mag1 ≤ lmin mag2 then lmax mag1 - lmin mag2 else lmax mag2 - lmin mag1

/-- The loop of `find_collision` on finite shapes: `none` is the early return. -/
def qloop (M : libm) (P1 P2 : List (ℚ × ℚ)) : List (ℚ × ℚ) → ℚ × ℚ → ℚ → Option (ℚ × ℚ)
  | [], v, _ => some v
  | L :: rest, v, least =>
    if qoverlap M L P1 P2 < 0 then none
    else if qoverlap M L P1 P2 < least then qloop M P1 P2 rest L (qoverlap M L P1 P2)
    else qloop M P1 P2 rest v least

/-- The candidate axes `perpendicular_lines` builds from a finite shape. -/
def qperp (M : libm) (P : List (ℚ × ℚ)) : List (ℚ × ℚ) :=
  (List.range P.length).map (fun i =>
    qrot M.c90 M.s90 (P.getD i 0 - P.getD ((i + 1) % P.length) 0))

/-- No edge of the polygon has length zero: consecutive vertices (cyclically)
differ. -/
def no_zero_edge (P : List (ℚ × ℚ)) : Prop :=
  ∀ i, i < P.length → P.getD i 0 ≠ P.getD ((i + 1) % P.length) 0

instance (P : List (ℚ × ℚ)) : Decidable (no_zero_edge P) := by
  unfold no_zero_edge; infer_instance

/-- The combination of the vertices of `P` with the weights `w`. -/
def combo (w : List ℚ) (P : List (ℚ × ℚ)) : ℚ × ℚ :=
  ((List.zipWith (fun a p => a * p.1) w P).sum, (List.zipWith (fun a p => a * p.2) w P).sum)

/-- The point `z` lies in the convex region spanned by the vertices of `P`: it
is a combination of them with non-negative weights that sum to one. -/
def in_hull (P : List (ℚ × ℚ)) (z : ℚ × ℚ) : Prop :=
  ∃ w : List ℚ, w.length = P.length ∧ (∀ a ∈ w, 0 ≤ a) ∧ w.sum = 1 ∧ combo w P = z

/-- On non-negative arguments `sqrt` is non-negative and monotone. -/
def libm.sqrt_monotone (M : libm) : Prop :=
  (∀ x, 0 ≤ x → 0 ≤ M.sqrt x) ∧ (∀ x y, 0 ≤ x → x ≤ y → M.sqrt x ≤ M.sqrt y)

/-- On non-negative arguments `sqrt` is strictly increasing. -/
def libm.sqrt_strict (M : libm) : Prop :=
  ∀ x y, 0 ≤ x → x < y → M.sqrt x < M.sqrt y

/-- The value of `sqrt` at a square `y * y` with `0 ≤ y` is not below `y`. -/
def libm.sqrt_sq_ge (M : libm) : Prop :=
  ∀ y, 0 ≤ y → y ≤ M.sqrt (y * y)

/-- Bounds on the values of `cos` and `sin` at `NINETY_DEGREES`; the cosine of
1.5070796327 is 0.0636737... and its sine is 0.9979708... -/
def libm.angle_bounds (M : libm) : Prop :=
  1 / 20 ≤ M.c90 ∧ M.c90 ≤ 1 / 10 ∧ 9 / 10 ≤ M.s90 ∧ M.s90 ≤ 1

/-! ## Sample data -/

/-- The square centred at `(cx, cy)` with sides of length `2 * hw` parallel to
the coordinate axes, counter-clockwise from its lower left corner. -/
def qsquare (cx cy hw : ℚ) : List (ℚ × ℚ) :=
  [(cx - hw, cy - hw), (cx + hw, cy - hw), (cx + hw, cy + hw), (cx - hw, cy + hw)]

/-- The unit square centred at `(cx, cy)`. -/
def unit_square (cx cy : ℚ) : List vector_t := (qsquare cx cy (1 / 2)).map vq

/-- A body as `body_init` leaves it (no force, no impulse, angle 0, not
removed, not collided), with the given shape, centroid, mass and velocity. -/
def sample_body (points : List vector_t) (centroid : vector_t) (mass : double)
    (velocity : vector_t) : body_t :=
  { points := points, velocity := velocity, acceleration := VEC_ZERO, centroid := centroid,
    force := VEC_ZERO, impulse := VEC_ZERO, mass := mass, color := ⟨0, 0, 0⟩, angle := 0,
    info := 0, info_freer := false, removed := false, collided_with := false }

/-- A coarse rational instance of the maths library, used to instantiate
theorems: one Newton step from 1 for `sqrt`, Taylor polynomials for `cos` and
`sin`. -/
def sample_libm : libm where
  sqrt x := (x + 1) / 2
  cos x := 1 - x ^ 2 / 2 + x ^ 4 / 24 - x ^ 6 / 720 + x ^ 8 / 40320
  sin x := x - x ^ 3 / 6 + x ^ 5 / 120 - x ^ 7 / 5040 + x ^ 9 / 362880

/-- The unit square body centred at `(cx, cy)`. -/
def square_body (cx cy : ℚ) (mass : double) (velocity : vector_t) : body_t :=
  sample_body (unit_square cx cy) ⟨double.fin cx, double.fin cy⟩ mass velocity

/-- A memory holding body `a` at address 0 and body `b` at every other address. -/
def two_bodies (a b : body_t) : heap := fun p => if p = 0 then a else b

/-- The diamond centred at `(cx, cy)` with its four vertices at distance `r`
from the centre, the first one to the right of the centre. -/
def qdiamond (cx cy r : ℚ) : List (ℚ × ℚ) :=
  [(cx + r, cy), (cx, cy + r), (cx - r, cy), (cx, cy - r)]

/-- The diamond body of radius 1 centred at `(cx, cy)`. -/
def diamond_body (cx cy : ℚ) (mass : double) : body_t :=
  sample_body ((qdiamond cx cy 1).map vq) ⟨double.fin cx, double.fin cy⟩ mass VEC_ZERO

/-- Floor of the square root of a natural number, by search. -/
def isqrt (n : Nat) : Nat :=
  (List.range (n + 1)).foldl (fun r k => if k * k ≤ n then k else r) 0

/-- A rational instance of the maths library whose `sqrt` is exact on the
squares of rationals (floor square roots of numerator and denominator); `cos`
and `sin` as in `sample_libm`. -/
def exact_libm : libm where
  sqrt x := (isqrt x.num.toNat : ℚ) / (isqrt x.den : ℚ)
  cos := sample_libm.cos
  sin := sample_libm.sin

/-! ## Theorems -/

namespace double

theorem one_lit : (1.0 : double) = fin 1 := by
  show fin (OfScientific.ofScientific 10 true 1) = fin 1
  norm_num

theorem half_lit : (0.5 : double) = fin (1 / 2) := by
  show fin (OfScientific.ofScientific 5 true 1) = fin (1 / 2)
  norm_num

theorem zero_lit : (0 : double) = fin 0 := by
  show fin ((0 : Nat) : ℚ) = fin 0
  norm_num

theorem fin_add (a b : ℚ) : fin a + fin b = fin (a + b) := rfl

theorem fin_mul (a b : ℚ) : fin a * fin b = fin (a * b) := rfl

theorem fin_neg (a : ℚ) : -(fin a) = fin (-a) := rfl

theorem fin_sub (a b : ℚ) : fin a - fin b = fin (a - b) := by
  show add (fin a) (neg (fin b)) = fin (a - b)
  simp [add, neg, sub_eq_add_neg]

theorem fin_div (a b : ℚ) (hb : b ≠ 0) : fin a / fin b = fin (a / b) := by
  show div (fin a) (fin b) = fin (a / b)
  simp [div, hb]

end double

/-! ### Rounding -/

theorem double.add_fin_zero (x : double) : x + double.fin 0 = x := by
  cases x with
  | fin q => rw [double.fin_add, add_zero]
  | pinf => rfl
  | ninf => rfl
  | nan => rfl

theorem double.fin_zero_add (x : double) : double.fin 0 + x = x := by
  cases x with
  | fin q => rw [double.fin_add, zero_add]
  | pinf => rfl
  | ninf => rfl
  | nan => rfl

theorem double.round_zero : double.round (double.fin 0) = double.fin 0 := by
  simp [double.round]

/-- Values of the rounding: the double nearest to 0.1; the largest double
`2^1024 - 2^971` just below the midpoint to `2^1024`, and `+inf` at the
midpoint; 0 at half the least subnormal `2^-1074` (a tie, to even), and twice
the least subnormal at three halves of it. -/
theorem double.round_values :
    double.lit 0.1 = double.fin (3602879701896397 / 36028797018963968) ∧
    double.round (double.fin (2 ^ 1024 - 2 ^ 970 - 1)) = double.fin (2 ^ 1024 - 2 ^ 971) ∧
    double.round (double.fin (2 ^ 1024 - 2 ^ 970)) = double.pinf ∧
    double.round (double.fin (1 / 2 ^ 1075)) = double.fin 0 ∧
    double.round (double.fin (3 / 2 ^ 1075)) = double.fin (2 / 2 ^ 1074) := by
  refine ⟨?_, ?_, ?_, ?_, ?_⟩ <;> decide!

theorem double.neg_neg_eq (x : double) : -(-x) = x := by
  cases x with
  | fin q => rw [double.fin_neg, double.fin_neg, neg_neg]
  | pinf => rfl
  | ninf => rfl
  | nan => rfl

theorem double.round_neg (x : double) : double.round (-x) = -(double.round x) := by
  cases x with
  | fin q =>
    rw [double.fin_neg]
    rcases lt_trichotomy q 0 with h | h | h
    · have h1 : ¬ (-q = 0) := by linarith
      have h2 : (0 : ℚ) < -q := by linarith
      have h3 : ¬ (q = 0) := ne_of_lt h
      have h4 : ¬ ((0 : ℚ) < q) := not_lt.mpr (le_of_lt h)
      simp only [double.round, h1, h2, h3, h4, if_true, if_false]
      exact (double.neg_neg_eq _).symm
    · subst h
      simp only [double.round, neg_zero, if_true]
      rw [double.fin_neg, neg_zero]
    · have h1 : ¬ (-q = 0) := by linarith
      have h2 : ¬ ((0 : ℚ) < -q) := by linarith
      have h3 : ¬ (q = 0) := ne_of_gt h
      simp only [double.round, h1, h2, h3, h, if_true, if_false, neg_neg]
      rfl
  | pinf => rfl
  | ninf => rfl
  | nan => rfl

theorem double.representable_neg (x : double) (hx : x.representable) : (-x).representable := by
  show double.round (-x) = -x
  rw [double.round_neg, hx]

theorem fadd_fin (a b : ℚ) (hr : (double.fin (a + b)).representable) :
    fadd (double.fin a) (double.fin b) = double.fin (a + b) := hr

theorem fsub_fin (a b : ℚ) (hr : (double.fin (a - b)).representable) :
    fsub (double.fin a) (double.fin b) = double.fin (a - b) := by
  show double.round (double.fin a - double.fin b) = _
  rw [double.fin_sub]
  exact hr

theorem fmul_fin (a b : ℚ) (hr : (double.fin (a * b)).representable) :
    fmul (double.fin a) (double.fin b) = double.fin (a * b) := hr

theorem fdiv_fin (a b : ℚ) (hb : b ≠ 0) (hr : (double.fin (a / b)).representable) :
    fdiv (double.fin a) (double.fin b) = double.fin (a / b) := by
  show double.round (double.fin a / double.fin b) = _
  rw [double.fin_div a b hb]
  exact hr

theorem fadd_fin_zero (v : double) (hv : v.representable) : fadd v (double.fin 0) = v := by
  show double.round (v + double.fin 0) = v
  rw [double.add_fin_zero]
  exact hv

theorem fmul_fin_zero (a : ℚ) : fmul (double.fin a) (double.fin 0) = double.fin 0 := by
  show double.round (double.fin a * double.fin 0) = _
  rw [double.fin_mul, mul_zero, double.round_zero]

theorem fmul_zero_fin (a : ℚ) : fmul (double.fin 0) (double.fin a) = double.fin 0 := by
  show double.round (double.fin 0 * double.fin a) = _
  rw [double.fin_mul, zero_mul, double.round_zero]

theorem fadd_zero_zero : fadd (double.fin 0) (double.fin 0) = double.fin 0 := by
  show double.round (double.fin 0 + double.fin 0) = _
  rw [double.fin_add, add_zero, double.round_zero]

/-! ### `body_tick` -/

/-- C1 fails on rounding and on overflow.  With mass 3, impulse (5, 0), no
force and velocity 0, `body_tick(1)` leaves the x velocity
`(1.0/3.0)*5.0 = 1.6666666666666665`, where `v + (J + dt*F)/m` is
`5.0/3.0 = 1.6666666666666667`.  With the finite non-zero mass 1e-320, zero
accumulators and velocity (1, 0), the reciprocal of the mass is `+inf` and
`body_tick(1)` leaves the x velocity NaN, where `v + (J + dt*F)/m` is 1. -/
theorem body_tick_reciprocal_rounds :
    (body_tick { square_body 0 0 3 ⟨0, 0⟩ with impulse := ⟨5, 0⟩ } 1).velocity.x =
      double.fin (7505999378950826 / 4503599627370496) ∧
    fadd 0 (fdiv (fadd 5 (fmul 1 0)) 3) =
      double.fin (7505999378950827 / 4503599627370496) ∧
    (body_tick { square_body 0 0 3 ⟨0, 0⟩ with impulse := ⟨5, 0⟩ } 1).velocity.x ≠
      fadd 0 (fdiv (fadd 5 (fmul 1 0)) 3) ∧
    (body_tick (square_body 0 0 (double.lit 1e-320) ⟨1, 0⟩) 1).velocity.x = double.nan ∧
    fadd 1 (fdiv (fadd 0 (fmul 1 0)) (double.lit 1e-320)) = 1 := by
  refine ⟨?_, ?_, ?_, ?_, ?_⟩ <;> decide!

/-- C1 as amended: on a body that is not removed, `body_tick` sets the
velocity to `v + (1.0/m)*(J + dt*F)`, the reciprocal of the mass being formed
and rounded before it is multiplied, the centroid to `c + (v' + v)*dt*0.5`,
and both accumulators to the zero vector; every operator is the C operator on
doubles.  The product `(1.0/m)*j` is the quotient `j/m` when the reciprocal
and the quotient are binary64 values. -/
theorem body_tick_integrates_rounded (body : body_t) (dt : double)
    (hrem : body.removed = false) :
    (body_tick body dt).velocity =
      ⟨fadd body.velocity.x
          (fmul (fdiv 1.0 body.mass) (fadd body.impulse.x (fmul dt body.force.x))),
       fadd body.velocity.y
          (fmul (fdiv 1.0 body.mass) (fadd body.impulse.y (fmul dt body.force.y)))⟩ ∧
    (body_tick body dt).centroid = vec_add body.centroid
      ⟨fmul (fmul (fadd (body_tick body dt).velocity.x body.velocity.x) dt) 0.5,
       fmul (fmul (fadd (body_tick body dt).velocity.y body.velocity.y) dt) 0.5⟩ ∧
    (body_tick body dt).force = ⟨0, 0⟩ ∧ (body_tick body dt).impulse = ⟨0, 0⟩ ∧
    (∀ m j : ℚ, m ≠ 0 → (double.fin (1 / m)).representable →
      (double.fin (j / m)).representable →
      fmul (fdiv 1.0 (double.fin m)) (double.fin j) = double.fin (j / m)) := by
  refine ⟨?_, ?_, ?_, ?_, ?_⟩
  · simp [body_tick, body_is_removed, hrem, body_get_velocity, body_set_velocity,
      body_set_centroid]
  · simp [body_tick, body_is_removed, hrem, body_get_velocity, body_set_velocity,
      body_set_centroid, body_get_centroid, vec_add, ACC_MULT]
  · simp [body_tick, body_is_removed, hrem, VEC_ZERO]
  · simp [body_tick, body_is_removed, hrem, VEC_ZERO]
  · intro m j hm h1 h2
    rw [double.one_lit, fdiv_fin 1 m hm h1]
    have e : (1 / m) * j = j / m := by field_simp
    show double.round (double.fin (1 / m) * double.fin j) = _
    rw [double.fin_mul, e]
    exact h2

/-- Witness of C1 as amended: a unit square of mass 2 moving at (1, 0) under
the force (3, 4); the product `(1.0/2)*6` is the quotient `6/2`. -/
theorem body_tick_integrates_rounded_witness :
    (body_tick (body_add_force (square_body 0 0 2 ⟨1, 0⟩) ⟨3, 4⟩) 1).force = ⟨0, 0⟩ ∧
    fmul (fdiv 1.0 (double.fin 2)) (double.fin 6) = double.fin (6 / 2) :=
  ⟨(body_tick_integrates_rounded (body_add_force (square_body 0 0 2 ⟨1, 0⟩) ⟨3, 4⟩) 1
      rfl).2.2.1,
    (body_tick_integrates_rounded (body_add_force (square_body 0 0 2 ⟨1, 0⟩) ⟨3, 4⟩) 1
      rfl).2.2.2.2 2 6 (by norm_num) (by decide!) (by decide!)⟩

/-- C2 fails on overflow, at an infinite time step, and on rounding.  With
the positive finite mass 1e-320 the reciprocal of the mass is `+inf` and
`body_tick(1)` leaves the x velocity NaN; with mass 2 and `dt = INFINITY` the
product `dt * 0` is NaN and so is the velocity.  With mass 1, velocity
(2^1023, 0) and `dt = 2^-1023` the sum `v + v` is `+inf` and the centroid moves
from 0 to `+inf`, where `v*dt` is 1.  With mass 1, centroid (0.1, 0), velocity
(0.1, 0) and `dt = 1`, the centroid moves to (0.2, 0) and the vertex (0.5, 0)
to `(0.5 - 0.1) + 0.2 = 0.6000000000000001`, where `0.5 + 0.1*1` is 0.6. -/
theorem body_tick_zero_force_fails :
    (body_tick (square_body 0 0 (double.lit 1e-320) ⟨1, 0⟩) 1).velocity.x = double.nan ∧
    (body_tick (square_body 0 0 2 ⟨1, 0⟩) INFINITY).velocity.x = double.nan ∧
    (body_tick (square_body 0 0 1 ⟨double.fin (2 ^ 1023), 0⟩)
        (double.fin (1 / 2 ^ 1023))).centroid.x = double.pinf ∧
    fmul (double.fin (2 ^ 1023)) (double.fin (1 / 2 ^ 1023)) = 1 ∧
    (body_tick (sample_body [⟨double.lit 0.5, 0⟩] ⟨double.lit 0.1, 0⟩ 1 ⟨double.lit 0.1, 0⟩)
        1).centroid = ⟨double.lit 0.2, 0⟩ ∧
    (body_tick (sample_body [⟨double.lit 0.5, 0⟩] ⟨double.lit 0.1, 0⟩ 1 ⟨double.lit 0.1, 0⟩)
        1).points = [⟨double.fin (5404319552844596 / 9007199254740992), 0⟩] ∧
    fadd (double.lit 0.5) (fmul (double.lit 0.1) 1) =
      double.fin (5404319552844595 / 9007199254740992) ∧
    (body_tick (sample_body [⟨double.lit 0.5, 0⟩] ⟨double.lit 0.1, 0⟩ 1 ⟨double.lit 0.1, 0⟩)
        1).points ≠ [⟨fadd (double.lit 0.5) (fmul (double.lit 0.1) 1), 0⟩] := by
  refine ⟨?_, ?_, ?_, ?_, ?_, ?_, ?_, ?_⟩ <;> decide!

/-- C2 as amended: on a body that is not removed, whose mass has a finite
reciprocal `1.0/mass`, whose velocity components are binary64 values and whose
accumulators are zero, `body_tick` with a finite time step `dt` leaves the
velocity unchanged, moves the centroid by `((v + v)*dt)*0.5` and every vertex
`p` to `(p + -c) + c'`, with `c` the old and `c'` the new centroid and the C
operators on doubles.  The centroid moves by `v*dt` when `v + v`,
`(v + v)*dt` and `v*dt` are binary64 values. -/
theorem body_tick_free_motion (body : body_t) (t k : ℚ)
    (hrem : body.removed = false) (hk : fdiv 1.0 body.mass = double.fin k)
    (hF : body.force = ⟨0, 0⟩) (hJ : body.impulse = ⟨0, 0⟩)
    (hvx : body.velocity.x.representable) (hvy : body.velocity.y.representable) :
    (body_tick body (double.fin t)).velocity = body.velocity ∧
    (body_tick body (double.fin t)).centroid = vec_add body.centroid
      ⟨fmul (fmul (fadd body.velocity.x body.velocity.x) (double.fin t)) 0.5,
       fmul (fmul (fadd body.velocity.y body.velocity.y) (double.fin t)) 0.5⟩ ∧
    (body_tick body (double.fin t)).points = body.points.map (fun p =>
      ⟨fadd (fadd p.x (-body.centroid.x)) (body_tick body (double.fin t)).centroid.x,
       fadd (fadd p.y (-body.centroid.y)) (body_tick body (double.fin t)).centroid.y⟩) ∧
    (∀ vx vy : ℚ, body.velocity = vq (vx, vy) →
      (double.fin (vx + vx)).representable → (double.fin ((vx + vx) * t)).representable →
      (double.fin (vx * t)).representable →
      (double.fin (vy + vy)).representable → (double.fin ((vy + vy) * t)).representable →
      (double.fin (vy * t)).representable →
      (body_tick body (double.fin t)).centroid =
        vec_add body.centroid (vq (vx * t, vy * t))) := by
  have hv : (body_tick body (double.fin t)).velocity = body.velocity := by
    simp only [body_tick, body_is_removed, hrem, body_get_velocity, body_set_velocity,
      body_set_centroid, hF, hJ, hk, double.zero_lit, fmul_fin_zero, fadd_zero_zero,
      fadd_fin_zero _ hvx, fadd_fin_zero _ hvy, Bool.not_false, if_true]
  have hc : (body_tick body (double.fin t)).centroid = vec_add body.centroid
      ⟨fmul (fmul (fadd body.velocity.x body.velocity.x) (double.fin t)) 0.5,
       fmul (fmul (fadd body.velocity.y body.velocity.y) (double.fin t)) 0.5⟩ := by
    simp only [body_tick, body_is_removed, hrem, body_get_velocity, body_set_velocity,
      body_set_centroid, body_get_centroid, hF, hJ, hk, double.zero_lit, fmul_fin_zero,
      fadd_zero_zero, fadd_fin_zero _ hvx, fadd_fin_zero _ hvy, Bool.not_false, if_true,
      ACC_MULT, vec_add]
  refine ⟨hv, hc, ?_, ?_⟩
  · rw [hc]
    simp only [body_tick, body_is_removed, hrem, body_get_velocity, body_set_velocity,
      body_set_centroid, body_get_centroid, hF, hJ, hk, double.zero_lit, fmul_fin_zero,
      fadd_zero_zero, fadd_fin_zero _ hvx, fadd_fin_zero _ hvy, Bool.not_false, if_true,
      ACC_MULT, vec_add, vec_negate, polygon_translate, List.map_map]
    rfl
  · intro vx vy hvq h1 h2 h3 h4 h5 h6
    have ex : (vx + vx) * t * (1 / 2) = vx * t := by ring
    have ey : (vy + vy) * t * (1 / 2) = vy * t := by ring
    have h3x : (double.fin ((vx + vx) * t * (1 / 2))).representable := by rw [ex]; exact h3
    have h6y : (double.fin ((vy + vy) * t * (1 / 2))).representable := by rw [ey]; exact h6
    rw [hc, hvq]
    simp only [vq, double.half_lit, fadd_fin _ _ h1, fmul_fin _ _ h2, fmul_fin _ _ h3x,
      fadd_fin _ _ h4, fmul_fin _ _ h5, fmul_fin _ _ h6y, ex, ey]

/-- Witness of C2 as amended: a unit square of mass 2 moving at (1, 0), ticked
by 3; its centroid moves by (3, 0). -/
theorem body_tick_free_motion_witness :
    (body_tick (square_body 0 0 2 (vq (1, 0))) (double.fin 3)).velocity = vq (1, 0) ∧
    (body_tick (square_body 0 0 2 (vq (1, 0))) (double.fin 3)).centroid =
      vec_add (vq (0, 0)) (vq (1 * 3, 0 * 3)) :=
  ⟨(body_tick_free_motion (square_body 0 0 2 (vq (1, 0))) 3 (1 / 2) rfl (by decide!) rfl rfl
      (by decide!) (by decide!)).1,
    (body_tick_free_motion (square_body 0 0 2 (vq (1, 0))) 3 (1 / 2) rfl (by decide!) rfl rfl
      (by decide!) (by decide!)).2.2.2 1 0 rfl (by decide!) (by decide!) (by decide!)
      (by decide!) (by decide!) (by decide!)⟩

/-- C3: on a body whose removed flag is set `body_tick` changes nothing: the
body it leaves is the body it was given, accumulators included. -/
theorem body_tick_removed (body : body_t) (dt : double) (hrem : body.removed = true) :
    body_tick body dt = body := by
  simp [body_tick, body_is_removed, hrem]

/-- Witness of C3: a removed body under a force keeps its force accumulator. -/
theorem body_tick_removed_witness :
    body_tick (body_remove (body_add_force (square_body 0 0 2 ⟨1, 0⟩) ⟨3, 4⟩)) 1 =
      body_remove (body_add_force (square_body 0 0 2 ⟨1, 0⟩) ⟨3, 4⟩) :=
  body_tick_removed _ 1 rfl

/-- C4 fails on overflow: with mass `INFINITY`, the finite force
(2^1023, 0), no impulse, velocity (1, 0) and the finite time step 4, the
product `dt * force` is `+inf`, the velocity delta `(1.0/mass) * inf` is NaN
and `body_tick` leaves the x velocity NaN. -/
theorem body_tick_infinite_mass_overflow :
    fmul 4 (double.fin (2 ^ 1023)) = double.pinf ∧
    fmul (fdiv 1.0 INFINITY) (fadd 0 (fmul 4 (double.fin (2 ^ 1023)))) = double.nan ∧
    (body_tick { square_body 0 0 INFINITY ⟨1, 0⟩ with force := ⟨double.fin (2 ^ 1023), 0⟩ }
      4).velocity.x = double.nan := by
  refine ⟨?_, ?_, ?_⟩ <;> decide!

/-- C4 as amended: on a body that is not removed and whose mass is `INFINITY`,
with finite force and impulse accumulators, a finite time step and velocity
components that are binary64 values, and with a finite total impulse
`impulse + dt*force` (no overflow), `body_tick` leaves the velocity unchanged:
the velocity delta `(1.0/mass) * (impulse + dt*force)` is 0. -/
theorem body_tick_infinite_mass_finite_impulse (body : body_t)
    (t fx fy jx jy sx sy : ℚ)
    (hmass : body.mass = INFINITY) (hrem : body.removed = false)
    (hF : body.force = ⟨double.fin fx, double.fin fy⟩)
    (hJ : body.impulse = ⟨double.fin jx, double.fin jy⟩)
    (hsx : fadd (double.fin jx) (fmul (double.fin t) (double.fin fx)) = double.fin sx)
    (hsy : fadd (double.fin jy) (fmul (double.fin t) (double.fin fy)) = double.fin sy)
    (hvx : body.velocity.x.representable) (hvy : body.velocity.y.representable) :
    (body_tick body (double.fin t)).velocity = body.velocity ∧
    fmul (fdiv 1.0 body.mass) (fadd body.impulse.x (fmul (double.fin t) body.force.x)) =
      double.fin 0 ∧
    fmul (fdiv 1.0 body.mass) (fadd body.impulse.y (fmul (double.fin t) body.force.y)) =
      double.fin 0 := by
  have h1 : fdiv 1.0 INFINITY = double.fin 0 := by
    rw [double.one_lit]; rfl
  simp only [body_tick, body_is_removed, hrem, body_get_velocity, body_set_velocity,
    body_set_centroid, hmass, hF, hJ, h1, hsx, hsy, fmul_zero_fin, fadd_fin_zero _ hvx,
    fadd_fin_zero _ hvy, Bool.not_false, if_true, and_self]

/-- Witness of C4 as amended: an immovable unit square under the force (3, 4)
and a time step 3. -/
theorem body_tick_infinite_mass_finite_impulse_witness :
    (body_tick { square_body 0 0 INFINITY ⟨1, 0⟩ with force := ⟨double.fin 3, double.fin 4⟩ }
      (double.fin 3)).velocity = ⟨1, 0⟩ :=
  (body_tick_infinite_mass_finite_impulse
    { square_body 0 0 INFINITY ⟨1, 0⟩ with force := ⟨double.fin 3, double.fin 4⟩ }
    3 3 4 0 0 9 12 rfl rfl rfl rfl (by decide!) (by decide!) (by decide!) (by decide!)).1


/-! ### The rounding is to a nearest value of the binary64 grid -/

theorem halvings_spec : ∀ fuel n : Nat, 1 ≤ n → n ≤ fuel →
    2 ^ halvings fuel n ≤ n ∧ n < 2 ^ (halvings fuel n + 1) := by
  intro fuel
  induction fuel with
  | zero => intro n h1 h2; omega
  | succ f ih =>
    intro n h1 h2
    by_cases hn : n < 2
    · have : n = 1 := by omega
      subst this
      simp [halvings]
    · have hdiv1 : 1 ≤ n / 2 := by omega
      have hdiv2 : n / 2 ≤ f := by omega
      obtain ⟨ha, hb⟩ := ih (n / 2) hdiv1 hdiv2
      simp only [halvings, hn, if_false]
      constructor
      · have : 2 ^ (halvings f (n / 2) + 1) = 2 * 2 ^ halvings f (n / 2) := by ring
        omega
      · have : 2 ^ (halvings f (n / 2) + 1 + 1) = 2 * 2 ^ (halvings f (n / 2) + 1) := by ring
        omega

theorem ilog2_spec (n : Nat) (hn : 1 ≤ n) : 2 ^ ilog2 n ≤ n ∧ n < 2 ^ (ilog2 n + 1) :=
  halvings_spec n n hn (le_refl n)

theorem pow2_eq_zpow (e : Int) : pow2 e = (2 : ℚ) ^ e := by
  unfold pow2
  split
  · rename_i h
    obtain ⟨n, rfl⟩ := Int.eq_ofNat_of_zero_le h
    simp
  · rename_i h
    have h' : 0 ≤ -e := by omega
    obtain ⟨n, hn⟩ := Int.eq_ofNat_of_zero_le h'
    have : e = -(n : Int) := by omega
    subst this
    simp

theorem pow2_pos (e : Int) : 0 < pow2 e := by
  rw [pow2_eq_zpow]
  positivity

theorem pow2_succ (e : Int) : pow2 (e + 1) = 2 * pow2 e := by
  rw [pow2_eq_zpow, pow2_eq_zpow, zpow_add_one₀ (by norm_num : (2 : ℚ) ≠ 0)]
  ring

theorem quotient_bounds (N D A B : ℚ) (hN : 0 < N) (hD : 0 < D) (hB : 0 < B)
    (h1 : A ≤ N) (h2 : N < 2 * A) (h3 : B ≤ D) (h4 : D < 2 * B) :
    N / D < 2 * (A / B) ∧ A / B ≤ 2 * (N / D) := by
  constructor
  · rw [← mul_div_assoc, div_lt_div_iff₀ hD hB]
    nlinarith
  · rw [← mul_div_assoc, div_le_div_iff₀ hB hD]
    nlinarith

theorem binary_exponent_spec (q : ℚ) (hq : 0 < q) :
    pow2 (binary_exponent q) ≤ q ∧ q < pow2 (binary_exponent q + 1) := by
  have hnum : 0 < q.num := Rat.num_pos.mpr hq
  have hden : 1 ≤ q.den := q.den_pos
  have hnat : (q.num.toNat : Int) = q.num := Int.toNat_of_nonneg (le_of_lt hnum)
  have hn1 : 1 ≤ q.num.toNat := by omega
  obtain ⟨ha1, ha2⟩ := ilog2_spec q.num.toNat hn1
  obtain ⟨hb1, hb2⟩ := ilog2_spec q.den hden
  have hqn : (q.num : ℚ) = (q.num.toNat : ℚ) := by rw [← Int.cast_natCast, hnat]
  have hA1 : (2 : ℚ) ^ ilog2 q.num.toNat ≤ (q.num : ℚ) := by
    rw [hqn]; exact_mod_cast ha1
  have hA2 : (q.num : ℚ) < 2 * (2 : ℚ) ^ ilog2 q.num.toNat := by
    rw [hqn, ← pow_succ']; exact_mod_cast ha2
  have hB1 : (2 : ℚ) ^ ilog2 q.den ≤ (q.den : ℚ) := by exact_mod_cast hb1
  have hB2 : (q.den : ℚ) < 2 * (2 : ℚ) ^ ilog2 q.den := by
    rw [← pow_succ']; exact_mod_cast hb2
  have hdq : (0 : ℚ) < q.den := by exact_mod_cast hden
  have hnq : (0 : ℚ) < q.num := by exact_mod_cast hnum
  have hqe : (q.num : ℚ) / (q.den : ℚ) = q := Rat.num_div_den q
  have hpb : (0 : ℚ) < (2 : ℚ) ^ ilog2 q.den := by positivity
  have he0 : pow2 ((ilog2 q.num.toNat : Int) - (ilog2 q.den : Int)) =
      (2 : ℚ) ^ ilog2 q.num.toNat / (2 : ℚ) ^ ilog2 q.den := by
    rw [pow2_eq_zpow, zpow_sub₀ (by norm_num : (2 : ℚ) ≠ 0), zpow_natCast, zpow_natCast]
  obtain ⟨hup, hlo⟩ := quotient_bounds _ _ _ _ hnq hdq hpb hA1 hA2 hB1 hB2
  rw [hqe] at hup hlo
  simp only [binary_exponent]
  split
  · rename_i h
    refine ⟨h, ?_⟩
    rw [pow2_succ, he0]
    exact hup
  · rename_i h
    have hs : pow2 ((ilog2 q.num.toNat : Int) - (ilog2 q.den : Int) - 1 + 1) =
        pow2 ((ilog2 q.num.toNat : Int) - (ilog2 q.den : Int)) := by
      congr 1; ring
    have h2 := pow2_succ ((ilog2 q.num.toNat : Int) - (ilog2 q.den : Int) - 1)
    rw [hs] at h2
    constructor
    · rw [he0] at h2
      linarith
    · rw [hs]
      exact not_le.mp h

theorem round_even_spec (x : ℚ) :
    |(round_even x : ℚ) - x| ≤ 1 / 2 ∧
      (|(round_even x : ℚ) - x| = 1 / 2 → round_even x % 2 = 0) := by
  have h1 : ((⌊x⌋ : Int) : ℚ) ≤ x := Int.floor_le x
  have h2 : x < ((⌊x⌋ : Int) : ℚ) + 1 := Int.lt_floor_add_one x
  simp only [round_even]
  split
  · rename_i h
    have e : |((⌊x⌋ : Int) : ℚ) - x| = x - ⌊x⌋ := by
      rw [abs_sub_comm, abs_of_nonneg (by linarith)]
    rw [e]
    exact ⟨by linarith, fun h' => by linarith⟩
  · split
    · rename_i h h'
      have e : |(((⌊x⌋ + 1 : Int)) : ℚ) - x| = ⌊x⌋ + 1 - x := by
        push_cast
        rw [abs_of_nonneg (by linarith)]
      rw [e]
      exact ⟨by linarith, fun h'' => by linarith⟩
    · rename_i h h'
      have hr : x - ⌊x⌋ = 1 / 2 := le_antisymm (not_lt.mp h') (not_lt.mp h)
      split
      · rename_i hev
        have e : |((⌊x⌋ : Int) : ℚ) - x| = 1 / 2 := by
          rw [abs_sub_comm, abs_of_nonneg (by linarith)]; exact hr
        exact ⟨by rw [e], fun _ => hev⟩
      · rename_i hev
        have e : |(((⌊x⌋ + 1 : Int)) : ℚ) - x| = 1 / 2 := by
          push_cast
          rw [abs_of_nonneg (by linarith)]; linarith
        refine ⟨by rw [e], fun _ => ?_⟩
        omega

/-- The rounding of a positive rational `q`.  With `e` the binary exponent of
`q`, or -1022 when that is larger, the values of binary64 near `q` are the
integer multiples of `u = 2^(e-52)`.  The rounding takes a multiple `n*u`
that is nearest to `q`, the one with `n` even when two are nearest, with
`n ≤ 2^53`; it is `+inf` when that multiple reaches `2^1024`. -/
theorem round_pos_nearest (q : ℚ) (hq : 0 < q) :
    ∃ n e : Int, e = max (binary_exponent q) (-1022) ∧
      (-1022 < e → pow2 e ≤ q ∧ q < pow2 (e + 1)) ∧ (e = -1022 → q < pow2 (e + 1)) ∧
      0 ≤ n ∧ n ≤ 2 ^ 53 ∧
      |(n : ℚ) * pow2 (e - 52) - q| ≤ pow2 (e - 52) / 2 ∧
      (|(n : ℚ) * pow2 (e - 52) - q| = pow2 (e - 52) / 2 → n % 2 = 0) ∧
      round_pos q = if pow2 1024 ≤ (n : ℚ) * pow2 (e - 52) then double.pinf
        else double.fin ((n : ℚ) * pow2 (e - 52)) := by
  obtain ⟨hb1, hb2⟩ := binary_exponent_spec q hq
  have hu : 0 < pow2 (max (binary_exponent q) (-1022) - 52) := pow2_pos _
  obtain ⟨hr1, hr2⟩ := round_even_spec (q / pow2 (max (binary_exponent q) (-1022) - 52))
  have hup : q < pow2 (max (binary_exponent q) (-1022) + 1) := by
    rcases le_total (binary_exponent q) (-1022) with h | h
    · rw [max_eq_right h]
      have : pow2 (binary_exponent q + 1) ≤ pow2 (-1022 + 1) := by
        rw [pow2_eq_zpow, pow2_eq_zpow]
        exact zpow_le_zpow_right₀ (by norm_num) (by omega)
      linarith
    · rw [max_eq_left h]; exact hb2
  have hscale : pow2 (max (binary_exponent q) (-1022) + 1) =
      2 ^ 53 * pow2 (max (binary_exponent q) (-1022) - 52) := by
    rw [pow2_eq_zpow, pow2_eq_zpow]
    have : max (binary_exponent q) (-1022) + 1 = 53 + (max (binary_exponent q) (-1022) - 52) := by
      ring
    rw [this, zpow_add₀ (by norm_num : (2 : ℚ) ≠ 0)]
    norm_num
  have hquot : q / pow2 (max (binary_exponent q) (-1022) - 52) < 2 ^ 53 := by
    rw [div_lt_iff₀ hu, ← hscale]; exact hup
  have hquot0 : 0 < q / pow2 (max (binary_exponent q) (-1022) - 52) := div_pos hq hu
  have habs : ∀ n : Int, |(n : ℚ) * pow2 (max (binary_exponent q) (-1022) - 52) - q| =
      |(n : ℚ) - q / pow2 (max (binary_exponent q) (-1022) - 52)| *
        pow2 (max (binary_exponent q) (-1022) - 52) := by
    intro n
    rw [← abs_of_pos hu, ← abs_mul, abs_of_pos hu]
    congr 1
    field_simp
  refine ⟨round_even (q / pow2 (max (binary_exponent q) (-1022) - 52)),
    max (binary_exponent q) (-1022), rfl, ?_, ?_, ?_, ?_, ?_, ?_, ?_⟩
  · intro h
    have : max (binary_exponent q) (-1022) = binary_exponent q := by
      rcases le_total (binary_exponent q) (-1022) with h' | h'
      · rw [max_eq_right h'] at h; omega
      · exact max_eq_left h'
    rw [this]; exact ⟨hb1, hb2⟩
  · intro _; exact hup
  · have : (-1 : ℚ) < round_even (q / pow2 (max (binary_exponent q) (-1022) - 52)) := by
      have := abs_le.mp hr1
      linarith [this.1]
    have : (-1 : Int) < round_even (q / pow2 (max (binary_exponent q) (-1022) - 52)) := by
      exact_mod_cast this
    omega
  · have : (round_even (q / pow2 (max (binary_exponent q) (-1022) - 52)) : ℚ) < 2 ^ 53 + 1 := by
      have := abs_le.mp hr1
      linarith [this.2]
    have : round_even (q / pow2 (max (binary_exponent q) (-1022) - 52)) < 2 ^ 53 + 1 := by
      exact_mod_cast this
    omega
  · rw [habs]
    calc _ ≤ 1 / 2 * pow2 (max (binary_exponent q) (-1022) - 52) :=
          mul_le_mul_of_nonneg_right hr1 (le_of_lt hu)
      _ = _ := by ring
  · intro h
    rw [habs] at h
    apply hr2
    have : |(round_even (q / pow2 (max (binary_exponent q) (-1022) - 52)) : ℚ) -
        q / pow2 (max (binary_exponent q) (-1022) - 52)| *
        pow2 (max (binary_exponent q) (-1022) - 52) =
        1 / 2 * pow2 (max (binary_exponent q) (-1022) - 52) := by rw [h]; ring
    exact mul_right_cancel₀ (ne_of_gt hu) this
  · rfl

/-! ### The detector on finite shapes -/

theorem double.fin_lt (a b : ℚ) : (double.fin a < double.fin b) ↔ a < b := by
  show double.lt (double.fin a) (double.fin b) = true ↔ a < b
  simp [double.lt]

theorem double.fin_le (a b : ℚ) : (double.fin a ≤ double.fin b) ↔ a ≤ b := by
  show double.le (double.fin a) (double.fin b) = true ↔ a ≤ b
  simp [double.le]

theorem find_extrema_step_max (e t : ℚ) :
    find_extrema_step TYPE_MAX (double.fin e) (double.fin t) = double.fin (max e t) := by
  by_cases h : e < t
  · simp [find_extrema_step, TYPE_MAX, double.fin_lt, h, max_eq_right (le_of_lt h)]
  · simp [find_extrema_step, TYPE_MAX, double.fin_lt, h, max_eq_left (not_lt.mp h)]

theorem find_extrema_step_min (e t : ℚ) :
    find_extrema_step TYPE_MIN (double.fin e) (double.fin t) = double.fin (min e t) := by
  by_cases h : t < e
  · simp [find_extrema_step, TYPE_MIN, double.fin_lt, h, min_eq_right (le_of_lt h)]
  · simp [find_extrema_step, TYPE_MIN, double.fin_lt, h, min_eq_left (not_lt.mp h)]

theorem foldl_step_fin (step : double → double → double) (f : ℚ → ℚ → ℚ)
    (hstep : ∀ e t, step (double.fin e) (double.fin t) = double.fin (f e t)) :
    ∀ (r : List ℚ) (x : ℚ),
      (r.map double.fin).foldl step (double.fin x) = double.fin (r.foldl f x) := by
  intro r
  induction r with
  | nil => intro x; rfl
  | cons t r ih => intro x; simp only [List.map_cons, List.foldl_cons, hstep, ih]

theorem find_extrema_max_fin (l : List ℚ) (hl : l ≠ []) :
    find_extrema (l.map double.fin) TYPE_MAX = some (double.fin (lmax l)) := by
  cases l with
  | nil => exact absurd rfl hl
  | cons x r =>
    simp only [List.map_cons, find_extrema, lmax]
    rw [foldl_step_fin _ max find_extrema_step_max]

theorem find_extrema_min_fin (l : List ℚ) (hl : l ≠ []) :
    find_extrema (l.map double.fin) TYPE_MIN = some (double.fin (lmin l)) := by
  cases l with
  | nil => exact absurd rfl hl
  | cons x r =>
    simp only [List.map_cons, find_extrema, lmin]
    rw [foldl_step_fin _ min find_extrema_step_min]

theorem vec_dot_vq (p q : ℚ × ℚ) : vec_dot (vq p) (vq q) = double.fin (qdot p q) := by
  simp [vec_dot, vq, qdot, double.fin_mul, double.fin_add]

theorem add_mag_point_fin (M : libm) (L p : ℚ × ℚ) (hL : qdot L L ≠ 0) :
    add_mag_point M (vq L) (vq p) = double.fin (signed_mag M L p) := by
  have hnn : ∀ a b : ℚ, ¬ (a * a + b * b < 0) := fun a b =>
    not_lt.mpr (add_nonneg (mul_self_nonneg a) (mul_self_nonneg b))
  simp only [add_mag_point, vec_projection, vec_dot_vq, double.fin_div _ _ hL, vec_multiply,
    vec_magnitude, signed_mag, NEGATE]
  simp only [vq, double.fin_mul, double.fin_add, libm.dsqrt, hnn, if_false, double.zero_lit,
    double.fin_lt]
  have hneg : (-1 : double) = double.fin (-1) := by
    show double.neg (double.fin ((1 : Nat) : ℚ)) = double.fin (-1)
    simp [double.neg]
  rw [hneg]
  split <;> simp [double.fin_mul]

theorem add_mag_fin (M : libm) (L : ℚ × ℚ) (P : List (ℚ × ℚ)) (hL : qdot L L ≠ 0) :
    add_mag M (vq L) (P.map vq) [] = (P.map (signed_mag M L)).map double.fin := by
  simp only [add_mag, List.nil_append, List.map_map]
  apply List.map_congr_left
  intro p _
  exact add_mag_point_fin M L p hL

theorem overlap_fin (M : libm) (L : ℚ × ℚ) (P1 P2 : List (ℚ × ℚ)) (hL : qdot L L ≠ 0)
    (h1 : P1 ≠ []) (h2 : P2 ≠ []) :
    overlap M (vq L) (P1.map vq) (P2.map vq) = some (double.fin (qoverlap M L P1 P2)) := by
  have e1 : P1.map (signed_mag M L) ≠ [] := by simpa using h1
  have e2 : P2.map (signed_mag M L) ≠ [] := by simpa using h2
  simp only [overlap, add_mag_fin M L _ hL, find_extrema_max_fin _ e1, find_extrema_max_fin _ e2,
    find_extrema_min_fin _ e1, find_extrema_min_fin _ e2, double.fin_le, qoverlap,
    double.fin_sub]
  split <;> rfl

theorem find_collision_loop_fin (M : libm) (P1 P2 : List (ℚ × ℚ)) (h1 : P1 ≠ []) (h2 : P2 ≠ []) :
    ∀ (Ls : List (ℚ × ℚ)) (v : ℚ × ℚ) (least : ℚ), (∀ L ∈ Ls, qdot L L ≠ 0) →
      find_collision_loop M (P1.map vq) (P2.map vq) (Ls.map vq) (vq v) (double.fin least) =
        some ((qloop M P1 P2 Ls v least).map vq) := by
  intro Ls
  induction Ls with
  | nil => intro v least _; rfl
  | cons L rest ih =>
    intro v least hLs
    have hL : qdot L L ≠ 0 := hLs L (List.mem_cons_self _ _)
    have hrest : ∀ L ∈ rest, qdot L L ≠ 0 := fun K hK => hLs K (List.mem_cons_of_mem _ hK)
    simp only [List.map_cons, find_collision_loop, overlap_fin M L P1 P2 hL h1 h2, qloop,
      double.zero_lit, double.fin_lt]
    by_cases hneg : qoverlap M L P1 P2 < 0
    · simp [hneg]
    · by_cases hlt : qoverlap M L P1 P2 < least
      · simp only [hneg, hlt, if_true, if_false]
        exact ih L _ hrest
      · simp only [hneg, hlt, if_false]
        exact ih v least hrest

theorem foldl_max_ge (r : List ℚ) : ∀ x : ℚ, x ≤ r.foldl max x ∧ ∀ y ∈ r, y ≤ r.foldl max x := by
  induction r with
  | nil => intro x; simp
  | cons t r ih =>
    intro x
    obtain ⟨h1, h2⟩ := ih (max x t)
    refine ⟨le_trans (le_max_left x t) h1, ?_⟩
    intro y hy
    rcases List.mem_cons.mp hy with rfl | hy
    · exact le_trans (le_max_right x y) h1
    · exact h2 y hy

theorem foldl_min_le (r : List ℚ) : ∀ x : ℚ, r.foldl min x ≤ x ∧ ∀ y ∈ r, r.foldl min x ≤ y := by
  induction r with
  | nil => intro x; simp
  | cons t r ih =>
    intro x
    obtain ⟨h1, h2⟩ := ih (min x t)
    refine ⟨le_trans h1 (min_le_left x t), ?_⟩
    intro y hy
    rcases List.mem_cons.mp hy with rfl | hy
    · exact le_trans h1 (min_le_right x y)
    · exact h2 y hy

theorem foldl_max_mem (r : List ℚ) : ∀ x : ℚ, r.foldl max x ∈ x :: r := by
  induction r with
  | nil => intro x; simp
  | cons t r ih =>
    intro x
    have h := ih (max x t)
    rcases List.mem_cons.mp h with h | h
    · rcases max_choice x t with hm | hm
      · rw [List.foldl_cons, h, hm]; exact List.mem_cons_self _ _
      · rw [List.foldl_cons, h, hm]; exact List.mem_cons_of_mem _ (List.mem_cons_self _ _)
    · exact List.mem_cons_of_mem _ (List.mem_cons_of_mem _ h)

theorem foldl_min_mem (r : List ℚ) : ∀ x : ℚ, r.foldl min x ∈ x :: r := by
  induction r with
  | nil => intro x; simp
  | cons t r ih =>
    intro x
    have h := ih (min x t)
    rcases List.mem_cons.mp h with h | h
    · rcases min_choice x t with hm | hm
      · rw [List.foldl_cons, h, hm]; exact List.mem_cons_self _ _
      · rw [List.foldl_cons, h, hm]; exact List.mem_cons_of_mem _ (List.mem_cons_self _ _)
    · exact List.mem_cons_of_mem _ (List.mem_cons_of_mem _ h)

theorem le_lmax (l : List ℚ) (y : ℚ) (hy : y ∈ l) : y ≤ lmax l := by
  cases l with
  | nil => cases hy
  | cons x r =>
    rcases List.mem_cons.mp hy with rfl | hy
    · exact (foldl_max_ge r y).1
    · exact (foldl_max_ge r x).2 y hy

theorem lmin_le (l : List ℚ) (y : ℚ) (hy : y ∈ l) : lmin l ≤ y := by
  cases l with
  | nil => cases hy
  | cons x r =>
    rcases List.mem_cons.mp hy with rfl | hy
    · exact (foldl_min_le r y).1
    · exact (foldl_min_le r x).2 y hy

theorem lmax_mem (l : List ℚ) (hl : l ≠ []) : lmax l ∈ l := by
  cases l with
  | nil => exact absurd rfl hl
  | cons x r => exact foldl_max_mem r x

theorem lmin_mem (l : List ℚ) (hl : l ≠ []) : lmin l ∈ l := by
  cases l with
  | nil => exact absurd rfl hl
  | cons x r => exact foldl_min_mem r x

theorem lmin_le_lmax (l : List ℚ) (hl : l ≠ []) : lmin l ≤ lmax l :=
  le_lmax l _ (lmin_mem l hl)

/-- The sign of the overlap does not depend on the order of the two shapes. -/
theorem qoverlap_neg_comm (M : libm) (L : ℚ × ℚ) (P1 P2 : List (ℚ × ℚ))
    (h1 : P1 ≠ []) (h2 : P2 ≠ []) :
    qoverlap M L P1 P2 < 0 ↔ qoverlap M L P2 P1 < 0 := by
  have e1 : P1.map (signed_mag M L) ≠ [] := by simpa using h1
  have e2 : P2.map (signed_mag M L) ≠ [] := by simpa using h2
  have m1 := lmin_le_lmax _ e1
  have m2 := lmin_le_lmax _ e2
  simp only [qoverlap]
  split_ifs with ha hb hb
  · constructor <;> intro h <;> linarith
  · rfl
  · rfl
  · constructor <;> intro h <;> linarith

theorem qloop_none_iff (M : libm) (P1 P2 : List (ℚ × ℚ)) :
    ∀ (Ls : List (ℚ × ℚ)) (v : ℚ × ℚ) (least : ℚ),
      qloop M P1 P2 Ls v least = none ↔ ∃ L ∈ Ls, qoverlap M L P1 P2 < 0 := by
  intro Ls
  induction Ls with
  | nil => intro v least; simp [qloop]
  | cons L rest ih =>
    intro v least
    simp only [qloop, List.mem_cons, exists_eq_or_imp]
    by_cases hneg : qoverlap M L P1 P2 < 0
    · simp [hneg]
    · by_cases hlt : qoverlap M L P1 P2 < least
      · simp only [hneg, hlt, if_true, if_false, false_or]
        exact ih _ _
      · simp only [hneg, hlt, if_false, false_or]
        exact ih _ _

theorem vec_rotate_vq (M : libm) (d : ℚ × ℚ) :
    vec_rotate M (vq d) NINETY_DEGREES = vq (qrot M.c90 M.s90 d) := by
  have hc : M.dcos NINETY_DEGREES = double.fin M.c90 := rfl
  have hs : M.dsin NINETY_DEGREES = double.fin M.s90 := rfl
  simp only [vec_rotate, hc, hs, vq, double.fin_mul, double.fin_sub, double.fin_add, qrot]

theorem vec_subtract_vq (p q : ℚ × ℚ) : vec_subtract (vq p) (vq q) = vq (p - q) := by
  simp [vec_subtract, vq, double.fin_sub]

theorem getD_map_vq (P : List (ℚ × ℚ)) (i : Nat) (hi : i < P.length) :
    (P.map vq).getD i VEC_ZERO = vq (P.getD i 0) := by
  rw [List.getD_eq_getElem _ _ (by simpa using hi), List.getD_eq_getElem _ _ hi,
    List.getElem_map]

theorem perpendicular_lines_fin (M : libm) (P : List (ℚ × ℚ)) (acc : List vector_t) :
    perpendicular_lines M acc (P.map vq) = acc ++ (qperp M P).map vq := by
  simp only [perpendicular_lines, qperp, List.length_map, List.map_map]
  congr 1
  apply List.map_congr_left
  intro i hi
  have hi1 : i < P.length := List.mem_range.mp hi
  have hi2 : (i + 1) % P.length < P.length := Nat.mod_lt _ (Nat.lt_of_le_of_lt (Nat.zero_le _) hi1)
  simp only [Function.comp, getD_map_vq P i hi1, getD_map_vq P _ hi2, vec_subtract_vq,
    vec_rotate_vq]

theorem qdot_qrot_self (c s : ℚ) (d : ℚ × ℚ) :
    qdot (qrot c s d) (qrot c s d) = (d.1 * d.1 + d.2 * d.2) * (c * c + s * s) := by
  simp only [qdot, qrot]; ring

theorem sum_sq_ne_zero (a b : ℚ) (h : a ≠ 0 ∨ b ≠ 0) : a * a + b * b ≠ 0 := by
  intro h0
  have ha := mul_self_nonneg a
  have hb := mul_self_nonneg b
  have ha0 : a * a = 0 := by linarith
  have hb0 : b * b = 0 := by linarith
  rcases h with h | h
  · exact h (mul_self_eq_zero.mp ha0)
  · exact h (mul_self_eq_zero.mp hb0)

theorem qperp_ne_zero (M : libm) (hM : M.c90 ≠ 0 ∨ M.s90 ≠ 0) (P : List (ℚ × ℚ))
    (hP : no_zero_edge P) : ∀ L ∈ qperp M P, qdot L L ≠ 0 := by
  intro L hL
  simp only [qperp, List.mem_map, List.mem_range] at hL
  obtain ⟨i, hi, rfl⟩ := hL
  rw [qdot_qrot_self]
  apply mul_ne_zero _ (sum_sq_ne_zero _ _ hM)
  apply sum_sq_ne_zero
  have hne := hP i hi
  by_contra hcon
  push_neg at hcon
  apply hne
  have h1 : (P.getD i 0).1 = (P.getD ((i + 1) % P.length) 0).1 := by
    have := hcon.1; simp only [Prod.fst_sub] at this; linarith
  have h2 : (P.getD i 0).2 = (P.getD ((i + 1) % P.length) 0).2 := by
    have := hcon.2; simp only [Prod.snd_sub] at this; linarith
  exact Prod.ext h1 h2

/-- The detector on two bodies with finite, non-empty shapes without an edge of
length zero: it returns, and its result is determined by the rational loop. -/
theorem find_collision_fin (M : libm) (hM : M.c90 ≠ 0 ∨ M.s90 ≠ 0) (h : heap) (A B : Nat)
    (P1 P2 : List (ℚ × ℚ)) (hA : (h A).points = P1.map vq) (hB : (h B).points = P2.map vq)
    (h1 : P1 ≠ []) (h2 : P2 ≠ []) (he1 : no_zero_edge P1) (he2 : no_zero_edge P2) :
    find_collision M h A B =
      match qloop M P1 P2 (qperp M P1 ++ qperp M P2) (0, 0) 99999 with
      | none => some ({ collided := false, axis := ⟨-1, -1⟩ },
          (h.modify A (fun body => body_collided body false)).modify B
            (fun body => body_collided body false))
      | some w => some ({ collided := true, axis := vec_unit M (vq w) }, h) := by
  have hLs : ∀ L ∈ qperp M P1 ++ qperp M P2, qdot L L ≠ 0 := by
    intro L hL
    rcases List.mem_append.mp hL with hL | hL
    · exact qperp_ne_zero M hM P1 he1 L hL
    · exact qperp_ne_zero M hM P2 he2 L hL
  have hloop := find_collision_loop_fin M P1 P2 h1 h2 _ (0, 0) 99999 hLs
  have hv : vec_init 0 0 = vq (0, 0) := by
    simp [vec_init, vq, double.zero_lit]
  have hl : double.ofInt LARGE_NUMBER = double.fin 99999 := by
    simp [double.ofInt, LARGE_NUMBER]
  simp only [find_collision, body_get_shape, hA, hB, perpendicular_lines_fin, List.nil_append,
    ← List.map_append, hv, hl, hloop]
  cases qloop M P1 P2 (qperp M P1 ++ qperp M P2) (0, 0) 99999 <;> rfl

theorem sample_libm_c90 : sample_libm.c90 ≠ 0 := by decide!

theorem sample_libm_s90 : sample_libm.s90 ≠ 0 := by decide!

/-- C5: for two bodies with finite, non-empty polygons without an edge of
length zero, `find_collision` returns in both argument orders and the two
`collided` results are equal. -/
theorem find_collision_symmetric (M : libm) (hM : M.c90 ≠ 0 ∨ M.s90 ≠ 0) (h : heap) (A B : Nat)
    (P1 P2 : List (ℚ × ℚ)) (hA : (h A).points = P1.map vq) (hB : (h B).points = P2.map vq)
    (h1 : P1 ≠ []) (h2 : P2 ≠ []) (he1 : no_zero_edge P1) (he2 : no_zero_edge P2) :
    ∃ r1 r2, find_collision M h A B = some r1 ∧ find_collision M h B A = some r2 ∧
      r1.1.collided = r2.1.collided := by
  rw [find_collision_fin M hM h A B P1 P2 hA hB h1 h2 he1 he2,
    find_collision_fin M hM h B A P2 P1 hB hA h2 h1 he2 he1]
  have hiff : qloop M P1 P2 (qperp M P1 ++ qperp M P2) (0, 0) 99999 = none ↔
      qloop M P2 P1 (qperp M P2 ++ qperp M P1) (0, 0) 99999 = none := by
    rw [qloop_none_iff, qloop_none_iff]
    constructor
    · rintro ⟨L, hL, hneg⟩
      exact ⟨L, List.mem_append.mpr (List.mem_append.mp hL).symm,
        (qoverlap_neg_comm M L P1 P2 h1 h2).mp hneg⟩
    · rintro ⟨L, hL, hneg⟩
      exact ⟨L, List.mem_append.mpr (List.mem_append.mp hL).symm,
        (qoverlap_neg_comm M L P2 P1 h2 h1).mp hneg⟩
  cases hq1 : qloop M P1 P2 (qperp M P1 ++ qperp M P2) (0, 0) 99999 with
  | none =>
    rw [hiff.mp hq1]
    exact ⟨_, _, rfl, rfl, rfl⟩
  | some w =>
    cases hq2 : qloop M P2 P1 (qperp M P2 ++ qperp M P1) (0, 0) 99999 with
    | none => rw [hiff.mpr hq2] at hq1; cases hq1
    | some w2 => exact ⟨_, _, rfl, rfl, rfl⟩

/-- Witness of C5: the unit square and a larger square that shares its lower
left corner, so that the projection intervals have equal minima on an axis. -/
theorem find_collision_symmetric_witness :
    ∃ r1 r2,
      find_collision sample_libm
        (two_bodies (square_body 0 0 1 VEC_ZERO)
          (sample_body ((qsquare (1 / 2) (1 / 2) 1).map vq) ⟨double.fin (1 / 2), double.fin (1 / 2)⟩
            1 VEC_ZERO)) 0 1 = some r1 ∧
      find_collision sample_libm
        (two_bodies (square_body 0 0 1 VEC_ZERO)
          (sample_body ((qsquare (1 / 2) (1 / 2) 1).map vq) ⟨double.fin (1 / 2), double.fin (1 / 2)⟩
            1 VEC_ZERO)) 1 0 = some r2 ∧
      r1.1.collided = r2.1.collided :=
  find_collision_symmetric sample_libm (Or.inl sample_libm_c90) _ 0 1
    (qsquare 0 0 (1 / 2)) (qsquare (1 / 2) (1 / 2) 1) rfl rfl (by simp [qsquare])
    (by simp [qsquare]) (by decide!) (by decide!)

/-! ### Overlapping shapes -/

theorem qdot_self_pos (L : ℚ × ℚ) (hL : qdot L L ≠ 0) : 0 < qdot L L := by
  have h : 0 ≤ qdot L L := add_nonneg (mul_self_nonneg _) (mul_self_nonneg _)
  exact lt_of_le_of_ne h (Ne.symm hL)

theorem proj_sq (L p : ℚ × ℚ) (hL : qdot L L ≠ 0) :
    qdot p L / qdot L L * L.1 * (qdot p L / qdot L L * L.1) +
      qdot p L / qdot L L * L.2 * (qdot p L / qdot L L * L.2) =
    qdot p L * qdot p L / qdot L L := by
  have h : L.1 * L.1 + L.2 * L.2 ≠ 0 := hL
  field_simp
  simp only [qdot]
  ring

/-- The signed magnitude grows with the dot product of the point and the line. -/
theorem signed_mag_mono (M : libm) (hS : M.sqrt_monotone) (L p q : ℚ × ℚ) (hL : qdot L L ≠ 0)
    (hpq : qdot p L ≤ qdot q L) : signed_mag M L p ≤ signed_mag M L q := by
  have hpos := qdot_self_pos L hL
  simp only [signed_mag, proj_sq L _ hL]
  have hXp : 0 ≤ qdot p L * qdot p L / qdot L L :=
    div_nonneg (mul_self_nonneg _) (le_of_lt hpos)
  have hXq : 0 ≤ qdot q L * qdot q L / qdot L L :=
    div_nonneg (mul_self_nonneg _) (le_of_lt hpos)
  by_cases hp : qdot p L < 0
  · by_cases hq : qdot q L < 0
    · simp only [hp, hq, if_true]
      have hsq : qdot q L * qdot q L ≤ qdot p L * qdot p L := by nlinarith
      have hX : qdot q L * qdot q L / qdot L L ≤ qdot p L * qdot p L / qdot L L :=
        div_le_div_of_nonneg_right hsq (le_of_lt hpos)
      have := hS.2 _ _ hXq hX
      linarith
    · simp only [hp, hq, if_true, if_false]
      have h1 := hS.1 _ hXp
      have h2 := hS.1 _ hXq
      linarith
  · have hq : ¬ qdot q L < 0 := by
      intro hq; exact hp (lt_of_le_of_lt hpq hq)
    simp only [hp, hq, if_false]
    have hsq : qdot p L * qdot p L ≤ qdot q L * qdot q L := by nlinarith [not_lt.mp hp]
    have hX : qdot p L * qdot p L / qdot L L ≤ qdot q L * qdot q L / qdot L L :=
      div_le_div_of_nonneg_right hsq (le_of_lt hpos)
    exact hS.2 _ _ hXp hX

/-- When a vertex of each shape projects no lower than a vertex of the other,
the overlap on the line is not negative. -/
theorem qoverlap_nonneg (M : libm) (hS : M.sqrt_monotone) (L : ℚ × ℚ) (P1 P2 : List (ℚ × ℚ))
    (hL : qdot L L ≠ 0) (a b a2 b2 : ℚ × ℚ) (ha : a ∈ P1) (hb : b ∈ P2) (ha2 : a2 ∈ P1)
    (hb2 : b2 ∈ P2) (hab : qdot b L ≤ qdot a L) (hab2 : qdot a2 L ≤ qdot b2 L) :
    0 ≤ qoverlap M L P1 P2 := by
  have hmax1 : signed_mag M L a ≤ lmax (P1.map (signed_mag M L)) :=
    le_lmax _ _ (List.mem_map_of_mem _ ha)
  have hmin2 : lmin (P2.map (signed_mag M L)) ≤ signed_mag M L b :=
    lmin_le _ _ (List.mem_map_of_mem _ hb)
  have hmax2 : signed_mag M L b2 ≤ lmax (P2.map (signed_mag M L)) :=
    le_lmax _ _ (List.mem_map_of_mem _ hb2)
  have hmin1 : lmin (P1.map (signed_mag M L)) ≤ signed_mag M L a2 :=
    lmin_le _ _ (List.mem_map_of_mem _ ha2)
  have m1 := signed_mag_mono M hS L b a hL hab
  have m2 := signed_mag_mono M hS L a2 b2 hL hab2
  simp only [qoverlap]
  split_ifs <;> linarith

theorem qdot_combo_le (L : ℚ × ℚ) (B : ℚ) : ∀ (w : List ℚ) (P : List (ℚ × ℚ)),
    w.length = P.length → (∀ a ∈ w, 0 ≤ a) → (∀ p ∈ P, qdot p L ≤ B) →
    qdot (combo w P) L ≤ B * w.sum := by
  intro w
  induction w with
  | nil => intro P _ _ _; simp [combo, qdot]
  | cons a w ih =>
    intro P hlen hw hP
    cases P with
    | nil => simp at hlen
    | cons p P =>
      have h1 := ih P (by simpa using hlen) (fun x hx => hw x (List.mem_cons_of_mem _ hx))
        (fun x hx => hP x (List.mem_cons_of_mem _ hx))
      have h2 := hP p (List.mem_cons_self _ _)
      have h3 := hw a (List.mem_cons_self _ _)
      have h4 := mul_le_mul_of_nonneg_left h2 h3
      simp only [combo, List.zipWith_cons_cons, List.sum_cons, qdot] at h1 h4 ⊢
      nlinarith

theorem qdot_combo_ge (L : ℚ × ℚ) (B : ℚ) : ∀ (w : List ℚ) (P : List (ℚ × ℚ)),
    w.length = P.length → (∀ a ∈ w, 0 ≤ a) → (∀ p ∈ P, B ≤ qdot p L) →
    B * w.sum ≤ qdot (combo w P) L := by
  intro w
  induction w with
  | nil => intro P _ _ _; simp [combo, qdot]
  | cons a w ih =>
    intro P hlen hw hP
    cases P with
    | nil => simp at hlen
    | cons p P =>
      have h1 := ih P (by simpa using hlen) (fun x hx => hw x (List.mem_cons_of_mem _ hx))
        (fun x hx => hP x (List.mem_cons_of_mem _ hx))
      have h2 := hP p (List.mem_cons_self _ _)
      have h3 := hw a (List.mem_cons_self _ _)
      have h4 := mul_le_mul_of_nonneg_left h2 h3
      simp only [combo, List.zipWith_cons_cons, List.sum_cons, qdot] at h1 h4 ⊢
      nlinarith

/-- A point of the convex region projects no higher than some vertex. -/
theorem in_hull_le_vertex (L : ℚ × ℚ) (P : List (ℚ × ℚ)) (z : ℚ × ℚ) (hP : P ≠ [])
    (hz : in_hull P z) : ∃ a ∈ P, qdot z L ≤ qdot a L := by
  obtain ⟨w, hlen, hw, hsum, rfl⟩ := hz
  have hne : P.map (fun p => qdot p L) ≠ [] := by simpa using hP
  obtain ⟨a, ha, hav⟩ := List.mem_map.mp (lmax_mem _ hne)
  refine ⟨a, ha, ?_⟩
  have h := qdot_combo_le L (lmax (P.map (fun p => qdot p L))) w P hlen hw
    (fun p hp => le_lmax _ _ (List.mem_map_of_mem _ hp))
  rw [hsum, mul_one] at h
  rw [hav]; exact h

/-- A point of the convex region projects no lower than some vertex. -/
theorem in_hull_ge_vertex (L : ℚ × ℚ) (P : List (ℚ × ℚ)) (z : ℚ × ℚ) (hP : P ≠ [])
    (hz : in_hull P z) : ∃ a ∈ P, qdot a L ≤ qdot z L := by
  obtain ⟨w, hlen, hw, hsum, rfl⟩ := hz
  have hne : P.map (fun p => qdot p L) ≠ [] := by simpa using hP
  obtain ⟨a, ha, hav⟩ := List.mem_map.mp (lmin_mem _ hne)
  refine ⟨a, ha, ?_⟩
  have h := qdot_combo_ge L (lmin (P.map (fun p => qdot p L))) w P hlen hw
    (fun p hp => lmin_le _ _ (List.mem_map_of_mem _ hp))
  rw [hsum, mul_one] at h
  rw [hav]; exact h

theorem qloop_isSome_of_nonneg (M : libm) (P1 P2 Ls : List (ℚ × ℚ)) (v : ℚ × ℚ) (least : ℚ)
    (hall : ∀ L ∈ Ls, 0 ≤ qoverlap M L P1 P2) : ∃ w, qloop M P1 P2 Ls v least = some w := by
  cases hq : qloop M P1 P2 Ls v least with
  | some w => exact ⟨w, rfl⟩
  | none =>
    obtain ⟨L, hL, hneg⟩ := (qloop_none_iff M P1 P2 Ls v least).mp hq
    exact absurd hneg (not_lt.mpr (hall L hL))

/-- On shapes whose convex regions share a point no line has a negative
overlap. -/
theorem common_point_overlap_nonneg (M : libm) (hS : M.sqrt_monotone) (L : ℚ × ℚ)
    (P1 P2 : List (ℚ × ℚ)) (hL : qdot L L ≠ 0) (h1 : P1 ≠ []) (h2 : P2 ≠ []) (z : ℚ × ℚ)
    (hz1 : in_hull P1 z) (hz2 : in_hull P2 z) : 0 ≤ qoverlap M L P1 P2 := by
  obtain ⟨a, ha, hza⟩ := in_hull_le_vertex L P1 z h1 hz1
  obtain ⟨b, hb, hbz⟩ := in_hull_ge_vertex L P2 z h2 hz2
  obtain ⟨a2, ha2, haz2⟩ := in_hull_ge_vertex L P1 z h1 hz1
  obtain ⟨b2, hb2, hzb2⟩ := in_hull_le_vertex L P2 z h2 hz2
  exact qoverlap_nonneg M hS L P1 P2 hL a b a2 b2 ha hb ha2 hb2
    (le_trans hbz hza) (le_trans haz2 hzb2)

theorem qperp_append_ne_zero (M : libm) (hM : M.c90 ≠ 0 ∨ M.s90 ≠ 0) (P1 P2 : List (ℚ × ℚ))
    (he1 : no_zero_edge P1) (he2 : no_zero_edge P2) :
    ∀ L ∈ qperp M P1 ++ qperp M P2, qdot L L ≠ 0 := by
  intro L hL
  rcases List.mem_append.mp hL with hL | hL
  · exact qperp_ne_zero M hM P1 he1 L hL
  · exact qperp_ne_zero M hM P2 he2 L hL

/-- C7: two bodies with finite, non-empty polygons without an edge of length
zero whose convex regions share a point: no candidate axis yields a negative
overlap, and `find_collision` returns `collided = true`. -/
theorem find_collision_common_point (M : libm) (hM : M.c90 ≠ 0 ∨ M.s90 ≠ 0)
    (hS : M.sqrt_monotone) (h : heap) (A B : Nat) (P1 P2 : List (ℚ × ℚ))
    (hA : (h A).points = P1.map vq) (hB : (h B).points = P2.map vq)
    (h1 : P1 ≠ []) (h2 : P2 ≠ []) (he1 : no_zero_edge P1) (he2 : no_zero_edge P2)
    (z : ℚ × ℚ) (hz1 : in_hull P1 z) (hz2 : in_hull P2 z) :
    (∀ line ∈ perpendicular_lines M (perpendicular_lines M [] (h A).points) (h B).points,
      ∃ t, overlap M line (h A).points (h B).points = some (double.fin t) ∧ 0 ≤ t) ∧
    ∃ r, find_collision M h A B = some r ∧ r.1.collided = true := by
  have hLs := qperp_append_ne_zero M hM P1 P2 he1 he2
  have hnn : ∀ L ∈ qperp M P1 ++ qperp M P2, 0 ≤ qoverlap M L P1 P2 := fun L hL =>
    common_point_overlap_nonneg M hS L P1 P2 (hLs L hL) h1 h2 z hz1 hz2
  constructor
  · intro line hline
    rw [hA, hB, perpendicular_lines_fin, perpendicular_lines_fin, List.nil_append,
      ← List.map_append] at hline
    obtain ⟨L, hL, rfl⟩ := List.mem_map.mp hline
    exact ⟨qoverlap M L P1 P2, by rw [hA, hB]; exact overlap_fin M L P1 P2 (hLs L hL) h1 h2,
      hnn L hL⟩
  · rw [find_collision_fin M hM h A B P1 P2 hA hB h1 h2 he1 he2]
    obtain ⟨w, hw⟩ := qloop_isSome_of_nonneg M P1 P2 _ (0, 0) 99999 hnn
    rw [hw]
    exact ⟨_, rfl, rfl⟩

theorem sample_libm_sqrt_monotone : sample_libm.sqrt_monotone := by
  constructor
  · intro x hx
    show 0 ≤ (x + 1) / 2
    linarith
  · intro x y _ hxy
    show (x + 1) / 2 ≤ (y + 1) / 2
    linarith

/-- Witness of C7: the unit squares centred at (0,0) and (1/2,0) share the
point (1/4, 0). -/
theorem find_collision_common_point_witness :
    ∃ r, find_collision sample_libm
      (two_bodies (square_body 0 0 1 VEC_ZERO) (square_body (1 / 2) 0 1 VEC_ZERO)) 0 1 = some r ∧
      r.1.collided = true :=
  (find_collision_common_point sample_libm (Or.inl sample_libm_c90) sample_libm_sqrt_monotone
    (two_bodies (square_body 0 0 1 VEC_ZERO) (square_body (1 / 2) 0 1 VEC_ZERO)) 0 1
    (qsquare 0 0 (1 / 2)) (qsquare (1 / 2) 0 (1 / 2)) rfl rfl (by simp [qsquare])
    (by simp [qsquare]) (by decide!) (by decide!) (1 / 4, 0)
    ⟨[1 / 8, 3 / 8, 3 / 8, 1 / 8], rfl, by decide!, by decide!, by decide!⟩
    ⟨[3 / 8, 1 / 8, 1 / 8, 3 / 8], rfl, by decide!, by decide!, by decide!⟩).2

/-! ### The result of the loop -/

theorem qloop_mem (M : libm) (P1 P2 : List (ℚ × ℚ)) :
    ∀ (Ls : List (ℚ × ℚ)) (v : ℚ × ℚ) (least : ℚ) (w : ℚ × ℚ),
      qloop M P1 P2 Ls v least = some w → w = v ∨ w ∈ Ls := by
  intro Ls
  induction Ls with
  | nil => intro v least w hw; simp [qloop] at hw; exact Or.inl hw.symm
  | cons L rest ih =>
    intro v least w hw
    simp only [qloop] at hw
    by_cases hneg : qoverlap M L P1 P2 < 0
    · simp [hneg] at hw
    · by_cases hlt : qoverlap M L P1 P2 < least
      · simp only [hneg, hlt, if_true, if_false] at hw
        rcases ih _ _ _ hw with h | h
        · exact Or.inr (h ▸ List.mem_cons_self _ _)
        · exact Or.inr (List.mem_cons_of_mem _ h)
      · simp only [hneg, hlt, if_false] at hw
        rcases ih _ _ _ hw with h | h
        · exact Or.inl h
        · exact Or.inr (List.mem_cons_of_mem _ h)

theorem qloop_keep (M : libm) (P1 P2 : List (ℚ × ℚ)) (least : ℚ) (hleast : 0 ≤ least) :
    ∀ (Ls : List (ℚ × ℚ)) (v : ℚ × ℚ), (∀ L ∈ Ls, least ≤ qoverlap M L P1 P2) →
      qloop M P1 P2 Ls v least = some v := by
  intro Ls
  induction Ls with
  | nil => intro v _; rfl
  | cons L rest ih =>
    intro v hall
    have hL := hall L (List.mem_cons_self _ _)
    have hneg : ¬ qoverlap M L P1 P2 < 0 := not_lt.mpr (le_trans hleast hL)
    have hlt : ¬ qoverlap M L P1 P2 < least := not_lt.mpr hL
    simp only [qloop, hneg, hlt, if_false]
    exact ih v (fun K hK => hall K (List.mem_cons_of_mem _ hK))

/-! ### `vec_unit` on finite vectors -/

theorem vec_unit_vq (M : libm) (w : ℚ × ℚ) :
    vec_unit M (vq w) =
      if M.sqrt (w.1 * w.1 + w.2 * w.2) = 0 then
        ⟨double.pinf * double.fin w.1, double.pinf * double.fin w.2⟩
      else vq (1 / M.sqrt (w.1 * w.1 + w.2 * w.2) * w.1,
        1 / M.sqrt (w.1 * w.1 + w.2 * w.2) * w.2) := by
  have hnn : ¬ (w.1 * w.1 + w.2 * w.2 < 0) :=
    not_lt.mpr (add_nonneg (mul_self_nonneg _) (mul_self_nonneg _))
  have h1 : (1 : double) = double.fin 1 := by
    show double.fin ((1 : Nat) : ℚ) = double.fin 1
    norm_num
  simp only [vec_unit, vec_magnitude, vq, double.fin_mul, double.fin_add, libm.dsqrt, hnn,
    if_false, vec_multiply, h1]
  by_cases hr : M.sqrt (w.1 * w.1 + w.2 * w.2) = 0
  · have hd : double.fin 1 / double.fin (M.sqrt (w.1 * w.1 + w.2 * w.2)) = double.pinf := by
      show double.div _ _ = _
      simp [double.div, hr]
    simp only [hr, if_true] at hd ⊢
    rw [hd]
  · simp only [hr, if_false, double.fin_div _ _ hr, double.fin_mul]

theorem pinf_mul_fin (q : ℚ) (hq : q ≠ 0) :
    double.pinf * double.fin q = double.pinf ∨ double.pinf * double.fin q = double.ninf := by
  show double.mul _ _ = _ ∨ double.mul _ _ = _
  by_cases h : q < 0
  · right; simp [double.mul, double.isZero, double.isNeg, hq, h]
  · left; simp [double.mul, double.isZero, double.isNeg, hq, h]

theorem pinf_mul_zero : double.pinf * double.fin 0 = double.nan := by
  show double.mul _ _ = _
  simp [double.mul, double.isZero]

/-- The unit vector of a finite vector with a non-zero second component has a
second component that is neither zero nor NaN. -/
theorem vec_unit_y (M : libm) (w : ℚ × ℚ) (hw : w.2 ≠ 0) :
    (vec_unit M (vq w)).y ≠ double.fin 0 ∧ (vec_unit M (vq w)).y ≠ double.nan := by
  rw [vec_unit_vq]
  by_cases hr : M.sqrt (w.1 * w.1 + w.2 * w.2) = 0
  · simp only [hr, if_true]
    rcases pinf_mul_fin w.2 hw with h | h <;> rw [h] <;> constructor <;> intro hc <;> cases hc
  · simp only [hr, if_false, vq]
    constructor
    · intro hc
      have h0 : 1 / M.sqrt (w.1 * w.1 + w.2 * w.2) * w.2 = 0 := double.fin.inj hc
      rcases mul_eq_zero.mp h0 with h | h
      · exact hr (by simpa using h)
      · exact hw h
    · intro hc; cases hc

/-- The unit vector of the zero vector is the zero vector or NaN. -/
theorem vec_unit_zero (M : libm) :
    vec_unit M (vq (0, 0)) = vq (0, 0) ∨ vec_unit M (vq (0, 0)) = ⟨double.nan, double.nan⟩ := by
  rw [vec_unit_vq]
  simp only [mul_zero]
  by_cases hr : M.sqrt ((0 : ℚ) + 0) = 0
  · right
    simp only [hr, if_true, pinf_mul_zero]
  · left
    simp only [hr, if_false]

/-! ### Squares -/

theorem qperp_qsquare (M : libm) (cx cy hw : ℚ) :
    qperp M (qsquare cx cy hw) =
      [qrot M.c90 M.s90 (-(2 * hw), 0), qrot M.c90 M.s90 (0, -(2 * hw)),
       qrot M.c90 M.s90 (2 * hw, 0), qrot M.c90 M.s90 (0, 2 * hw)] := by
  have e0 : (cx - hw, cy - hw) - (cx + hw, cy - hw) = (-(2 * hw), (0 : ℚ)) :=
    Prod.ext (by simp only [Prod.fst_sub]; ring) (by simp only [Prod.snd_sub]; ring)
  have e1 : (cx + hw, cy - hw) - (cx + hw, cy + hw) = ((0 : ℚ), -(2 * hw)) :=
    Prod.ext (by simp only [Prod.fst_sub]; ring) (by simp only [Prod.snd_sub]; ring)
  have e2 : (cx + hw, cy + hw) - (cx - hw, cy + hw) = (2 * hw, (0 : ℚ)) :=
    Prod.ext (by simp only [Prod.fst_sub]; ring) (by simp only [Prod.snd_sub]; ring)
  have e3 : (cx - hw, cy + hw) - (cx - hw, cy - hw) = ((0 : ℚ), 2 * hw) :=
    Prod.ext (by simp only [Prod.fst_sub]; ring) (by simp only [Prod.snd_sub]; ring)
  have hr : List.range 4 = [0, 1, 2, 3] := rfl
  have hlen : (qsquare cx cy hw).length = 4 := rfl
  have g0 : (qsquare cx cy hw).getD 0 0 = (cx - hw, cy - hw) := rfl
  have g1 : (qsquare cx cy hw).getD 1 0 = (cx + hw, cy - hw) := rfl
  have g2 : (qsquare cx cy hw).getD 2 0 = (cx + hw, cy + hw) := rfl
  have g3 : (qsquare cx cy hw).getD 3 0 = (cx - hw, cy + hw) := rfl
  simp only [qperp, hlen, hr, List.map_cons, List.map_nil, Nat.reduceAdd, Nat.reduceMod,
    g0, g1, g2, g3, e0, e1, e2, e3]

theorem no_zero_edge_qsquare (cx cy hw : ℚ) (hhw : hw ≠ 0) : no_zero_edge (qsquare cx cy hw) := by
  intro i hi
  have hi4 : i < 4 := hi
  have hlen : (qsquare cx cy hw).length = 4 := rfl
  have g0 : (qsquare cx cy hw).getD 0 0 = (cx - hw, cy - hw) := rfl
  have g1 : (qsquare cx cy hw).getD 1 0 = (cx + hw, cy - hw) := rfl
  have g2 : (qsquare cx cy hw).getD 2 0 = (cx + hw, cy + hw) := rfl
  have g3 : (qsquare cx cy hw).getD 3 0 = (cx - hw, cy + hw) := rfl
  have h2 : hw + hw ≠ 0 := by
    intro h; apply hhw; linarith
  interval_cases i <;> simp only [hlen, Nat.reduceAdd, Nat.reduceMod, g0, g1, g2, g3] <;>
    intro h <;> apply h2 <;> have h3 := congrArg Prod.fst h <;> have h4 := congrArg Prod.snd h <;>
    simp only at h3 h4 <;> linarith

theorem axis_ne_of_y (v : vector_t) (hy : v.y ≠ double.fin 0) :
    v ≠ ⟨1, 0⟩ ∧ v ≠ ⟨-1, 0⟩ := by
  constructor <;> intro hv <;> apply hy <;> rw [hv] <;> exact double.zero_lit

theorem qdot_qrot_ne_zero (c s : ℚ) (hcs : c ≠ 0 ∨ s ≠ 0) (d : ℚ × ℚ) (hd : d.1 ≠ 0 ∨ d.2 ≠ 0) :
    qdot (qrot c s d) (qrot c s d) ≠ 0 := by
  rw [qdot_qrot_self]
  exact mul_ne_zero (sum_sq_ne_zero _ _ hd) (sum_sq_ne_zero _ _ hcs)

/-- Every candidate axis of a square with sides parallel to the coordinate
axes has a non-zero second component when neither `cos` nor `sin` of
`NINETY_DEGREES` is zero. -/
theorem qperp_qsquare_y (M : libm) (hc : M.c90 ≠ 0) (hs : M.s90 ≠ 0) (cx cy hw : ℚ)
    (hhw : hw ≠ 0) : ∀ L ∈ qperp M (qsquare cx cy hw), L.2 ≠ 0 := by
  intro L hL
  rw [qperp_qsquare] at hL
  simp only [List.mem_cons, List.mem_singleton, List.not_mem_nil, or_false] at hL
  rcases hL with rfl | rfl | rfl | rfl <;> simp [qrot, hc, hs, hhw]

/-- C8 (the code at the input of the claim): for the unit squares centred at
(0,0) and (0.5,0) `find_collision` returns `collided = true`, and as soon as
the cosine and the sine of `NINETY_DEGREES` are not zero the returned axis is
neither (1,0) nor (-1,0). -/
theorem find_collision_half_offset (M : libm) (hS : M.sqrt_monotone) (hc : M.c90 ≠ 0)
    (hs : M.s90 ≠ 0) (h : heap) (A B : Nat) (hA : (h A).points = unit_square 0 0)
    (hB : (h B).points = unit_square (1 / 2) 0) :
    ∃ r, find_collision M h A B = some r ∧ r.1.collided = true ∧
      r.1.axis ≠ ⟨1, 0⟩ ∧ r.1.axis ≠ ⟨-1, 0⟩ := by
  have h1 : qsquare 0 0 (1 / 2) ≠ [] := by simp [qsquare]
  have h2 : qsquare (1 / 2) 0 (1 / 2) ≠ [] := by simp [qsquare]
  have he1 := no_zero_edge_qsquare 0 0 (1 / 2) (by norm_num)
  have he2 := no_zero_edge_qsquare (1 / 2) 0 (1 / 2) (by norm_num)
  have hz1 : in_hull (qsquare 0 0 (1 / 2)) (1 / 4, 0) :=
    ⟨[1 / 8, 3 / 8, 3 / 8, 1 / 8], rfl, by decide!, by decide!, by decide!⟩
  have hz2 : in_hull (qsquare (1 / 2) 0 (1 / 2)) (1 / 4, 0) :=
    ⟨[3 / 8, 1 / 8, 1 / 8, 3 / 8], rfl, by decide!, by decide!, by decide!⟩
  have hLs := qperp_append_ne_zero M (Or.inl hc) _ _ he1 he2
  obtain ⟨w, hq⟩ := qloop_isSome_of_nonneg M (qsquare 0 0 (1 / 2)) (qsquare (1 / 2) 0 (1 / 2))
    (qperp M (qsquare 0 0 (1 / 2)) ++ qperp M (qsquare (1 / 2) 0 (1 / 2))) (0, 0) 99999
    (fun L hL => common_point_overlap_nonneg M hS L _ _ (hLs L hL) h1 h2 (1 / 4, 0) hz1 hz2)
  rw [find_collision_fin M (Or.inl hc) h A B _ _ hA hB h1 h2 he1 he2, hq]
  refine ⟨_, rfl, rfl, ?_⟩
  show vec_unit M (vq w) ≠ _ ∧ vec_unit M (vq w) ≠ _
  rcases qloop_mem M _ _ _ _ _ _ hq with hw | hw
  · rw [hw]
    rcases vec_unit_zero M with h0 | h0 <;> rw [h0] <;> constructor <;> decide!
  · have hy : w.2 ≠ 0 := by
      rcases List.mem_append.mp hw with hw | hw
      · exact qperp_qsquare_y M hc hs _ _ _ (by norm_num) w hw
      · exact qperp_qsquare_y M hc hs _ _ _ (by norm_num) w hw
    exact axis_ne_of_y _ (vec_unit_y M w hy).1

/-- Witness of C8 on the sample maths library. -/
theorem find_collision_half_offset_witness :
    ∃ r, find_collision sample_libm
        (two_bodies (square_body 0 0 1 VEC_ZERO) (square_body (1 / 2) 0 1 VEC_ZERO)) 0 1 = some r ∧
      r.1.collided = true ∧ r.1.axis ≠ ⟨1, 0⟩ ∧ r.1.axis ≠ ⟨-1, 0⟩ :=
  find_collision_half_offset sample_libm sample_libm_sqrt_monotone sample_libm_c90
    sample_libm_s90 _ 0 1 rfl rfl

/-! ### Disjoint squares that the detector reports as colliding -/

/-- Two unit squares with centres (0,0) and (D,0): the overlap on a line is
not negative as soon as the offset of the centres projects within the sum of
the two half widths. -/
theorem square_overlap_nonneg (M : libm) (hS : M.sqrt_monotone) (L : ℚ × ℚ)
    (hL : qdot L L ≠ 0) (D : ℚ) (hD1 : D * L.1 ≤ |L.1| + |L.2|)
    (hD2 : -(D * L.1) ≤ |L.1| + |L.2|) :
    0 ≤ qoverlap M L (qsquare 0 0 (1 / 2)) (qsquare D 0 (1 / 2)) := by
  rcases le_total 0 L.1 with s1 | s1 <;> rcases le_total 0 L.2 with s2 | s2
  · rw [abs_of_nonneg s1, abs_of_nonneg s2] at hD1 hD2
    refine qoverlap_nonneg M hS L _ _ hL (0 + 1 / 2, 0 + 1 / 2) (D - 1 / 2, 0 - 1 / 2)
      (0 - 1 / 2, 0 - 1 / 2) (D + 1 / 2, 0 + 1 / 2) (by simp [qsquare]) (by simp [qsquare])
      (by simp [qsquare]) (by simp [qsquare]) ?_ ?_ <;> simp only [qdot] <;> linarith
  · rw [abs_of_nonneg s1, abs_of_nonpos s2] at hD1 hD2
    refine qoverlap_nonneg M hS L _ _ hL (0 + 1 / 2, 0 - 1 / 2) (D - 1 / 2, 0 + 1 / 2)
      (0 - 1 / 2, 0 + 1 / 2) (D + 1 / 2, 0 - 1 / 2) (by simp [qsquare]) (by simp [qsquare])
      (by simp [qsquare]) (by simp [qsquare]) ?_ ?_ <;> simp only [qdot] <;> linarith
  · rw [abs_of_nonpos s1, abs_of_nonneg s2] at hD1 hD2
    refine qoverlap_nonneg M hS L _ _ hL (0 - 1 / 2, 0 + 1 / 2) (D + 1 / 2, 0 - 1 / 2)
      (0 + 1 / 2, 0 - 1 / 2) (D - 1 / 2, 0 + 1 / 2) (by simp [qsquare]) (by simp [qsquare])
      (by simp [qsquare]) (by simp [qsquare]) ?_ ?_ <;> simp only [qdot] <;> linarith
  · rw [abs_of_nonpos s1, abs_of_nonpos s2] at hD1 hD2
    refine qoverlap_nonneg M hS L _ _ hL (0 - 1 / 2, 0 - 1 / 2) (D + 1 / 2, 0 + 1 / 2)
      (0 + 1 / 2, 0 + 1 / 2) (D - 1 / 2, 0 - 1 / 2) (by simp [qsquare]) (by simp [qsquare])
      (by simp [qsquare]) (by simp [qsquare]) ?_ ?_ <;> simp only [qdot] <;> linarith

/-- The unit squares centred at (0,0) and (51/50,0) have no point in common:
the first lies left of x = 1/2, the second right of x = 13/25. -/
theorem near_squares_disjoint :
    ¬ ∃ z, in_hull (qsquare 0 0 (1 / 2)) z ∧ in_hull (qsquare (51 / 50) 0 (1 / 2)) z := by
  rintro ⟨z, ⟨w1, hl1, hw1, hs1, hz1⟩, ⟨w2, hl2, hw2, hs2, hz2⟩⟩
  have hle := qdot_combo_le (1, 0) (1 / 2) w1 _ hl1 hw1 (by
    intro p hp
    simp only [qsquare, List.mem_cons, List.mem_singleton, List.not_mem_nil, or_false] at hp
    rcases hp with rfl | rfl | rfl | rfl <;> simp only [qdot] <;> norm_num)
  have hge := qdot_combo_ge (1, 0) (13 / 25) w2 _ hl2 hw2 (by
    intro p hp
    simp only [qsquare, List.mem_cons, List.mem_singleton, List.not_mem_nil, or_false] at hp
    rcases hp with rfl | rfl | rfl | rfl <;> simp only [qdot] <;> norm_num)
  rw [hz1, hs1] at hle
  rw [hz2, hs2] at hge
  linarith

/-- C6 (the code at a failing input): the unit squares centred at (0,0) and
(51/50,0) are disjoint, yet `find_collision` returns `collided = true`: with
the value of `NINETY_DEGREES` no candidate axis separates them. -/
theorem find_collision_disjoint_squares (M : libm) (hS : M.sqrt_monotone)
    (hb : M.angle_bounds) (h : heap) (A B : Nat) (hA : (h A).points = unit_square 0 0)
    (hB : (h B).points = unit_square (51 / 50) 0) :
    (¬ ∃ z, in_hull (qsquare 0 0 (1 / 2)) z ∧ in_hull (qsquare (51 / 50) 0 (1 / 2)) z) ∧
    ∃ r, find_collision M h A B = some r ∧ r.1.collided = true := by
  refine ⟨near_squares_disjoint, ?_⟩
  obtain ⟨hc1, hc2, hs1, hs2⟩ := hb
  have hcp : 0 < M.c90 := by linarith
  have hsp : 0 < M.s90 := by linarith
  have hc : M.c90 ≠ 0 := ne_of_gt hcp
  have h1 : qsquare 0 0 (1 / 2) ≠ [] := by simp [qsquare]
  have h2 : qsquare (51 / 50) 0 (1 / 2) ≠ [] := by simp [qsquare]
  have he1 := no_zero_edge_qsquare 0 0 (1 / 2) (by norm_num)
  have he2 := no_zero_edge_qsquare (51 / 50) 0 (1 / 2) (by norm_num)
  rw [find_collision_fin M (Or.inl hc) h A B _ _ hA hB h1 h2 he1 he2]
  have hnn : ∀ L ∈ qperp M (qsquare 0 0 (1 / 2)) ++ qperp M (qsquare (51 / 50) 0 (1 / 2)),
      0 ≤ qoverlap M L (qsquare 0 0 (1 / 2)) (qsquare (51 / 50) 0 (1 / 2)) := by
    intro L hL
    have hL0 : qdot L L ≠ 0 := by
      rcases List.mem_append.mp hL with hL | hL
      · exact qperp_ne_zero M (Or.inl hc) _ he1 L hL
      · exact qperp_ne_zero M (Or.inl hc) _ he2 L hL
    apply square_overlap_nonneg M hS L hL0
    all_goals
      rw [qperp_qsquare, qperp_qsquare] at hL
      simp only [List.mem_append, List.mem_cons, List.mem_singleton, List.not_mem_nil,
        or_false, or_self] at hL
      rcases hL with rfl | rfl | rfl | rfl <;> simp only [qrot] <;>
        norm_num <;> rw [abs_of_pos hcp, abs_of_pos hsp] <;> linarith
  obtain ⟨w, hw⟩ := qloop_isSome_of_nonneg M _ _ _ (0, 0) 99999 hnn
  rw [hw]
  exact ⟨_, rfl, rfl⟩

theorem sample_libm_angle_bounds : sample_libm.angle_bounds := by
  unfold libm.angle_bounds
  decide!

/-- Witness of C6 on the sample maths library. -/
theorem find_collision_disjoint_squares_witness :
    ∃ r, find_collision sample_libm
        (two_bodies (square_body 0 0 1 VEC_ZERO) (square_body (51 / 50) 0 1 VEC_ZERO)) 0 1
          = some r ∧ r.1.collided = true :=
  (find_collision_disjoint_squares sample_libm sample_libm_sqrt_monotone sample_libm_angle_bounds
    _ 0 1 rfl rfl).2

/-! ### Separated shapes -/

/-- With a strictly increasing `sqrt` the signed magnitude grows strictly with
the dot product of the point and the line. -/
theorem signed_mag_strict_mono (M : libm) (hS : M.sqrt_monotone) (hT : M.sqrt_strict)
    (L p q : ℚ × ℚ) (hL : qdot L L ≠ 0) (hpq : qdot p L < qdot q L) :
    signed_mag M L p < signed_mag M L q := by
  have hpos := qdot_self_pos L hL
  simp only [signed_mag, proj_sq L _ hL]
  have hXp : 0 ≤ qdot p L * qdot p L / qdot L L :=
    div_nonneg (mul_self_nonneg _) (le_of_lt hpos)
  have hXq : 0 ≤ qdot q L * qdot q L / qdot L L :=
    div_nonneg (mul_self_nonneg _) (le_of_lt hpos)
  by_cases hp : qdot p L < 0
  · by_cases hq : qdot q L < 0
    · simp only [hp, hq, if_true]
      have hsq : qdot q L * qdot q L < qdot p L * qdot p L := by nlinarith
      have hX : qdot q L * qdot q L / qdot L L < qdot p L * qdot p L / qdot L L :=
        div_lt_div_of_pos_right hsq hpos
      have := hT _ _ hXq hX
      linarith
    · simp only [hp, hq, if_true, if_false]
      have hsq : 0 < qdot p L * qdot p L := by nlinarith
      have hX : (0 : ℚ) < qdot p L * qdot p L / qdot L L := div_pos hsq hpos
      have h0 := hS.1 0 (le_refl 0)
      have h1 := hT 0 _ (le_refl 0) hX
      have h2 := hS.1 _ hXq
      linarith
  · have hq : ¬ qdot q L < 0 := by
      intro hq; exact hp (lt_trans hpq hq)
    simp only [hp, hq, if_false]
    have hsq : qdot p L * qdot p L < qdot q L * qdot q L := by nlinarith [not_lt.mp hp]
    have hX : qdot p L * qdot p L / qdot L L < qdot q L * qdot q L / qdot L L :=
      div_lt_div_of_pos_right hsq hpos
    exact hT _ _ hXp hX

/-- When every vertex of the second shape projects strictly below every vertex
of the first, the overlap on the line is negative. -/
theorem qoverlap_neg (M : libm) (hS : M.sqrt_monotone) (hT : M.sqrt_strict) (L : ℚ × ℚ)
    (P1 P2 : List (ℚ × ℚ)) (hL : qdot L L ≠ 0) (h1 : P1 ≠ []) (h2 : P2 ≠ [])
    (hsep : ∀ a ∈ P1, ∀ b ∈ P2, qdot b L < qdot a L) : qoverlap M L P1 P2 < 0 := by
  have e1 : P1.map (signed_mag M L) ≠ [] := by simpa using h1
  have e2 : P2.map (signed_mag M L) ≠ [] := by simpa using h2
  obtain ⟨a, ha, hav⟩ := List.mem_map.mp (lmin_mem _ e1)
  obtain ⟨b, hb, hbv⟩ := List.mem_map.mp (lmax_mem _ e2)
  have hlt := signed_mag_strict_mono M hS hT L b a hL (hsep a ha b hb)
  rw [hav, hbv] at hlt
  have hmm := lmin_le_lmax _ e2
  simp only [qoverlap]
  split_ifs with hle
  · linarith
  · linarith

/-- The instance named in C6: for the unit squares centred at (0,0) and
(10,10) `find_collision` returns `collided = false`. -/
theorem find_collision_far_squares (M : libm) (hS : M.sqrt_monotone) (hT : M.sqrt_strict)
    (hb : M.angle_bounds) (h : heap) (A B : Nat) (hA : (h A).points = unit_square 0 0)
    (hB : (h B).points = unit_square 10 10) :
    ∃ r, find_collision M h A B = some r ∧ r.1.collided = false := by
  obtain ⟨hc1, hc2, hs1, hs2⟩ := hb
  have hcp : 0 < M.c90 := by linarith
  have hsp : 0 < M.s90 := by linarith
  have hc : M.c90 ≠ 0 := ne_of_gt hcp
  have h1 : qsquare 0 0 (1 / 2) ≠ [] := by simp [qsquare]
  have h2 : qsquare 10 10 (1 / 2) ≠ [] := by simp [qsquare]
  have he1 := no_zero_edge_qsquare 0 0 (1 / 2) (by norm_num)
  have he2 := no_zero_edge_qsquare 10 10 (1 / 2) (by norm_num)
  rw [find_collision_fin M (Or.inl hc) h A B _ _ hA hB h1 h2 he1 he2]
  have hmem : qrot M.c90 M.s90 (-(2 * (1 / 2)), 0) ∈
      qperp M (qsquare 0 0 (1 / 2)) ++ qperp M (qsquare 10 10 (1 / 2)) := by
    rw [qperp_qsquare]
    exact List.mem_append_left _ (List.mem_cons_self _ _)
  have hL0 : qdot (qrot M.c90 M.s90 (-(2 * (1 / 2)), 0)) (qrot M.c90 M.s90 (-(2 * (1 / 2)), 0))
      ≠ 0 := qdot_qrot_ne_zero _ _ (Or.inl hc) _ (Or.inl (by norm_num))
  have hneg := qoverlap_neg M hS hT _ (qsquare 0 0 (1 / 2)) (qsquare 10 10 (1 / 2)) hL0 h1 h2 (by
    intro a ha b hb
    simp only [qsquare, List.mem_cons, List.mem_singleton, List.not_mem_nil, or_false] at ha hb
    rcases ha with rfl | rfl | rfl | rfl <;> rcases hb with rfl | rfl | rfl | rfl <;>
      simp only [qdot, qrot] <;> linarith)
  have hnone := (qloop_none_iff M _ _ _ (0, 0) 99999).mpr ⟨_, hmem, hneg⟩
  rw [hnone]
  exact ⟨_, rfl, rfl⟩

/-! ### Shapes whose overlap reaches `LARGE_NUMBER` on every axis -/

theorem signed_mag_ge (M : libm) (hS : M.sqrt_monotone) (hQ : M.sqrt_sq_ge) (L a : ℚ × ℚ)
    (hL : qdot L L ≠ 0) (H : ℚ) (hH : 0 ≤ H) (hd : 0 ≤ qdot a L)
    (hbig : H * H * qdot L L ≤ qdot a L * qdot a L) : H ≤ signed_mag M L a := by
  have hpos := qdot_self_pos L hL
  simp only [signed_mag, proj_sq L _ hL, not_lt.mpr hd, if_false]
  have hX : H * H ≤ qdot a L * qdot a L / qdot L L := (le_div_iff₀ hpos).mpr hbig
  exact le_trans (hQ H hH) (hS.2 _ _ (mul_self_nonneg H) hX)

theorem signed_mag_le (M : libm) (hS : M.sqrt_monotone) (hQ : M.sqrt_sq_ge) (L a : ℚ × ℚ)
    (hL : qdot L L ≠ 0) (H : ℚ) (hH : 0 ≤ H) (hd : qdot a L < 0)
    (hbig : H * H * qdot L L ≤ qdot a L * qdot a L) : signed_mag M L a ≤ -H := by
  have hpos := qdot_self_pos L hL
  simp only [signed_mag, proj_sq L _ hL, hd, if_true]
  have hX : H * H ≤ qdot a L * qdot a L / qdot L L := (le_div_iff₀ hpos).mpr hbig
  have := le_trans (hQ H hH) (hS.2 _ _ (mul_self_nonneg H) hX)
  linarith

/-- The overlap of a shape with itself on a line is at least `2 * H` when two
of its vertices project at least `H` lengths of the line above and below 0. -/
theorem qoverlap_self_ge (M : libm) (hS : M.sqrt_monotone) (hQ : M.sqrt_sq_ge) (L : ℚ × ℚ)
    (P : List (ℚ × ℚ)) (hL : qdot L L ≠ 0) (H : ℚ) (hH : 0 ≤ H) (a a2 : ℚ × ℚ) (ha : a ∈ P)
    (ha2 : a2 ∈ P) (hd : 0 ≤ qdot a L) (hbig : H * H * qdot L L ≤ qdot a L * qdot a L)
    (hd2 : qdot a2 L < 0) (hbig2 : H * H * qdot L L ≤ qdot a2 L * qdot a2 L) :
    2 * H ≤ qoverlap M L P P := by
  have hmax : signed_mag M L a ≤ lmax (P.map (signed_mag M L)) :=
    le_lmax _ _ (List.mem_map_of_mem _ ha)
  have hmin : lmin (P.map (signed_mag M L)) ≤ signed_mag M L a2 :=
    lmin_le _ _ (List.mem_map_of_mem _ ha2)
  have h1 := signed_mag_ge M hS hQ L a hL H hH hd hbig
  have h2 := signed_mag_le M hS hQ L a2 hL H hH hd2 hbig2
  simp only [qoverlap, le_refl, if_true]
  linarith

/-- The overlap of the square of half width `H` with itself is at least `2 * H`
on every line. -/
theorem square_self_overlap (M : libm) (hS : M.sqrt_monotone) (hQ : M.sqrt_sq_ge) (L : ℚ × ℚ)
    (hL : qdot L L ≠ 0) (H : ℚ) (hH : 0 < H) :
    2 * H ≤ qoverlap M L (qsquare 0 0 H) (qsquare 0 0 H) := by
  have hpos : 0 < L.1 * L.1 + L.2 * L.2 := qdot_self_pos L hL
  have hH2 : 0 < H * H := mul_pos hH hH
  rcases le_total 0 L.1 with s1 | s1 <;> rcases le_total 0 L.2 with s2 | s2
  · have hsum : 0 < L.1 + L.2 := by
      by_contra hcon
      have e1 : L.1 = 0 := by linarith
      have e2 : L.2 = 0 := by linarith
      rw [e1, e2] at hpos; norm_num at hpos
    have hprod : 0 ≤ L.1 * L.2 := mul_nonneg s1 s2
    refine qoverlap_self_ge M hS hQ L _ hL H (le_of_lt hH) (0 + H, 0 + H) (0 - H, 0 - H)
      (by simp [qsquare]) (by simp [qsquare]) ?_ ?_ ?_ ?_ <;> simp only [qdot] <;> nlinarith
  · have hsum : 0 < L.1 - L.2 := by
      by_contra hcon
      have e1 : L.1 = 0 := by linarith
      have e2 : L.2 = 0 := by linarith
      rw [e1, e2] at hpos; norm_num at hpos
    have hprod : 0 ≤ L.1 * (-L.2) := mul_nonneg s1 (by linarith)
    refine qoverlap_self_ge M hS hQ L _ hL H (le_of_lt hH) (0 + H, 0 - H) (0 - H, 0 + H)
      (by simp [qsquare]) (by simp [qsquare]) ?_ ?_ ?_ ?_ <;> simp only [qdot] <;> nlinarith
  · have hsum : 0 < L.2 - L.1 := by
      by_contra hcon
      have e1 : L.1 = 0 := by linarith
      have e2 : L.2 = 0 := by linarith
      rw [e1, e2] at hpos; norm_num at hpos
    have hprod : 0 ≤ (-L.1) * L.2 := mul_nonneg (by linarith) s2
    refine qoverlap_self_ge M hS hQ L _ hL H (le_of_lt hH) (0 - H, 0 + H) (0 + H, 0 - H)
      (by simp [qsquare]) (by simp [qsquare]) ?_ ?_ ?_ ?_ <;> simp only [qdot] <;> nlinarith
  · have hsum : 0 < -L.1 - L.2 := by
      by_contra hcon
      have e1 : L.1 = 0 := by linarith
      have e2 : L.2 = 0 := by linarith
      rw [e1, e2] at hpos; norm_num at hpos
    have hprod : 0 ≤ L.1 * L.2 := mul_nonneg_of_nonpos_of_nonpos s1 s2
    refine qoverlap_self_ge M hS hQ L _ hL H (le_of_lt hH) (0 - H, 0 - H) (0 + H, 0 + H)
      (by simp [qsquare]) (by simp [qsquare]) ?_ ?_ ?_ ?_ <;> simp only [qdot] <;> nlinarith

/-- C9 (the code at a failing input): for two bodies whose shape is the square
of side 100000 centred at the origin, the overlap on every candidate axis is
at least 100000, so no axis is ever recorded: `find_collision` returns
`collided = true` with the unit vector of the initial zero vector, which is
the unit vector of no candidate axis. -/
theorem find_collision_large_squares (M : libm) (hS : M.sqrt_monotone) (hQ : M.sqrt_sq_ge)
    (hc : M.c90 ≠ 0) (hs : M.s90 ≠ 0) (h : heap) (A B : Nat)
    (hA : (h A).points = (qsquare 0 0 50000).map vq)
    (hB : (h B).points = (qsquare 0 0 50000).map vq) :
    (∀ line ∈ perpendicular_lines M (perpendicular_lines M [] (h A).points) (h B).points,
      ∃ t, overlap M line (h A).points (h B).points = some (double.fin t) ∧ 99999 ≤ t) ∧
    ∃ r, find_collision M h A B = some r ∧ r.1.collided = true ∧
      r.1.axis = vec_unit M (vec_init 0 0) ∧
      ∀ line ∈ perpendicular_lines M (perpendicular_lines M [] (h A).points) (h B).points,
        r.1.axis ≠ vec_unit M line := by
  have h1 : qsquare 0 0 50000 ≠ [] := by simp [qsquare]
  have he1 := no_zero_edge_qsquare 0 0 50000 (by norm_num)
  have hmem : ∀ L ∈ qperp M (qsquare 0 0 50000) ++ qperp M (qsquare 0 0 50000),
      L ∈ qperp M (qsquare 0 0 50000) := by
    intro L hL
    rcases List.mem_append.mp hL with hL | hL <;> exact hL
  have hLs : ∀ L ∈ qperp M (qsquare 0 0 50000) ++ qperp M (qsquare 0 0 50000), qdot L L ≠ 0 :=
    fun L hL => qperp_ne_zero M (Or.inl hc) _ he1 L (hmem L hL)
  have hbig : ∀ L ∈ qperp M (qsquare 0 0 50000) ++ qperp M (qsquare 0 0 50000),
      99999 ≤ qoverlap M L (qsquare 0 0 50000) (qsquare 0 0 50000) := by
    intro L hL
    have := square_self_overlap M hS hQ L (hLs L hL) 50000 (by norm_num)
    linarith
  have hlines : perpendicular_lines M (perpendicular_lines M [] (h A).points) (h B).points =
      (qperp M (qsquare 0 0 50000) ++ qperp M (qsquare 0 0 50000)).map vq := by
    rw [hA, hB, perpendicular_lines_fin, perpendicular_lines_fin, List.nil_append,
      ← List.map_append]
  have hv : vec_init 0 0 = vq (0, 0) := by
    simp [vec_init, vq, double.zero_lit]
  constructor
  · intro line hline
    rw [hlines] at hline
    obtain ⟨L, hL, rfl⟩ := List.mem_map.mp hline
    exact ⟨_, by rw [hA, hB]; exact overlap_fin M L _ _ (hLs L hL) h1 h1, hbig L hL⟩
  · rw [find_collision_fin M (Or.inl hc) h A B _ _ hA hB h1 h1 he1 he1,
      qloop_keep M _ _ 99999 (by norm_num) _ (0, 0) hbig]
    refine ⟨_, rfl, rfl, by rw [hv], ?_⟩
    intro line hline
    rw [hlines] at hline
    obtain ⟨L, hL, rfl⟩ := List.mem_map.mp hline
    have hy := vec_unit_y M L (qperp_qsquare_y M hc hs 0 0 50000 (by norm_num) L (hmem L hL))
    show vec_unit M (vq (0, 0)) ≠ vec_unit M (vq L)
    intro heq
    rw [← heq] at hy
    rcases vec_unit_zero M with h0 | h0
    · rw [h0] at hy; exact hy.1 rfl
    · rw [h0] at hy; exact hy.2 rfl

theorem sample_libm_sqrt_sq_ge : sample_libm.sqrt_sq_ge := by
  intro y _
  show y ≤ (y * y + 1) / 2
  nlinarith [sq_nonneg (y - 1)]

/-- Witness of C9 on the sample maths library. -/
theorem find_collision_large_squares_witness :
    ∃ r, find_collision sample_libm
        (two_bodies (sample_body ((qsquare 0 0 50000).map vq) ⟨0, 0⟩ 1 VEC_ZERO)
          (sample_body ((qsquare 0 0 50000).map vq) ⟨0, 0⟩ 1 VEC_ZERO)) 0 1 = some r ∧
      r.1.collided = true ∧ r.1.axis = vec_unit sample_libm (vec_init 0 0) ∧
      ∀ line ∈ perpendicular_lines sample_libm
          (perpendicular_lines sample_libm [] ((qsquare 0 0 50000).map vq))
          ((qsquare 0 0 50000).map vq),
        r.1.axis ≠ vec_unit sample_libm line :=
  (find_collision_large_squares sample_libm sample_libm_sqrt_monotone sample_libm_sqrt_sq_ge
    sample_libm_c90 sample_libm_s90
    (two_bodies (sample_body ((qsquare 0 0 50000).map vq) ⟨0, 0⟩ 1 VEC_ZERO)
      (sample_body ((qsquare 0 0 50000).map vq) ⟨0, 0⟩ 1 VEC_ZERO)) 0 1 rfl rfl).2

/-! ### The axis of least overlap -/

theorem qloop_min (M : libm) (P1 P2 : List (ℚ × ℚ)) :
    ∀ (Ls : List (ℚ × ℚ)) (v : ℚ × ℚ) (least : ℚ) (w : ℚ × ℚ),
      qloop M P1 P2 Ls v least = some w →
        (w = v ∧ ∀ L ∈ Ls, least ≤ qoverlap M L P1 P2) ∨
        (w ∈ Ls ∧ qoverlap M w P1 P2 < least ∧
          ∀ L ∈ Ls, qoverlap M w P1 P2 ≤ qoverlap M L P1 P2) := by
  intro Ls
  induction Ls with
  | nil =>
    intro v least w hw
    simp only [qloop, Option.some.injEq] at hw
    exact Or.inl ⟨hw.symm, fun L hL => absurd hL (List.not_mem_nil L)⟩
  | cons L rest ih =>
    intro v least w hw
    simp only [qloop] at hw
    by_cases hneg : qoverlap M L P1 P2 < 0
    · simp [hneg] at hw
    · by_cases hlt : qoverlap M L P1 P2 < least
      · simp only [hneg, hlt, if_true, if_false] at hw
        right
        rcases ih _ _ _ hw with ⟨hwL, hall⟩ | ⟨hmem, hwlt, hall⟩
        · subst hwL
          refine ⟨List.mem_cons_self _ _, hlt, ?_⟩
          intro K hK
          rcases List.mem_cons.mp hK with rfl | hK
          · exact le_refl _
          · exact hall K hK
        · refine ⟨List.mem_cons_of_mem _ hmem, lt_trans hwlt hlt, ?_⟩
          intro K hK
          rcases List.mem_cons.mp hK with rfl | hK
          · exact le_of_lt hwlt
          · exact hall K hK
      · simp only [hneg, hlt, if_false] at hw
        rcases ih _ _ _ hw with ⟨hwv, hall⟩ | ⟨hmem, hwlt, hall⟩
        · left
          refine ⟨hwv, ?_⟩
          intro K hK
          rcases List.mem_cons.mp hK with rfl | hK
          · exact not_lt.mp hlt
          · exact hall K hK
        · right
          refine ⟨List.mem_cons_of_mem _ hmem, hwlt, ?_⟩
          intro K hK
          rcases List.mem_cons.mp hK with rfl | hK
          · exact le_of_lt (lt_of_lt_of_le hwlt (not_lt.mp hlt))
          · exact hall K hK

/-- What holds of C9: when `find_collision` returns `collided = true` on finite
shapes and some candidate axis has an overlap below `LARGE_NUMBER`, the
returned axis is the unit vector of a candidate axis whose overlap is at most
the overlap of every candidate axis. -/
theorem find_collision_least_axis (M : libm) (hM : M.c90 ≠ 0 ∨ M.s90 ≠ 0) (h : heap)
    (A B : Nat) (P1 P2 : List (ℚ × ℚ)) (hA : (h A).points = P1.map vq)
    (hB : (h B).points = P2.map vq) (h1 : P1 ≠ []) (h2 : P2 ≠ []) (he1 : no_zero_edge P1)
    (he2 : no_zero_edge P2) (r : collision_info_t × heap)
    (hr : find_collision M h A B = some r) (hcol : r.1.collided = true)
    (hsmall : ∃ L ∈ qperp M P1 ++ qperp M P2, qoverlap M L P1 P2 < 99999) :
    ∃ w ∈ qperp M P1 ++ qperp M P2, r.1.axis = vec_unit M (vq w) ∧
      ∀ L ∈ qperp M P1 ++ qperp M P2, qoverlap M w P1 P2 ≤ qoverlap M L P1 P2 := by
  rw [find_collision_fin M hM h A B P1 P2 hA hB h1 h2 he1 he2] at hr
  cases hq : qloop M P1 P2 (qperp M P1 ++ qperp M P2) (0, 0) 99999 with
  | none =>
    rw [hq] at hr
    simp only [Option.some.injEq] at hr
    rw [← hr] at hcol
    cases hcol
  | some w =>
    rw [hq] at hr
    simp only [Option.some.injEq] at hr
    rcases qloop_min M P1 P2 _ _ _ _ hq with ⟨_, hall⟩ | ⟨hmem, _, hall⟩
    · obtain ⟨L, hL, hlt⟩ := hsmall
      exact absurd hlt (not_lt.mpr (hall L hL))
    · exact ⟨w, hmem, by rw [← hr], hall⟩

/-! ### The angle constant -/

/-- The constant `NINETY_DEGREES` is below a right angle: its cosine is
positive, so a vector rotated by it is not perpendicular to the original. -/
theorem NINETY_DEGREES_lt_right_angle :
    ((1.5070796327 : ℚ) : ℝ) < Real.pi / 2 ∧ 0 < Real.cos ((1.5070796327 : ℚ) : ℝ) := by
  have hpi := Real.pi_gt_d6
  have hlt : ((1.5070796327 : ℚ) : ℝ) < Real.pi / 2 := by
    push_cast
    norm_num
    linarith
  refine ⟨hlt, Real.cos_pos_of_mem_Ioo ⟨?_, hlt⟩⟩
  have : (0 : ℝ) ≤ ((1.5070796327 : ℚ) : ℝ) := by norm_num
  linarith [Real.pi_pos]

/-- The bounds `libm.angle_bounds` hold of the real cosine and sine at the
value of `NINETY_DEGREES`. -/
theorem real_angle_bounds :
    1 / 20 ≤ Real.cos ((1.5070796327 : ℚ) : ℝ) ∧ Real.cos ((1.5070796327 : ℚ) : ℝ) ≤ 1 / 10 ∧
    9 / 10 ≤ Real.sin ((1.5070796327 : ℚ) : ℝ) ∧ Real.sin ((1.5070796327 : ℚ) : ℝ) ≤ 1 := by
  have hpi1 := Real.pi_gt_d6
  have hpi2 := Real.pi_lt_d6
  have hθ : ((1.5070796327 : ℚ) : ℝ) = 1.5070796327 := by push_cast; norm_num
  rw [hθ]
  have hy1 : (0.0637 : ℝ) < Real.pi / 2 - 1.5070796327 := by norm_num at hpi1 ⊢; linarith
  have hy2 : Real.pi / 2 - 1.5070796327 < (0.0638 : ℝ) := by norm_num at hpi2 ⊢; linarith
  have hy0 : (0 : ℝ) < Real.pi / 2 - 1.5070796327 := by linarith
  have hcos : Real.cos (1.5070796327 : ℝ) = Real.sin (Real.pi / 2 - 1.5070796327) := by
    rw [Real.sin_pi_div_two_sub]
  have hup := Real.sin_lt hy0
  have hlo := Real.sin_gt_sub_cube hy0 (by linarith)
  have hcube : (Real.pi / 2 - 1.5070796327) ^ 3 ≤ (0.0638 : ℝ) ^ 3 :=
    pow_le_pow_left₀ (le_of_lt hy0) (le_of_lt hy2) 3
  have hc1 : (1 : ℝ) / 20 ≤ Real.cos (1.5070796327 : ℝ) := by
    rw [hcos]; norm_num at hcube ⊢; linarith
  have hc2 : Real.cos (1.5070796327 : ℝ) ≤ 1 / 10 := by
    rw [hcos]; norm_num at hy2 ⊢; linarith
  have hsq := Real.sin_sq_add_cos_sq (1.5070796327 : ℝ)
  have hsin0 : 0 < Real.sin (1.5070796327 : ℝ) :=
    Real.sin_pos_of_pos_of_lt_pi (by norm_num) (by linarith)
  refine ⟨hc1, hc2, ?_, Real.sin_le_one _⟩
  by_contra hcon
  push_neg at hcon
  nlinarith

/-! ### `body_remove`, `body_set_centroid`, `body_set_rotation` -/

/-- C17: `body_remove` twice leaves the body that a single `body_remove`
leaves, `body_is_removed` is true after either, and every field other than
the removed flag is the field of the body given. -/
theorem body_remove_idempotent (body : body_t) :
    body_remove (body_remove body) = body_remove body ∧
    body_is_removed (body_remove body) = true ∧
    body_is_removed (body_remove (body_remove body)) = true ∧
    (body_remove body).points = body.points ∧
    (body_remove body).velocity = body.velocity ∧
    (body_remove body).acceleration = body.acceleration ∧
    (body_remove body).centroid = body.centroid ∧
    (body_remove body).force = body.force ∧
    (body_remove body).impulse = body.impulse ∧
    (body_remove body).mass = body.mass ∧
    (body_remove body).color = body.color ∧
    (body_remove body).angle = body.angle ∧
    (body_remove body).info = body.info ∧
    (body_remove body).info_freer = body.info_freer ∧
    (body_remove body).collided_with = body.collided_with := by
  simp [body_remove, body_is_removed]

/-- C18 fails on rounding: for the vertex (0.11, 0) of a body with centroid
(0.32, 0) and the target (0.82, 0), `body_set_centroid` leaves the vertex at
`(0.11 + -0.32) + 0.82 = 0.6099999999999999`, where `p + (x - c)` is
`0.11 + (0.82 - 0.32) = 0.61`. -/
theorem body_set_centroid_rounds :
    (body_set_centroid (sample_body [⟨double.lit 0.11, 0⟩] ⟨double.lit 0.32, 0⟩ 1 VEC_ZERO)
        ⟨double.lit 0.82, 0⟩).points =
      [⟨double.fin (5494391545392004 / 9007199254740992), 0⟩] ∧
    fadd (double.lit 0.11) (fsub (double.lit 0.82) (double.lit 0.32)) =
      double.fin (5494391545392005 / 9007199254740992) ∧
    (body_set_centroid (sample_body [⟨double.lit 0.11, 0⟩] ⟨double.lit 0.32, 0⟩ 1 VEC_ZERO)
        ⟨double.lit 0.82, 0⟩).points ≠
      [⟨fadd (double.lit 0.11) (fsub (double.lit 0.82) (double.lit 0.32)), 0⟩] := by
  refine ⟨?_, ?_, ?_⟩ <;> decide!

/-- C18 as amended: after `body_set_centroid(x)` the cached centroid is `x`,
every vertex `p` has become `(p + -c) + x` in the same order, translated by
`-c` and then by `x` with the C addition, and velocity, accumulators, mass,
angle and flags are unchanged.  The vertex is `p + (x - c)` when `p - c` and
`p + (x - c)` are binary64 values. -/
theorem body_set_centroid_translates_twice (body : body_t) (x : vector_t) :
    body_get_centroid (body_set_centroid body x) = x ∧
    (body_set_centroid body x).points = body.points.map (fun p =>
      ⟨fadd (fadd p.x (-body.centroid.x)) x.x, fadd (fadd p.y (-body.centroid.y)) x.y⟩) ∧
    (body_set_centroid body x).velocity = body.velocity ∧
    (body_set_centroid body x).force = body.force ∧
    (body_set_centroid body x).impulse = body.impulse ∧
    (body_set_centroid body x).mass = body.mass ∧
    (body_set_centroid body x).angle = body.angle ∧
    (body_set_centroid body x).removed = body.removed ∧
    (body_set_centroid body x).collided_with = body.collided_with ∧
    (∀ p c t : ℚ, (double.fin (p - c)).representable →
      (double.fin (p + (t - c))).representable →
      fadd (fadd (double.fin p) (-(double.fin c))) (double.fin t) =
        double.fin (p + (t - c))) := by
  refine ⟨rfl, ?_, rfl, rfl, rfl, rfl, rfl, rfl, rfl, ?_⟩
  · simp only [body_set_centroid, body_get_centroid, polygon_translate, vec_negate,
      List.map_map]
    rfl
  · intro p c t h1 h2
    have e1 : p + -c = p - c := by ring
    have e2 : p - c + t = p + (t - c) := by ring
    have h1p : (double.fin (p + -c)).representable := by rw [e1]; exact h1
    have h2p : (double.fin (p - c + t)).representable := by rw [e2]; exact h2
    rw [double.fin_neg, fadd_fin _ _ h1p, e1, fadd_fin _ _ h2p, e2]

/-- Witness of C18 as amended: the unit square moved from (0, 0) to (2, 3);
the vertex coordinate -1/2 becomes `-1/2 + (2 - 0)`. -/
theorem body_set_centroid_translates_twice_witness :
    body_get_centroid (body_set_centroid (square_body 0 0 1 VEC_ZERO) (vq (2, 3))) = vq (2, 3) ∧
    fadd (fadd (double.fin (-1 / 2)) (-(double.fin 0))) (double.fin 2) =
      double.fin (-1 / 2 + (2 - 0)) :=
  ⟨(body_set_centroid_translates_twice (square_body 0 0 1 VEC_ZERO) (vq (2, 3))).1,
    (body_set_centroid_translates_twice (square_body 0 0 1 VEC_ZERO) (vq (2, 3))).2.2.2.2.2.2.2.2.2
      (-1 / 2) 0 2 (by decide!) (by decide!)⟩

theorem heap.modify_same (h : heap) (p : Nat) (f : body_t → body_t) :
    (h.modify p f) p = f (h p) := by
  simp [heap.modify, heap.set]

theorem heap.modify_other (h : heap) (p q : Nat) (f : body_t → body_t) (hq : q ≠ p) :
    (h.modify p f) q = h q := by
  simp [heap.modify, heap.set, hq]

/-! ### Spring -/

/-- C15: for two distinct bodies A and B bound to the spring in this order,
`calc_spring_force` adds `k*(cA - cB)` to the force accumulator of B and its
negation to that of A; no other field of A or B and no other body changes. -/
theorem calc_spring_force_adds (h : heap) (A B : Nat) (hAB : A ≠ B) (aux : auxillary_t)
    (h0 : aux_get_body aux 0 = some A) (h1 : aux_get_body aux 1 = some B) :
    ∃ h2, calc_spring_force h aux = some h2 ∧
      h2 B = { h B with force := (vec_add (h B).force
        (vec_multiply (aux_get_constant aux) (vec_subtract (h A).centroid (h B).centroid))) } ∧
      h2 A = { h A with force := (vec_add (h A).force (vec_negate
        (vec_multiply (aux_get_constant aux) (vec_subtract (h A).centroid (h B).centroid)))) } ∧
      ∀ p, p ≠ A → p ≠ B → h2 p = h p := by
  have hBA : B ≠ A := fun e => hAB e.symm
  simp only [calc_spring_force, h0, h1]
  refine ⟨_, rfl, ?_, ?_, ?_⟩
  · rw [heap.modify_same, heap.modify_other _ _ _ _ hBA]
    rfl
  · rw [heap.modify_other _ _ _ _ hAB, heap.modify_same]
    rfl
  · intro p hpA hpB
    rw [heap.modify_other _ _ _ _ hpB, heap.modify_other _ _ _ _ hpA]

/-- Witness of C15: the spring that `create_spring` binds to the bodies at
addresses 0 and 1. -/
theorem calc_spring_force_adds_witness :
    ∃ h2, calc_spring_force
        (two_bodies (square_body 0 0 1 VEC_ZERO) (square_body 3 0 1 VEC_ZERO))
        (aux_add_body (aux_add_body (aux_init 2) 0) 1) = some h2 ∧
      (h2 1).force = vec_add VEC_ZERO
        (vec_multiply 2 (vec_subtract (vq (0, 0)) (vq (3, 0)))) :=
  let ⟨h2, hr, hB, _, _⟩ := calc_spring_force_adds
    (two_bodies (square_body 0 0 1 VEC_ZERO) (square_body 3 0 1 VEC_ZERO)) 0 1 (by decide)
    (aux_add_body (aux_add_body (aux_init 2) 0) 1) rfl rfl
  ⟨h2, hr, by rw [hB]; rfl⟩

/-! ### The impulse of the physics collision -/

theorem double.eq_INFINITY (x : double) : double.eq x INFINITY = true ↔ x = INFINITY := by
  cases x <;> simp [double.eq, INFINITY]

theorem double.neg_one_mul (x : double) : (-1 : double) * x = -x := by
  have hneg1 : (-1 : double) = double.fin (-1) := by
    show double.neg (double.fin ((1 : Nat) : ℚ)) = double.fin (-1)
    simp [double.neg]
  rw [hneg1]
  cases x with
  | fin a => rw [double.fin_mul, double.fin_neg]; congr 1; ring
  | pinf =>
    show double.mul _ _ = double.neg _
    simp [double.mul, double.neg, double.isZero, double.isNeg]
  | ninf =>
    show double.mul _ _ = double.neg _
    simp [double.mul, double.neg, double.isZero, double.isNeg]
  | nan => rfl

/-- C11: for two distinct bodies A and B, an axis and the elasticity `e` held
by the payload: when neither body is flagged collided,
`calc_physics_collision` adds `J*axis` to the impulse accumulator of A and
its negation to that of B and sets both collided flags, with
`J = mu*(1+e)*(vB.axis - vA.axis)` and `mu` the mass of the other body when a
mass is `INFINITY` and `mA*mB/(mA+mB)` otherwise, with the C operators on
doubles; when a body is flagged collided the memory is left as it was. -/
theorem calc_physics_collision_impulse (h : heap) (A B : Nat) (hAB : A ≠ B) (axis : vector_t)
    (aux : auxillary_t) (mu J : double)
    (hmu : mu = if (h A).mass = INFINITY then (h B).mass
      else if (h B).mass = INFINITY then (h A).mass
      else fdiv (fmul (h A).mass (h B).mass) (fadd (h A).mass (h B).mass))
    (hJ : J = fmul (fmul mu (fadd 1.0 (aux_get_constant aux)))
      (fsub (vec_dot (h B).velocity axis) (vec_dot (h A).velocity axis))) :
    ((h A).collided_with = false → (h B).collided_with = false →
      ∃ h2, calc_physics_collision h A B axis (some aux) = some h2 ∧
        h2 A = { h A with impulse := (vec_add (h A).impulse (vec_multiply J axis)),
                          collided_with := true } ∧
        h2 B = { h B with impulse := (vec_add (h B).impulse (vec_negate (vec_multiply J axis))),
                          collided_with := true } ∧
        (∀ p, p ≠ A → p ≠ B → h2 p = h p) ∧
        (∀ jx jy, vec_multiply J axis = vq (jx, jy) →
          vec_add (vec_multiply J axis) (vec_negate (vec_multiply J axis)) = vq (0, 0))) ∧
    (((h A).collided_with = true ∨ (h B).collided_with = true) →
      calc_physics_collision h A B axis (some aux) = some h) := by
  have hBA : B ≠ A := fun e => hAB e.symm
  constructor
  · intro hcA hcB
    have hmu2 : (if double.eq (body_get_mass (h A)) INFINITY = true then body_get_mass (h B)
        else if double.eq (body_get_mass (h B)) INFINITY = true then body_get_mass (h A)
        else fdiv (fmul (body_get_mass (h A)) (body_get_mass (h B)))
          (fadd (body_get_mass (h A)) (body_get_mass (h B)))) = mu := by
      rw [hmu]
      simp only [double.eq_INFINITY, body_get_mass]
    simp only [calc_physics_collision, body_is_collided, hcA, hcB, Bool.not_false,
      Bool.and_self, if_true, hmu2, ELASTICITY_TERM, body_get_velocity, ← hJ]
    refine ⟨_, rfl, ?_, ?_, ?_, ?_⟩
    · rw [heap.modify_other _ _ _ _ hAB, heap.modify_same, heap.modify_other _ _ _ _ hAB,
        heap.modify_same]
      rfl
    · rw [heap.modify_same, heap.modify_other _ _ _ _ hBA, heap.modify_same,
        heap.modify_other _ _ _ _ hBA]
      simp only [body_collided, body_add_impulse, vec_multiply, vec_negate, double.neg_one_mul]
    · intro p hpA hpB
      rw [heap.modify_other _ _ _ _ hpB, heap.modify_other _ _ _ _ hpA,
        heap.modify_other _ _ _ _ hpB, heap.modify_other _ _ _ _ hpA]
    · intro jx jy hfin
      rw [hfin]
      simp [vec_add, vec_negate, vq, double.fin_neg, double.fin_add]
  · intro hcol
    rcases hcol with hc | hc <;> simp [calc_physics_collision, body_is_collided, hc]

/-- Witness of C11: two unit squares at rest apart from the second one moving
at (-1, 0), elasticity 1. -/
theorem calc_physics_collision_impulse_witness :
    ∃ h2, calc_physics_collision
        (two_bodies (square_body 0 0 1 VEC_ZERO) (square_body 1 0 1 (vq (-1, 0)))) 0 1
        (vq (1, 0)) (some (aux_init (double.fin 1))) = some h2 ∧
      (h2 0).collided_with = true :=
  let ⟨h2, hr, hA, _, _, _⟩ := (calc_physics_collision_impulse
    (two_bodies (square_body 0 0 1 VEC_ZERO) (square_body 1 0 1 (vq (-1, 0)))) 0 1 (by decide)
    (vq (1, 0)) (aux_init (double.fin 1)) _ _ rfl rfl).1 rfl rfl
  ⟨h2, hr, by rw [hA]⟩

/-! ### Elastic collision -/

theorem double.representable_fin_neg (q : ℚ) (hq : (double.fin q).representable) :
    (double.fin (-q)).representable := by
  rw [← double.fin_neg]
  exact double.representable_neg _ hq

/-- C10 fails on rounding, on underflow, on removed bodies and at an infinite
time step.  Axis (1, 0), elasticity 1, velocities (v, 0) and (-v, 0).  With
mass 0.1, v = 0.3 and `dt = 1` the velocities after the collision and the
ticks are (-0.3000000000000001, 0) and (0.3000000000000001, 0).  With mass
1e-200 and v = 1 the product of the masses underflows to 0, the impulse is 0
and the velocities stay (1, 0) and (-1, 0).  With mass 1, v = 1 and both
bodies removed the velocities stay (1, 0) and (-1, 0).  With mass 1, v = 1 and
`dt = INFINITY` the x velocities are NaN. -/
theorem physics_collision_not_swapped :
    double.lit 0.3 = double.fin (5404319552844595 / 18014398509481984) ∧
    (calc_physics_collision
        (two_bodies (square_body 0 0 (double.lit 0.1) ⟨double.lit 0.3, 0⟩)
          (square_body 1 0 (double.lit 0.1) ⟨-(double.lit 0.3), 0⟩)) 0 1 (vq (1, 0))
        (some (aux_init 1))).map
      (fun h2 => ((body_tick (h2 0) 1).velocity, (body_tick (h2 1) 1).velocity)) =
      some (vq (-5404319552844597 / 18014398509481984, 0),
            vq (5404319552844597 / 18014398509481984, 0)) ∧
    (calc_physics_collision
        (two_bodies (square_body 0 0 (double.lit 1e-200) ⟨1, 0⟩)
          (square_body 1 0 (double.lit 1e-200) ⟨-1, 0⟩)) 0 1 (vq (1, 0))
        (some (aux_init 1))).map
      (fun h2 => ((body_tick (h2 0) 1).velocity, (body_tick (h2 1) 1).velocity)) =
      some (vq (1, 0), vq (-1, 0)) ∧
    (calc_physics_collision
        (two_bodies (body_remove (square_body 0 0 1 ⟨1, 0⟩))
          (body_remove (square_body 1 0 1 ⟨-1, 0⟩))) 0 1 (vq (1, 0))
        (some (aux_init 1))).map
      (fun h2 => ((body_tick (h2 0) 1).velocity, (body_tick (h2 1) 1).velocity)) =
      some (vq (1, 0), vq (-1, 0)) ∧
    (calc_physics_collision
        (two_bodies (square_body 0 0 1 ⟨1, 0⟩) (square_body 1 0 1 ⟨-1, 0⟩)) 0 1 (vq (1, 0))
        (some (aux_init 1))).map
      (fun h2 => ((body_tick (h2 0) INFINITY).velocity.x,
        (body_tick (h2 1) INFINITY).velocity.x)) =
      some (double.nan, double.nan) := by
  refine ⟨?_, ?_, ?_, ?_, ?_⟩ <;> decide!

theorem representable_two : (double.fin (1 + 1)).representable := by decide!

/-- C10 as amended: two distinct bodies A and B of equal finite positive mass
`m`, not removed, not flagged collided, with zero accumulators and velocities
`v*a` and `-v*a` for a unit axis `a`: after `calc_physics_collision` with
elasticity 1 and a `body_tick` of each with a finite time step, the velocity
of A is `vA + (1.0/m)*(J*a + dt*0)` and that of B is
`vB + (1.0/m)*(-J*a + dt*0)`, with `J = ((m*m)/(m+m))*(1+1)*(vB.a - vA.a)` and
the C operators on doubles.  These are `-v*a` and `v*a` when no operation
rounds: the components of `a` and the exact values `m*m`, `m+m`, `m/2`, `m`,
`1/m`, `2v`, `2mv`, `2mv*a`, `2v*a` and `v*a` are binary64 values. -/
theorem physics_collision_then_tick (h : heap) (A B : Nat) (hAB : A ≠ B) (m v t : ℚ)
    (a : ℚ × ℚ) (aux : auxillary_t) (J : double) (he : aux_get_constant aux = double.fin 1)
    (hm : 0 < m) (hmA : (h A).mass = double.fin m) (hmB : (h B).mass = double.fin m)
    (hcA : (h A).collided_with = false) (hcB : (h B).collided_with = false)
    (hrA : (h A).removed = false) (hrB : (h B).removed = false)
    (hfA : (h A).force = vq (0, 0)) (hfB : (h B).force = vq (0, 0))
    (hjA : (h A).impulse = vq (0, 0)) (hjB : (h B).impulse = vq (0, 0))
    (ha : a.1 * a.1 + a.2 * a.2 = 1)
    (hvA : (h A).velocity = vq (v * a.1, v * a.2))
    (hvB : (h B).velocity = vq (-v * a.1, -v * a.2))
    (hJ : J = fmul (fmul (fdiv (fmul (double.fin m) (double.fin m))
        (fadd (double.fin m) (double.fin m))) (fadd 1.0 (double.fin 1)))
      (fsub (vec_dot (h B).velocity (vq a)) (vec_dot (h A).velocity (vq a)))) :
    ∃ h2, calc_physics_collision h A B (vq a) (some aux) = some h2 ∧
      (body_tick (h2 A) (double.fin t)).velocity =
        ⟨fadd (h A).velocity.x (fmul (fdiv 1.0 (double.fin m))
            (fadd (vec_multiply J (vq a)).x (fmul (double.fin t) (double.fin 0)))),
         fadd (h A).velocity.y (fmul (fdiv 1.0 (double.fin m))
            (fadd (vec_multiply J (vq a)).y (fmul (double.fin t) (double.fin 0))))⟩ ∧
      (body_tick (h2 B) (double.fin t)).velocity =
        ⟨fadd (h B).velocity.x (fmul (fdiv 1.0 (double.fin m))
            (fadd (vec_negate (vec_multiply J (vq a))).x
              (fmul (double.fin t) (double.fin 0)))),
         fadd (h B).velocity.y (fmul (fdiv 1.0 (double.fin m))
            (fadd (vec_negate (vec_multiply J (vq a))).y
              (fmul (double.fin t) (double.fin 0))))⟩ ∧
      ((∀ q ∈ [a.1, a.2, m * m, m + m, m / 2, m, 1 / m, 2 * v, 2 * m * v,
          2 * m * v * a.1, 2 * m * v * a.2, 2 * v * a.1, 2 * v * a.2, v * a.1, v * a.2],
          (double.fin q).representable) →
        (body_tick (h2 A) (double.fin t)).velocity = vq (-v * a.1, -v * a.2) ∧
        (body_tick (h2 B) (double.fin t)).velocity = vq (v * a.1, v * a.2)) := by
  subst hJ
  have hBA : B ≠ A := fun e => hAB e.symm
  have hm0 : m ≠ 0 := ne_of_gt hm
  have hmm : m + m ≠ 0 := by linarith
  have hinf : double.eq (double.fin m) INFINITY = false := rfl
  have hneg1 : (-1 : double) = double.fin (-1) := by
    show double.neg (double.fin ((1 : Nat) : ℚ)) = double.fin (-1)
    simp [double.neg]
  simp only [calc_physics_collision, body_is_collided, hcA, hcB, Bool.not_false, Bool.and_self,
    if_true]
  refine ⟨_, rfl, ?_, ?_, ?_⟩
  · simp only [heap.modify, heap.set, hAB, hBA, if_true, if_false, body_collided,
      body_add_impulse, body_get_mass, body_get_velocity, hmA, hmB, hjA, he, hinf,
      ELASTICITY_TERM, body_tick, body_is_removed, hrA, hfA, body_set_velocity,
      body_set_centroid, vec_multiply, vec_add, vq, double.fin_zero_add, Bool.not_false,
      Bool.and_self, Bool.false_eq_true]
  · simp only [heap.modify, heap.set, hAB, hBA, if_true, if_false, body_collided,
      body_add_impulse, body_get_mass, body_get_velocity, hmA, hmB, hjB, he, hinf,
      ELASTICITY_TERM, body_tick, body_is_removed, hrB, hfB, body_set_velocity,
      body_set_centroid, vec_multiply, vec_add, vec_negate, vq, double.fin_zero_add,
      double.neg_one_mul, Bool.not_false, Bool.and_self, Bool.false_eq_true]
  intro hex
  have rep : ∀ p q : ℚ, q ∈ [a.1, a.2, m * m, m + m, m / 2, m, 1 / m, 2 * v, 2 * m * v,
      2 * m * v * a.1, 2 * m * v * a.2, 2 * v * a.1, 2 * v * a.2, v * a.1, v * a.2] →
      (p = q ∨ p = -q) → (double.fin p).representable := by
    intro p q hq hp
    rcases hp with hp | hp
    · rw [hp]; exact hex q hq
    · rw [hp]; exact double.representable_fin_neg q (hex q hq)
  -- the operations of `calc_physics_collision`
  have e1 : fmul (double.fin m) (double.fin m) = double.fin (m * m) :=
    fmul_fin _ _ (rep _ (m * m) (by simp) (Or.inl rfl))
  have e2 : fadd (double.fin m) (double.fin m) = double.fin (m + m) :=
    fadd_fin _ _ (rep _ (m + m) (by simp) (Or.inl rfl))
  have e3 : fdiv (double.fin (m * m)) (double.fin (m + m)) = double.fin (m / 2) := by
    have e : m * m / (m + m) = m / 2 := by field_simp; ring
    rw [fdiv_fin _ _ hmm (rep _ (m / 2) (by simp) (Or.inl e)), e]
  have e4 : fadd (double.fin 1) (double.fin 1) = double.fin (1 + 1) :=
    fadd_fin _ _ representable_two
  have e5 : fsub (double.fin (-v * a.1 * a.1 + -v * a.2 * a.2))
      (double.fin (v * a.1 * a.1 + v * a.2 * a.2)) = double.fin (-(2 * v)) := by
    have e : -v * a.1 * a.1 + -v * a.2 * a.2 - (v * a.1 * a.1 + v * a.2 * a.2) = -(2 * v) := by
      linear_combination (-(2 : ℚ) * v) * ha
    rw [fsub_fin _ _ (rep _ (2 * v) (by simp) (Or.inr e)), e]
  have e6 : fmul (double.fin (m / 2)) (double.fin (1 + 1)) = double.fin m := by
    have e : m / 2 * (1 + 1) = m := by ring
    rw [fmul_fin _ _ (rep _ m (by simp) (Or.inl e)), e]
  have e7 : fmul (double.fin m) (double.fin (-(2 * v))) = double.fin (-(2 * m * v)) := by
    have e : m * -(2 * v) = -(2 * m * v) := by ring
    rw [fmul_fin _ _ (rep _ (2 * m * v) (by simp) (Or.inr e)), e]
  -- the operations of `body_tick`
  have e8 : fdiv (double.fin 1) (double.fin m) = double.fin (1 / m) :=
    fdiv_fin _ _ hm0 (rep _ (1 / m) (by simp) (Or.inl rfl))
  have i1 : ∀ x y : ℚ, 0 + x = y → (double.fin y).representable →
      fadd (double.fin (0 + x)) (double.fin 0) = double.fin y := by
    intro x y hxy hy
    rw [hxy]
    exact fadd_fin_zero _ hy
  constructor
  · simp only [heap.modify, heap.set, hAB, hBA, if_true, if_false, body_collided,
      body_add_impulse, body_get_mass, body_get_velocity, hmA, hmB, hvA, hvB, hjA, he, hinf,
      ELASTICITY_TERM, body_tick, body_is_removed, hrA, hfA, body_set_velocity,
      body_set_centroid, vec_dot, double.one_lit, e1, e2, e3, e4, e5, e6, e7, e8,
      vec_multiply, vec_add, vq, Bool.not_false, Bool.and_self, Bool.false_eq_true,
      double.fin_mul, double.fin_add, fmul_fin_zero]
    have j1 : fadd (double.fin (0 + -(2 * m * v) * a.1)) (double.fin 0) =
        double.fin (-(2 * m * v * a.1)) :=
      i1 _ _ (by ring) (rep _ (2 * m * v * a.1) (by simp) (Or.inr rfl))
    have j2 : fadd (double.fin (0 + -(2 * m * v) * a.2)) (double.fin 0) =
        double.fin (-(2 * m * v * a.2)) :=
      i1 _ _ (by ring) (rep _ (2 * m * v * a.2) (by simp) (Or.inr rfl))
    have k1 : fmul (double.fin (1 / m)) (double.fin (-(2 * m * v * a.1))) =
        double.fin (-(2 * v * a.1)) := by
      have e : 1 / m * -(2 * m * v * a.1) = -(2 * v * a.1) := by field_simp; ring
      rw [fmul_fin _ _ (rep _ (2 * v * a.1) (by simp) (Or.inr e)), e]
    have k2 : fmul (double.fin (1 / m)) (double.fin (-(2 * m * v * a.2))) =
        double.fin (-(2 * v * a.2)) := by
      have e : 1 / m * -(2 * m * v * a.2) = -(2 * v * a.2) := by field_simp; ring
      rw [fmul_fin _ _ (rep _ (2 * v * a.2) (by simp) (Or.inr e)), e]
    have l1 : fadd (double.fin (v * a.1)) (double.fin (-(2 * v * a.1))) =
        double.fin (-v * a.1) := by
      have e : v * a.1 + -(2 * v * a.1) = -v * a.1 := by ring
      rw [fadd_fin _ _ (rep _ (v * a.1) (by simp) (Or.inr (by ring))), e]
    have l2 : fadd (double.fin (v * a.2)) (double.fin (-(2 * v * a.2))) =
        double.fin (-v * a.2) := by
      have e : v * a.2 + -(2 * v * a.2) = -v * a.2 := by ring
      rw [fadd_fin _ _ (rep _ (v * a.2) (by simp) (Or.inr (by ring))), e]
    simp only [j1, j2, k1, k2, l1, l2]
  · simp only [heap.modify, heap.set, hAB, hBA, if_true, if_false, body_collided,
      body_add_impulse, body_get_mass, body_get_velocity, hmA, hmB, hvA, hvB, hjB, he, hinf,
      ELASTICITY_TERM, body_tick, body_is_removed, hrB, hfB, body_set_velocity,
      body_set_centroid, vec_dot, double.one_lit, e1, e2, e3, e4, e5, e6, e7, e8,
      vec_multiply, vec_add, vq, Bool.not_false, Bool.and_self, Bool.false_eq_true, hneg1,
      double.fin_mul, double.fin_add, fmul_fin_zero]
    have j1 : fadd (double.fin (0 + -1 * (-(2 * m * v) * a.1))) (double.fin 0) =
        double.fin (2 * m * v * a.1) :=
      i1 _ _ (by ring) (rep _ (2 * m * v * a.1) (by simp) (Or.inl rfl))
    have j2 : fadd (double.fin (0 + -1 * (-(2 * m * v) * a.2))) (double.fin 0) =
        double.fin (2 * m * v * a.2) :=
      i1 _ _ (by ring) (rep _ (2 * m * v * a.2) (by simp) (Or.inl rfl))
    have k1 : fmul (double.fin (1 / m)) (double.fin (2 * m * v * a.1)) =
        double.fin (2 * v * a.1) := by
      have e : 1 / m * (2 * m * v * a.1) = 2 * v * a.1 := by field_simp; ring
      rw [fmul_fin _ _ (rep _ (2 * v * a.1) (by simp) (Or.inl e)), e]
    have k2 : fmul (double.fin (1 / m)) (double.fin (2 * m * v * a.2)) =
        double.fin (2 * v * a.2) := by
      have e : 1 / m * (2 * m * v * a.2) = 2 * v * a.2 := by field_simp; ring
      rw [fmul_fin _ _ (rep _ (2 * v * a.2) (by simp) (Or.inl e)), e]
    have l1 : fadd (double.fin (-v * a.1)) (double.fin (2 * v * a.1)) =
        double.fin (v * a.1) := by
      have e : -v * a.1 + 2 * v * a.1 = v * a.1 := by ring
      rw [fadd_fin _ _ (rep _ (v * a.1) (by simp) (Or.inl e)), e]
    have l2 : fadd (double.fin (-v * a.2)) (double.fin (2 * v * a.2)) =
        double.fin (v * a.2) := by
      have e : -v * a.2 + 2 * v * a.2 = v * a.2 := by ring
      rw [fadd_fin _ _ (rep _ (v * a.2) (by simp) (Or.inl e)), e]
    simp only [j1, j2, k1, k2, l1, l2]

/-- Witness of C10 as amended: two unit squares of mass 4 with velocities
(0, 3/2) and (0, -3/2), that is speed 3/2 along the unit axis (0, 1), ticked
by 1/4; no operation rounds and the velocities are swapped. -/
theorem physics_collision_then_tick_witness :
    ∃ h2, calc_physics_collision
        (two_bodies (square_body 0 0 (double.fin 4) (vq (3 / 2 * 0, 3 / 2 * 1)))
          (square_body 0 1 (double.fin 4) (vq (-(3 / 2) * 0, -(3 / 2) * 1)))) 0 1
        (vq (0, 1)) (some (aux_init (double.fin 1))) = some h2 ∧
      (body_tick (h2 0) (double.fin (1 / 4))).velocity = vq (-(3 / 2) * 0, -(3 / 2) * 1) ∧
      (body_tick (h2 1) (double.fin (1 / 4))).velocity = vq (3 / 2 * 0, 3 / 2 * 1) :=
  let ⟨h2, hr, _, _, hE⟩ := physics_collision_then_tick
    (two_bodies (square_body 0 0 (double.fin 4) (vq (3 / 2 * 0, 3 / 2 * 1)))
      (square_body 0 1 (double.fin 4) (vq (-(3 / 2) * 0, -(3 / 2) * 1)))) 0 1 (by decide) 4
    (3 / 2) (1 / 4) (0, 1) (aux_init (double.fin 1)) _ rfl (by norm_num) rfl rfl rfl rfl rfl rfl
    (by decide!) (by decide!) (by decide!) (by decide!) (by norm_num) rfl rfl rfl
  ⟨h2, hr, hE (by decide!)⟩

/-! ### Gravity -/

theorem dsqrt_sum_sq (M : libm) (a b : ℚ) :
    M.dsqrt (double.fin (a * a + b * b)) = double.fin (M.sqrt (a * a + b * b)) := by
  have hnn : ¬ (a * a + b * b < 0) :=
    not_lt.mpr (add_nonneg (mul_self_nonneg a) (mul_self_nonneg b))
  simp only [libm.dsqrt, hnn, if_false]

theorem vec_magnitude_vq (M : libm) (d : ℚ × ℚ) :
    vec_magnitude M (vq d) = double.fin (M.sqrt (qdot d d)) := by
  simp only [vec_magnitude, vq, double.fin_mul, double.fin_add, dsqrt_sum_sq, qdot]

theorem double.lt_imp_le (a b : double) (hlt : a < b) : a ≤ b := by
  have h1 : double.lt a b = true := hlt
  show double.le a b = true
  cases a <;> cases b <;> simp [double.lt, double.le] at h1 ⊢
  exact le_of_lt h1

/-- C12 fails on overflow: two diamonds of radius 1 with centroids (0,0) and
(3,0), at distance 3 > 1 + 1, with G = 1e-300 and both masses 1e200.  The
product of the masses is `+inf`, so is the factor `G*(m1*m2)/(r*r*r)`, and
`calc_gravity_force` adds the force (+inf, NaN) to the first body and
(-inf, NaN) to the second, where `G*m1*m2/r^2` is finite. -/
theorem calc_gravity_force_overflow :
    fmul (double.lit 1e200) (double.lit 1e200) = double.pinf ∧
    (calc_gravity_force exact_libm
        (two_bodies (diamond_body 0 0 (double.lit 1e200)) (diamond_body 3 0 (double.lit 1e200)))
        (aux_add_body (aux_add_body (aux_init (double.lit 1e-300)) 0) 1)).map
      (fun h2 => ((h2 0).force, (h2 1).force)) =
      some (⟨double.pinf, double.nan⟩, ⟨double.ninf, double.nan⟩) ∧
    (fdiv (fmul (fmul (double.lit 1e-300) (double.lit 1e200)) (double.lit 1e200))
      (fmul 3 3)).isFin = true := by
  refine ⟨?_, ?_, ?_⟩ <;> decide!

/-- C12 as amended: for two distinct bodies whose centroid distance `r`, as
`calc_gravity_force` computes it, is strictly greater than the sum of the two
radii: `calc_gravity_force` adds to body1 the force `k*(c2 - c1)` with
`k = (G*(m1*m2))/(r*r*r)` in the C operators on doubles, and to body2 the
negation of that force; nothing else changes.  When no operation rounds (the
components of `c2 - c1`, their squares and the sum of these, the products
`m1*m2`, `G*(m1*m2)`, `r*r`, `r*r*r`, the quotient `k` and the components of
`k*(c2 - c1)` are binary64 values) the force is `G*m1*m2/r^2` times
`(c2 - c1)/r`, which has length one when `r*r` is the squared length of
`c2 - c1`. -/
theorem calc_gravity_force_adds (M : libm) (h : heap) (A B : Nat) (hAB : A ≠ B)
    (aux : auxillary_t) (tip1 tip2 : vector_t) (k : double)
    (h0 : aux_get_body aux 0 = some A) (h1 : aux_get_body aux 1 = some B)
    (hp1 : list_get (h A).points 0 = some tip1) (hp2 : list_get (h B).points 0 = some tip2)
    (hk : k = fdiv (fmul (aux_get_constant aux) (fmul (h A).mass (h B).mass))
      (fmul (fmul (vec_magnitude M (vec_subtract (h B).centroid (h A).centroid))
          (vec_magnitude M (vec_subtract (h B).centroid (h A).centroid)))
        (vec_magnitude M (vec_subtract (h B).centroid (h A).centroid))))
    (hgt : fadd (vec_magnitude M (vec_subtract (h A).centroid tip1))
        (vec_magnitude M (vec_subtract (h B).centroid tip2)) <
      vec_magnitude M (vec_subtract (h B).centroid (h A).centroid)) :
    ∃ h2, calc_gravity_force M h aux = some h2 ∧
      h2 A = { h A with force := (vec_add (h A).force
        (vec_multiply k (vec_subtract (h B).centroid (h A).centroid))) } ∧
      h2 B = { h B with force := (vec_add (h B).force (vec_negate
        (vec_multiply k (vec_subtract (h B).centroid (h A).centroid)))) } ∧
      (∀ p, p ≠ A → p ≠ B → h2 p = h p) ∧
      (∀ (G m1 m2 r : ℚ) (c1 c2 : ℚ × ℚ), aux_get_constant aux = double.fin G →
        (h A).mass = double.fin m1 → (h B).mass = double.fin m2 →
        (h A).centroid = vq c1 → (h B).centroid = vq c2 →
        r = M.sqrt (qdot (c2 - c1) (c2 - c1)) → r ≠ 0 →
        (∀ q ∈ [c2.1 - c1.1, c2.2 - c1.2, (c2.1 - c1.1) * (c2.1 - c1.1),
            (c2.2 - c1.2) * (c2.2 - c1.2), qdot (c2 - c1) (c2 - c1), m1 * m2, G * (m1 * m2),
            r * r, r * r * r, G * (m1 * m2) / (r * r * r),
            G * (m1 * m2) / (r * r * r) * (c2.1 - c1.1),
            G * (m1 * m2) / (r * r * r) * (c2.2 - c1.2)],
          (double.fin q).representable) →
        vec_multiply k (vec_subtract (h B).centroid (h A).centroid) =
            vq (G * m1 * m2 / (r * r) * ((c2.1 - c1.1) / r),
                G * m1 * m2 / (r * r) * ((c2.2 - c1.2) / r)) ∧
          (qdot (c2 - c1) (c2 - c1) = r * r →
            ((c2.1 - c1.1) / r) * ((c2.1 - c1.1) / r) +
              ((c2.2 - c1.2) / r) * ((c2.2 - c1.2) / r) = 1)) := by
  have hBA : B ≠ A := fun e => hAB e.symm
  have hge : vec_magnitude M (vec_subtract (h B).centroid (h A).centroid) ≥
      fadd (vec_magnitude M (vec_subtract (h A).centroid tip1))
        (vec_magnitude M (vec_subtract (h B).centroid tip2)) := double.lt_imp_le _ _ hgt
  simp only [calc_gravity_force, h0, h1, body_get_centroid, body_get_mass, body_get_shape,
    hp1, hp2, hge, if_true, ← hk]
  refine ⟨_, rfl, ?_, ?_, ?_, ?_⟩
  · rw [heap.modify_other _ _ _ _ hAB, heap.modify_same]
    rfl
  · rw [heap.modify_same, heap.modify_other _ _ _ _ hBA]
    rfl
  · intro p hpA hpB
    rw [heap.modify_other _ _ _ _ hpB, heap.modify_other _ _ _ _ hpA]
  · intro G m1 m2 r c1 c2 hG hm1 hm2 hc1 hc2 hr hr0 hex
    have hr3 : r * r * r ≠ 0 := mul_ne_zero (mul_ne_zero hr0 hr0) hr0
    have key : ∀ d : ℚ, G * (m1 * m2) / (r * r * r) * d = G * m1 * m2 / (r * r) * (d / r) := by
      intro d
      rw [div_mul_eq_mul_div, div_mul_div_comm, div_eq_div_iff hr3 hr3]
      ring
    have hkv : k = double.fin (G * (m1 * m2) / (r * r * r)) := by
      rw [hk, hG, hm1, hm2, hc1, hc2, vec_subtract_vq, vec_magnitude_vq, ← hr,
        fmul_fin _ _ (hex _ (by simp)), fmul_fin _ _ (hex _ (by simp)),
        fmul_fin _ _ (hex _ (by simp)), fmul_fin _ _ (hex _ (by simp)),
        fdiv_fin _ _ hr3 (hex _ (by simp))]
    constructor
    · rw [hkv, hc1, hc2, vec_subtract_vq]
      simp only [vec_multiply, vq, double.fin_mul, Prod.fst_sub, Prod.snd_sub, key]
    · intro hrr
      simp only [qdot, Prod.fst_sub, Prod.snd_sub] at hrr
      field_simp
      linarith

/-- Witness of C12 as amended.  Two diamonds of radius 1 with centroids (0,0)
and (3,3), with G = 2 and masses 3 and 7: the squared distance 18 is not the
square of a rational, and `exact_libm` computes the distance 4.  Two such
diamonds with centroids (0,0) and (4,0), at distance 4: no operation rounds
and the force on the first is `2*3*7/4^2` times the unit vector (1, 0). -/
theorem calc_gravity_force_adds_witness :
    (∃ h2, calc_gravity_force exact_libm
        (two_bodies (diamond_body 0 0 (double.fin 3)) (diamond_body 3 3 (double.fin 7)))
        (aux_add_body (aux_add_body (aux_init (double.fin 2)) 0) 1) = some h2 ∧
      (h2 0).force = vec_add VEC_ZERO (vec_multiply
        (fdiv (fmul (double.fin 2) (fmul (double.fin 3) (double.fin 7)))
          (fmul (fmul (double.fin 4) (double.fin 4)) (double.fin 4)))
        (vq (3, 3)))) ∧
    (∃ h2, calc_gravity_force exact_libm
        (two_bodies (diamond_body 0 0 (double.fin 3)) (diamond_body 4 0 (double.fin 7)))
        (aux_add_body (aux_add_body (aux_init (double.fin 2)) 0) 1) = some h2 ∧
      (h2 0).force = vec_add VEC_ZERO
        (vq (2 * 3 * 7 / (4 * 4) * ((4 - 0) / 4), 2 * 3 * 7 / (4 * 4) * ((0 - 0) / 4)))) :=
  by
  constructor
  · obtain ⟨h2, hr, hA, _, _⟩ := calc_gravity_force_adds exact_libm
      (two_bodies (diamond_body 0 0 (double.fin 3)) (diamond_body 3 3 (double.fin 7))) 0 1
      (by decide) (aux_add_body (aux_add_body (aux_init (double.fin 2)) 0) 1)
      (vq (0 + 1, 0)) (vq (3 + 1, 3)) _ rfl rfl rfl rfl rfl (by decide!)
    exact ⟨h2, hr, by rw [hA]; decide!⟩
  · obtain ⟨h2, hr, hA, _, _, hE⟩ := calc_gravity_force_adds exact_libm
      (two_bodies (diamond_body 0 0 (double.fin 3)) (diamond_body 4 0 (double.fin 7))) 0 1
      (by decide) (aux_add_body (aux_add_body (aux_init (double.fin 2)) 0) 1)
      (vq (0 + 1, 0)) (vq (4 + 1, 0)) _ rfl rfl rfl rfl rfl (by decide!)
    refine ⟨h2, hr, ?_⟩
    rw [hA, ← (hE 2 3 7 4 (0, 0) (4, 0) rfl rfl rfl rfl rfl (by decide!) (by norm_num)
      (by decide!)).1]
    rfl

theorem double.not_ge_of_lt (a b : double) (hlt : a < b) : ¬ (a ≥ b) := by
  have h1 : double.lt a b = true := hlt
  show ¬ (double.le b a = true)
  cases a <;> cases b <;> simp [double.lt, double.le] at h1 ⊢
  exact h1

/-- C13 fails at contact: two diamonds of radius 1 with centroids (0,0) and
(2,0) are at a distance equal to the sum of their radii, and
`calc_gravity_force` adds the force (1/4, 0) to the first and (-1/4, 0) to
the second. -/
theorem calc_gravity_force_at_contact :
    vec_magnitude exact_libm (vec_subtract (vq (2, 0)) (vq (0, 0))) =
        fadd (vec_magnitude exact_libm (vec_subtract (vq (0, 0)) (vq (1, 0))))
          (vec_magnitude exact_libm (vec_subtract (vq (2, 0)) (vq (3, 0)))) ∧
    (two_bodies (diamond_body 0 0 1) (diamond_body 2 0 1) 0).force = vq (0, 0) ∧
    (two_bodies (diamond_body 0 0 1) (diamond_body 2 0 1) 1).force = vq (0, 0) ∧
    (calc_gravity_force exact_libm (two_bodies (diamond_body 0 0 1) (diamond_body 2 0 1))
        (aux_add_body (aux_add_body (aux_init 1) 0) 1)).map
      (fun h2 => ((h2 0).force, (h2 1).force)) = some (vq (1 / 4, 0), vq (-1 / 4, 0)) := by
  refine ⟨?_, ?_, ?_, ?_⟩ <;> decide!

/-- C13 as amended: when the centroid distance is strictly less than the sum
of the two radii (distance from each centroid to the first vertex of the
body), `calc_gravity_force` leaves the memory as it was: no force is added to
either body. -/
theorem calc_gravity_force_suppressed (M : libm) (h : heap) (A B : Nat) (aux : auxillary_t)
    (tip1 tip2 : vector_t) (h0 : aux_get_body aux 0 = some A) (h1 : aux_get_body aux 1 = some B)
    (hp1 : list_get (h A).points 0 = some tip1) (hp2 : list_get (h B).points 0 = some tip2)
    (hlt : vec_magnitude M (vec_subtract (h B).centroid (h A).centroid) <
      fadd (vec_magnitude M (vec_subtract (h A).centroid tip1))
        (vec_magnitude M (vec_subtract (h B).centroid tip2))) :
    calc_gravity_force M h aux = some h := by
  have hnot := double.not_ge_of_lt _ _ hlt
  simp only [calc_gravity_force, h0, h1, body_get_centroid, body_get_shape, hp1, hp2, hnot,
    if_false]

/-- Witness of C13 as amended: two diamonds of radius 1 with centroids (0,0)
and (1,0). -/
theorem calc_gravity_force_suppressed_witness :
    calc_gravity_force exact_libm (two_bodies (diamond_body 0 0 1) (diamond_body 1 0 1))
        (aux_add_body (aux_add_body (aux_init 1) 0) 1) =
      some (two_bodies (diamond_body 0 0 1) (diamond_body 1 0 1)) :=
  calc_gravity_force_suppressed exact_libm
    (two_bodies (diamond_body 0 0 1) (diamond_body 1 0 1)) 0 1
    (aux_add_body (aux_add_body (aux_init 1) 0) 1) (vq (0 + 1, 0)) (vq (1 + 1, 0)) rfl rfl rfl rfl
    (by decide!)

/-! ### Destructive collision -/

theorem qoverlap_self_nonneg (M : libm) (L : ℚ × ℚ) (P : List (ℚ × ℚ)) (hP : P ≠ []) :
    0 ≤ qoverlap M L P P := by
  have e : P.map (signed_mag M L) ≠ [] := by simpa using hP
  have hm := lmin_le_lmax _ e
  simp only [qoverlap, le_refl, if_true]
  linarith

/-- The detector on a body and itself returns `collided = true` and leaves
the memory as it was. -/
theorem find_collision_self (M : libm) (hM : M.c90 ≠ 0 ∨ M.s90 ≠ 0) (h : heap) (A : Nat)
    (P : List (ℚ × ℚ)) (hA : (h A).points = P.map vq) (hP : P ≠ []) (he : no_zero_edge P) :
    ∃ axis, find_collision M h A A = some ({ collided := true, axis := axis }, h) := by
  rw [find_collision_fin M hM h A A P P hA hA hP hP he he]
  obtain ⟨w, hw⟩ := qloop_isSome_of_nonneg M P P (qperp M P ++ qperp M P) (0, 0) 99999
    (fun L _ => qoverlap_self_nonneg M L P hP)
  rw [hw]
  exact ⟨_, rfl⟩

theorem heap.modify_remove_twice (h : heap) (A : Nat) :
    (h.modify A body_remove).modify A body_remove = h.modify A body_remove := by
  funext p
  by_cases hp : p = A
  · subst hp
    rw [heap.modify_same, heap.modify_same]
    rfl
  · rw [heap.modify_other _ _ _ _ hp]

/-- One pass of a scene that holds only the generator registered by
`create_destructive_collision(scene, A, B)`: the body A is marked removed and
nothing else changes. -/
theorem run_destructive_generator (M : libm) (hM : M.c90 ≠ 0 ∨ M.s90 ≠ 0) (h : heap)
    (A B : Nat) (P : List (ℚ × ℚ)) (hA : (h A).points = P.map vq) (hP : P ≠ [])
    (he : no_zero_edge P) :
    scene_run_force_creators M (create_destructive_collision { force_creators := [] } A B) h =
      some (h.modify A body_remove) := by
  obtain ⟨axis, hfc⟩ := find_collision_self M hM h A P hA hP he
  simp only [scene_run_force_creators, create_destructive_collision, create_collision,
    scene_add_bodies_force_creator, List.nil_append, List.foldl_cons, List.foldl_nil,
    call_force_creator, calc_collison, aux_init, aux_add_body, aux_set_collision, aux_set_aux,
    aux_get_body, aux_get_aux, aux_get_collision, list_get]
  simp only [List.getElem?_cons_zero, List.getElem?_cons_succ, List.nil_append,
    List.cons_append, hfc, get_if_collided, get_collision_axis, if_true,
    call_collision_handler, calc_destructive_force, heap.modify_remove_twice]

/-- C20: for a body A with a finite, non-empty polygon without an edge of
length zero, `find_collision(A, A)` returns `collided = true`; the generator
registered by `create_destructive_collision(scene, A, B)` marks A removed,
whatever body B is, and leaves B and every other body as it was. -/
theorem destructive_collision_self (M : libm) (hM : M.c90 ≠ 0 ∨ M.s90 ≠ 0) (h : heap)
    (A B : Nat) (hAB : A ≠ B) (P : List (ℚ × ℚ)) (hA : (h A).points = P.map vq) (hP : P ≠ [])
    (he : no_zero_edge P) :
    (∃ r, find_collision M h A A = some r ∧ r.1.collided = true) ∧
    ∃ h2, scene_run_force_creators M
        (create_destructive_collision { force_creators := [] } A B) h = some h2 ∧
      h2 A = body_remove (h A) ∧ (h2 A).removed = true ∧
      h2 B = h B ∧ (h2 B).removed = (h B).removed ∧ ∀ p, p ≠ A → h2 p = h p := by
  have hBA : B ≠ A := fun e => hAB e.symm
  constructor
  · obtain ⟨axis, hfc⟩ := find_collision_self M hM h A P hA hP he
    exact ⟨_, hfc, rfl⟩
  · refine ⟨_, run_destructive_generator M hM h A B P hA hP he, ?_, ?_, ?_, ?_, ?_⟩
    · rw [heap.modify_same]
    · rw [heap.modify_same]; rfl
    · rw [heap.modify_other _ _ _ _ hBA]
    · rw [heap.modify_other _ _ _ _ hBA]
    · intro p hp
      rw [heap.modify_other _ _ _ _ hp]

/-- Witness of C20: the unit square at address 0 and a far body at address 1. -/
theorem destructive_collision_self_witness :
    ∃ h2, scene_run_force_creators sample_libm
        (create_destructive_collision { force_creators := [] } 0 1)
        (two_bodies (square_body 0 0 1 VEC_ZERO) (square_body 100 100 1 VEC_ZERO)) = some h2 ∧
      (h2 0).removed = true ∧ (h2 1).removed = false :=
  let ⟨h2, hr, _, hA, hB, _, _⟩ := (destructive_collision_self sample_libm
    (Or.inl sample_libm_c90)
    (two_bodies (square_body 0 0 1 VEC_ZERO) (square_body 100 100 1 VEC_ZERO)) 0 1 (by decide)
    (qsquare 0 0 (1 / 2)) rfl (by simp [qsquare]) (by decide!)).2
  ⟨h2, hr, hA, by rw [hB]; rfl⟩

/-- C14 (the code at a failing input): the unit squares centred at (0,0) and
(1/2,0) overlap, they share the point (1/4,0); one pass of the generator
registered by `create_destructive_collision(scene, A, B)` marks A removed and
leaves B not removed. -/
theorem destructive_collision_keeps_second (M : libm) (hM : M.c90 ≠ 0 ∨ M.s90 ≠ 0) :
    in_hull (qsquare 0 0 (1 / 2)) (1 / 4, 0) ∧ in_hull (qsquare (1 / 2) 0 (1 / 2)) (1 / 4, 0) ∧
    ∃ h2, scene_run_force_creators M (create_destructive_collision { force_creators := [] } 0 1)
        (two_bodies (square_body 0 0 1 VEC_ZERO) (square_body (1 / 2) 0 1 VEC_ZERO)) = some h2 ∧
      (h2 0).removed = true ∧ (h2 1).removed = false := by
  refine ⟨⟨[1 / 8, 3 / 8, 3 / 8, 1 / 8], rfl, by decide!, by decide!, by decide!⟩,
    ⟨[3 / 8, 1 / 8, 1 / 8, 3 / 8], rfl, by decide!, by decide!, by decide!⟩, ?_⟩
  refine ⟨_, run_destructive_generator M hM _ 0 1 (qsquare 0 0 (1 / 2)) rfl
    (by simp [qsquare]) (no_zero_edge_qsquare 0 0 (1 / 2) (by norm_num)), ?_, ?_⟩
  · rw [heap.modify_same]; rfl
  · rw [heap.modify_other _ _ _ _ (by decide)]; rfl

/-- Witness of C14 on the sample maths library. -/
theorem destructive_collision_keeps_second_witness :
    ∃ h2, scene_run_force_creators sample_libm
        (create_destructive_collision { force_creators := [] } 0 1)
        (two_bodies (square_body 0 0 1 VEC_ZERO) (square_body (1 / 2) 0 1 VEC_ZERO)) = some h2 ∧
      (h2 0).removed = true ∧ (h2 1).removed = false :=
  (destructive_collision_keeps_second sample_libm (Or.inl sample_libm_c90)).2.2

/-! ### The candidate axes and the edges -/

theorem qdot_qrot_edge (c s : ℚ) (e : ℚ × ℚ) : qdot (qrot c s e) e = c * qdot e e := by
  simp only [qdot, qrot]; ring

/-- C19 (the code on any finite polygon): the i-th candidate axis built by
`perpendicular_lines` is the edge `p[i] - p[(i+1) mod n]` rotated by
`NINETY_DEGREES`; its dot product with the edge is the cosine of
`NINETY_DEGREES` times the squared length of the edge, which is not zero for
an edge of non-zero length as soon as that cosine is not zero; it has the
length of the edge when `cos^2 + sin^2 = 1`. -/
theorem perpendicular_lines_not_perpendicular (M : libm) (hc : M.c90 ≠ 0) (P : List (ℚ × ℚ))
    (i : Nat) (hi : i < P.length) (hedge : P.getD i 0 ≠ P.getD ((i + 1) % P.length) 0) :
    list_get (perpendicular_lines M [] (P.map vq)) i =
      some (vec_rotate M (vq (P.getD i 0 - P.getD ((i + 1) % P.length) 0)) NINETY_DEGREES) ∧
    vec_dot (vec_rotate M (vq (P.getD i 0 - P.getD ((i + 1) % P.length) 0)) NINETY_DEGREES)
        (vq (P.getD i 0 - P.getD ((i + 1) % P.length) 0)) =
      double.fin (M.c90 * qdot (P.getD i 0 - P.getD ((i + 1) % P.length) 0)
        (P.getD i 0 - P.getD ((i + 1) % P.length) 0)) ∧
    vec_dot (vec_rotate M (vq (P.getD i 0 - P.getD ((i + 1) % P.length) 0)) NINETY_DEGREES)
        (vq (P.getD i 0 - P.getD ((i + 1) % P.length) 0)) ≠ 0 ∧
    (M.c90 * M.c90 + M.s90 * M.s90 = 1 →
      vec_dot (vec_rotate M (vq (P.getD i 0 - P.getD ((i + 1) % P.length) 0)) NINETY_DEGREES)
          (vec_rotate M (vq (P.getD i 0 - P.getD ((i + 1) % P.length) 0)) NINETY_DEGREES) =
        vec_dot (vq (P.getD i 0 - P.getD ((i + 1) % P.length) 0))
          (vq (P.getD i 0 - P.getD ((i + 1) % P.length) 0))) := by
  have hne : qdot (P.getD i 0 - P.getD ((i + 1) % P.length) 0)
      (P.getD i 0 - P.getD ((i + 1) % P.length) 0) ≠ 0 := by
    apply sum_sq_ne_zero
    by_contra hcon
    push_neg at hcon
    apply hedge
    have h1 := hcon.1
    have h2 := hcon.2
    simp only [Prod.fst_sub, Prod.snd_sub] at h1 h2
    exact Prod.ext (by linarith) (by linarith)
  refine ⟨?_, ?_, ?_, ?_⟩
  · rw [perpendicular_lines_fin, List.nil_append, vec_rotate_vq]
    simp only [list_get, qperp, List.getElem?_map, List.getElem?_range hi, Option.map_some']
  · rw [vec_rotate_vq, vec_dot_vq, qdot_qrot_edge]
  · rw [vec_rotate_vq, vec_dot_vq, qdot_qrot_edge, double.zero_lit]
    intro h0
    exact mul_ne_zero hc hne (double.fin.inj h0)
  · intro hpyth
    rw [vec_rotate_vq, vec_dot_vq, vec_dot_vq, qdot_qrot_self]
    congr 1
    have : (M.c90 * M.c90 + M.s90 * M.s90) = 1 := hpyth
    rw [this, mul_one]
    rfl

/-- Witness of C19: the first edge of the unit square centred at the origin. -/
theorem perpendicular_lines_not_perpendicular_witness :
    vec_dot (vec_rotate sample_libm
        (vq ((qsquare 0 0 (1 / 2)).getD 0 0 -
          (qsquare 0 0 (1 / 2)).getD ((0 + 1) % (qsquare 0 0 (1 / 2)).length) 0))
        NINETY_DEGREES)
      (vq ((qsquare 0 0 (1 / 2)).getD 0 0 -
        (qsquare 0 0 (1 / 2)).getD ((0 + 1) % (qsquare 0 0 (1 / 2)).length) 0)) ≠ 0 :=
  (perpendicular_lines_not_perpendicular sample_libm sample_libm_c90 (qsquare 0 0 (1 / 2)) 0
    (by decide) (by decide!)).2.2.1
